import Mathlib

/-!
A verification development for the sidewalklabs/router transit-routing
library.  The TypeScript sources are embedded shallowly: JS numbers become
rationals (`ℚ`, with `WithTop ℚ` where `Infinity` participates), JS objects
keyed by strings become association lists, and the RAPTOR routing matrix —
whose reach records are mutated in place and shared between columns by
`copyTimes` — is modelled with an explicit heap of records addressed by
natural-number references, so that the aliasing behaviour of the original
code is preserved exactly.

Section guide:
  * basic GTFS entities and query options (src/gtfs-types.ts, src/options.ts);
  * the RAPTOR core (src/router.ts);
  * the online router entry points (src/online-router.ts);
  * walking-transfer construction (src/indexed-gtfs.ts);
  * date-based service filtering (src/gtfs.ts);
  * a store-based model of feed augmentation (src/indexed-gtfs.ts).
-/

namespace Router

/-- `TransportMode` from src/matrix.ts. -/
inductive TransportMode where
  | origin
  | transit
  | walk
deriving DecidableEq, Repr

/-- A stop-time row (src/gtfs-types.ts `StopTime`); `timeOfDaySec` is the
parsed `departure_time`.  The string time fields are irrelevant to routing
and omitted. -/
structure StopTime where
  tripId : String
  stopId : String
  stopSequence : Nat
  timeOfDaySec : ℚ
deriving DecidableEq, Repr

instance : Inhabited StopTime := ⟨⟨"", "", 0, 0⟩⟩

/-- `RouteType` from src/gtfs-types.ts. -/
inductive RouteType where
  | lightRail
  | subway
  | rail
  | bus
  | ferry
  | cableCar
  | gondola
  | funicular
deriving DecidableEq, Repr

/-- A route (src/gtfs-types.ts `Route`), restricted to the fields the router
reads. -/
structure GRoute where
  route_id : String
  route_type : RouteType
deriving DecidableEq, Repr

instance : Inhabited GRoute := ⟨⟨"", RouteType.bus⟩⟩

/-- A trip (src/gtfs-types.ts `Trip`), restricted to the fields the router
and the date filter read. -/
structure Trip where
  trip_id : String
  route_id : String
  service_id : String
deriving DecidableEq, Repr

instance : Inhabited Trip := ⟨⟨"", "", ""⟩⟩

/-- A stop (src/gtfs-types.ts `Stop`).  `feed` records the source feed of a
merged stop; `parentStation` is `none` when the CSV column is empty (the
sources test it for truthiness). -/
structure Stop where
  stopId : String
  stopName : String
  stopLat : ℚ
  stopLng : ℚ
  parentStation : Option String
  feed : Option String
deriving DecidableEq, Repr

instance : Inhabited Stop := ⟨⟨"", "", 0, 0, none, none⟩⟩

/-- A directed walking edge (src/indexed-gtfs.ts `WalkingTransfer`): the
origin stop is implicit, exactly one of `km` / `secs` is normally set. -/
structure WalkingTransfer where
  stopId : String
  km : Option ℚ
  secs : Option ℚ
deriving DecidableEq, Repr

/-- Query options (src/options.ts `QueryOptions`).  `max_commute_time_secs`
defaults to `Infinity`, hence `WithTop ℚ`.  `exclude_stops` is read by
src/router.ts with a guard for absence; we model it as a (possibly empty)
list. -/
structure QueryOptions where
  max_walking_distance_km : ℚ
  walking_speed_kph : ℚ
  max_waiting_time_secs : ℚ
  transfer_penalty_secs : ℚ
  max_number_of_transfers : Nat
  max_commute_time_secs : WithTop ℚ
  bus_multiplier : ℚ
  rail_multiplier : ℚ
  exclude_routes : List String
  exclude_stops : List String
deriving DecidableEq, Repr

/-- The defaults of src/options.ts. -/
def defaultOptions : QueryOptions where
  max_walking_distance_km := 3/2
  walking_speed_kph := 51/10
  max_waiting_time_secs := 1800
  transfer_penalty_secs := 30
  max_number_of_transfers := 1
  max_commute_time_secs := ⊤
  bus_multiplier := 1
  rail_multiplier := 1
  exclude_routes := []
  exclude_stops := []

/-- A reach record (src/matrix.ts `ReachInfo`).  The optional fields are
`undefined` for the origin record in the sources. -/
structure ReachInfo where
  timeOfDaySec : ℚ
  cost : ℚ
  previousStopId : Option String
  mode : TransportMode
  tripId : Option String
  isUnexplored : Bool
  prevK : Option Nat
deriving DecidableEq, Repr

instance : Inhabited ReachInfo :=
  ⟨⟨0, 0, none, TransportMode.origin, none, false, none⟩⟩

/-- Generic association-list lookup, the model of reading a string-keyed JS
object field. -/
def alFind {α : Type} (m : List (String × α)) (k : String) : Option α :=
  (m.find? (fun p => p.1 = k)).map (·.2)

/-- `alFind` with a default, the model of `obj[k] || dflt`. -/
def alGetD {α : Type} (m : List (String × α)) (k : String) (dflt : α) : α :=
  (alFind m k).getD dflt

/-- Update an existing key in place (JS objects keep the original insertion
position of an overwritten key) or append a new one. -/
def alPut {α : Type} (m : List (String × α)) (k : String) (v : α) :
    List (String × α) :=
  if m.any (fun p => p.1 = k) then
    m.map (fun p => if p.1 = k then (k, v) else p)
  else m ++ [(k, v)]

/-- The heap of reach records: JS `ReachInfo` objects are mutable and shared
between tau columns, so we address them by index. -/
abbrev Heap := List ReachInfo

/-- A tau column (src/matrix.ts `ReachMap`): stop id to heap reference, in
insertion order like a JS object. -/
abbrev ReachMap := List (String × Nat)

/-- Dereference the heap (out-of-range reads yield the default record; the
sources would throw there, and no reachable code path does). -/
def hGet (h : Heap) (r : Nat) : ReachInfo := h.getD r default

/-- Overwrite a heap cell in place. -/
def hSet (h : Heap) (r : Nat) (v : ReachInfo) : Heap := h.set r v

/-- The router's state: the record heap plus the tau matrix of columns. -/
structure RS where
  heap : Heap
  tau : List ReachMap
deriving DecidableEq, Repr

/-- Column `k` of tau (`tau[k]`; absent columns read as empty). -/
def getCol (s : RS) (k : Nat) : ReachMap := s.tau.getD k []

/-- Assign `tau[k] = m`: JS arrays grow on out-of-range assignment. -/
def setColList (t : List ReachMap) (k : Nat) (m : ReachMap) : List ReachMap :=
  if k < t.length then t.set k m
  else t ++ List.replicate (k - t.length) [] ++ [m]

/-- Assign `tau[k] = m` on the router state. -/
def setCol (s : RS) (k : Nat) (m : ReachMap) : RS :=
  { s with tau := setColList s.tau k m }

/-- The reach record stored for `sid` in `tau[k]`, if any. -/
def reachAt (s : RS) (k : Nat) (sid : String) : Option ReachInfo :=
  (alFind (getCol s k) sid).map (hGet s.heap)

/-- `addConnection` (src/router.ts:36): record a new connection to
`destinationStopId` in `tau[k]`, but only if it beats (strictly) the cost of
the current record, or there is none.  A fresh record is allocated and
marked `isUnexplored`. -/
def addConnection (s : RS) (k : Nat) (destinationStopId : String)
    (timeOfDaySec cost : ℚ) (previousStopId : String) (mode : TransportMode)
    (tripId : Option String) (prevK : Nat) : RS :=
  match alFind (getCol s k) destinationStopId with
  | none =>
      { heap := s.heap ++
          [⟨timeOfDaySec, cost, some previousStopId, mode, tripId, true, some prevK⟩],
        tau := setColList s.tau k
          (alPut (getCol s k) destinationStopId s.heap.length) }
  | some r =>
      if (hGet s.heap r).cost > cost then
        { heap := s.heap ++
            [⟨timeOfDaySec, cost, some previousStopId, mode, tripId, true, some prevK⟩],
          tau := setColList s.tau k
            (alPut (getCol s k) destinationStopId s.heap.length) }
      else s

/-- A pending `addConnection` call: the candidate connections produced while
scanning a stop, in source order.  src/router.ts applies each immediately;
the scan never reads `tau[k]`, so collecting them first is behaviourally
identical. -/
structure Cand where
  dest : String
  timeOfDaySec : ℚ
  cost : ℚ
  prev : String
  mode : TransportMode
  tripId : Option String
  prevK : Nat
deriving DecidableEq, Repr

/-- Apply one candidate via `addConnection` into `tau[k]`. -/
def applyCand (k : Nat) (s : RS) (c : Cand) : RS :=
  addConnection s k c.dest c.timeOfDaySec c.cost c.prev c.mode c.tripId c.prevK

/-- Stable insertion step for the model of lodash `_.sortBy`. -/
def insortBy {α : Type} (le : α → α → Bool) (x : α) : List α → List α
  | [] => [x]
  | y :: ys => if le y x then y :: insortBy le x ys else x :: y :: ys

/-- Stable sort (lodash `_.sortBy` is a stable ascending sort). -/
def stableSortBy {α : Type} (le : α → α → Bool) (xs : List α) : List α :=
  xs.foldl (fun acc x => insortBy le x acc) []

/-- `getUnexploredStops` (src/router.ts:79): the marked stops of a column,
sorted by cost. -/
def getUnexploredStops (h : Heap) (m : ReachMap) : List String :=
  (stableSortBy (fun p q => (hGet h p.2).cost ≤ (hGet h q.2).cost)
    (m.filter (fun p => (hGet h p.2).isUnexplored))).map (·.1)

/-- The indexed feed as consumed by src/router.ts (a fragment of
`IndexedGTFS`): every index is an association list standing for the JS
object. -/
structure Feed where
  stopIdToStopTimes : List (String × List StopTime)
  tripIdToStopTime : List (String × List StopTime)
  tripIdToTrip : List (String × Trip)
  routeIdToRoute : List (String × GRoute)
  stopIdToStop : List (String × Stop)
  walkingTransfers : List (String × List WalkingTransfer)
deriving Repr

/-- `feed.stopIdToStopTimes[stopId] || []`. -/
def Feed.stopTimesAt (f : Feed) (stopId : String) : List StopTime :=
  alGetD f.stopIdToStopTimes stopId []

/-- `feed.tripIdToStopTime[tripId]` (always defined in reachable code). -/
def Feed.tripStopTimes (f : Feed) (tripId : String) : List StopTime :=
  alGetD f.tripIdToStopTime tripId []

/-- `feed.tripIdToTrip[tripId]` (always defined in reachable code). -/
def Feed.tripOf (f : Feed) (tripId : String) : Trip :=
  alGetD f.tripIdToTrip tripId default

/-- `feed.routeIdToRoute[routeId]` (always defined in reachable code). -/
def Feed.routeOf (f : Feed) (routeId : String) : GRoute :=
  alGetD f.routeIdToRoute routeId default

/-- `isTripExcluded` (src/router.ts:84). -/
def isTripExcluded (trip : Trip) (options : QueryOptions) : Bool :=
  options.exclude_routes.contains trip.route_id

/-- `isStopExcluded` (src/router.ts:88). -/
def isStopExcluded (stopId : String) (options : QueryOptions) : Bool :=
  !options.exclude_stops.isEmpty && options.exclude_stops.contains stopId

/-- `getCostMultiplier` (src/router.ts:95): bus trips use `bus_multiplier`,
everything else counts as rail. -/
def getCostMultiplier (trip : Trip) (feed : Feed) (options : QueryOptions) : ℚ :=
  if (feed.routeOf trip.route_id).route_type = RouteType.bus then
    options.bus_multiplier
  else options.rail_multiplier

/-- `copyTimes` (src/router.ts:103): copy the marked entries of a column —
the references, not the records, exactly like the JS object spread of
pointers. -/
def copyTimes (h : Heap) (m : ReachMap) : ReachMap :=
  m.filter (fun p => (hGet h p.2).isUnexplored)

/-- `findStopTimeInSequence` (src/router.ts:114): position of a stop-time in
its trip's (stopSequence-sorted) list; first the direct guess, then the
binary-search fallback (`_.sortedIndexBy`, written here as the count of
entries that sort strictly before — the two agree on sorted input). -/
def findStopTimeInSequence (stopTimes : List StopTime) (stopSequence : Nat) :
    Nat :=
  if 1 ≤ stopSequence ∧ stopSequence ≤ stopTimes.length ∧
      (stopTimes.getD (stopSequence - 1) default).stopSequence = stopSequence
  then stopSequence - 1
  else (stopTimes.takeWhile (fun st => st.stopSequence < stopSequence)).length

/-- The candidate produced by `addTransitConnection` (src/router.ts:61) for a
boarding stop-time `a`, a downstream stop-time `b` and the boarding stop's
prior cost `prevCost` reached at `time`. -/
def mkTransitCand (k : Nat) (time prevCost : ℚ) (a b : StopTime)
    (costMultiplier : ℚ) : Cand :=
  let waitTime := a.timeOfDaySec - time
  let travelTime := b.timeOfDaySec - a.timeOfDaySec
  let thisCost := waitTime + costMultiplier * travelTime
  ⟨b.stopId, b.timeOfDaySec, prevCost + thisCost, a.stopId,
    TransportMode.transit, some b.tripId, k - 1⟩

/-- The inner downstream loop of `takeVehicles` (src/router.ts:155): walk the
stop-times after the boarding index and stop — `break`, not `continue` — at
the first one that is past `lastValidTimeSecs` or excluded. -/
def scanDownstream (options : QueryOptions) (lastValid : WithTop ℚ) (k : Nat)
    (time prevCost : ℚ) (boarding : StopTime) (costMultiplier : ℚ) :
    List StopTime → List Cand
  | [] => []
  | st :: rest =>
      if lastValid < (st.timeOfDaySec : WithTop ℚ) then []
      else if isStopExcluded st.stopId options then []
      else mkTransitCand k time prevCost boarding st costMultiplier ::
        scanDownstream options lastValid k time prevCost boarding
          costMultiplier rest

/-- The per-boarding-stop-time body of `takeVehicles` (src/router.ts:144): a
too-late boarding, an excluded trip or a negative multiplier contribute
nothing; otherwise scan the trip's stop-times after the boarding position.
`prevCost` re-reads `tau[k-1][from.stopId].cost` as the source does. -/
def boardCands (s : RS) (k : Nat) (feed : Feed) (options : QueryOptions)
    (lastValid : WithTop ℚ) (time : ℚ) (stopTime : StopTime) : List Cand :=
  if lastValid < (stopTime.timeOfDaySec : WithTop ℚ) then []
  else
    let trip := feed.tripOf stopTime.tripId
    if isTripExcluded trip options then []
    else
      let multiplier := getCostMultiplier trip feed options
      if multiplier < 0 then []
      else
        let allStopTimes := feed.tripStopTimes stopTime.tripId
        let idx := findStopTimeInSequence allStopTimes stopTime.stopSequence
        let prevCost := ((reachAt s (k - 1) stopTime.stopId).getD default).cost
        scanDownstream options lastValid k time prevCost stopTime multiplier
          (allStopTimes.drop (idx + 1))

/-- All candidate connections produced while exploring one marked stop in a
boarding round (src/router.ts:138-161): filter its stop-times to the waiting
window, then scan each boarding. -/
def stopCandidates (s : RS) (k : Nat) (feed : Feed) (options : QueryOptions)
    (lastValid : WithTop ℚ) (stopId : String) : List Cand :=
  match alFind (getCol s (k - 1)) stopId with
  | none => []
  | some r =>
      let reach := hGet s.heap r
      let time := reach.timeOfDaySec
      let latest := time + options.max_waiting_time_secs
      let stopTimes := (feed.stopTimesAt stopId).filter
        (fun st => time ≤ st.timeOfDaySec ∧ st.timeOfDaySec ≤ latest)
      (stopTimes.map (boardCands s k feed options lastValid time)).flatten

/-- Mark a record as fully explored (`reach.isUnexplored = false`). -/
def markExplored (ri : ReachInfo) : ReachInfo := { ri with isUnexplored := false }

/-- Explore one marked stop in a boarding round: record its candidates, then
clear its mark (src/router.ts:162). -/
def exploreStop (feed : Feed) (options : QueryOptions) (lastValid : WithTop ℚ)
    (k : Nat) (s : RS) (stopId : String) : RS :=
  match alFind (getCol s (k - 1)) stopId with
  | none => s
  | some r =>
      let cands := stopCandidates s k feed options lastValid stopId
      let s2 := cands.foldl (applyCand k) s
      { s2 with heap := hSet s2.heap r (markExplored (hGet s2.heap r)) }

/-- `takeVehicles` (src/router.ts:128): explore every marked stop of
`tau[k-1]`, populating `tau[k]`. -/
def takeVehicles (s : RS) (k : Nat) (feed : Feed) (options : QueryOptions)
    (lastValid : WithTop ℚ) : RS :=
  (getUnexploredStops s.heap (getCol s (k - 1))).foldl
    (exploreStop feed options lastValid k) s

/-- JS truthiness of the optional `km` field (`transfer.km && ...`):
`undefined` and `0` are falsy. -/
def kmTruthy : Option ℚ → Bool
  | none => false
  | some x => x ≠ 0

/-- The per-transfer body of `makeTransfers` (src/router.ts:182-194) as an
optional candidate: skip a transfer whose (truthy) `km` exceeds the walking
limit, whose destination is excluded, or whose arrival is past
`lastValidTimeSecs`. -/
def walkCand (options : QueryOptions) (lastValid : WithTop ℚ) (secsPerKm : ℚ)
    (k : Nat) (stopId : String) (reachCost time : ℚ) (t : WalkingTransfer) :
    Option Cand :=
  if kmTruthy t.km ∧ t.km.getD 0 > options.max_walking_distance_km then none
  else if isStopExcluded t.stopId options then none
  else
    let secs := match t.secs with
      | some v => v
      | none => t.km.getD 0 * secsPerKm
    let arrivalTime := time + secs
    if lastValid < (arrivalTime : WithTop ℚ) then none
    else some ⟨t.stopId, arrivalTime, reachCost + secs, stopId,
      TransportMode.walk, none, k - 1⟩

/-- Walk away from one marked stop (src/router.ts:177-199): stops reached by
walking are skipped (no walk after walk), and — per the source's closing
comment — the stop is *not* unmarked here. -/
def walkStop (transfers : List (String × List WalkingTransfer))
    (options : QueryOptions) (lastValid : WithTop ℚ) (k : Nat) (s : RS)
    (stopId : String) : RS :=
  match alFind (getCol s (k - 1)) stopId with
  | none => s
  | some r =>
      let reach := hGet s.heap r
      if reach.mode = TransportMode.walk then s
      else
        let secsPerKm := 3600 / options.walking_speed_kph
        let cands := (alGetD transfers stopId []).filterMap
          (walkCand options lastValid secsPerKm k stopId reach.cost
            reach.timeOfDaySec)
        cands.foldl (applyCand k) s

/-- `makeTransfers` (src/router.ts:167): walk from every marked stop of
`tau[k-1]` into `tau[k]`. -/
def makeTransfers (s : RS) (k : Nat)
    (transfers : List (String × List WalkingTransfer))
    (options : QueryOptions) (lastValid : WithTop ℚ) : RS :=
  (getUnexploredStops s.heap (getCol s (k - 1))).foldl
    (walkStop transfers options lastValid k) s

/-- Clear the marks of every record referenced from `tau[k]`
(src/router.ts:255). -/
def clearMarks (s : RS) (k : Nat) : RS :=
  (getCol s k).foldl
    (fun s p => { s with heap := hSet s.heap p.2 (markExplored (hGet s.heap p.2)) })
    s

/-- The main loop of `raptor` (src/router.ts:241-252): `count` times, run a
boarding round into a fresh `tau[k]`, copy its marked entries forward, and
run a walking round into `tau[k+1]`. -/
def raptorLoop (feed : Feed) (options : QueryOptions) (lastValid : WithTop ℚ) :
    Nat → Nat → RS → RS × Nat
  | 0, k, s => (s, k)
  | count + 1, k, s =>
      let s := setCol s k []
      let s := takeVehicles s k feed options lastValid
      let s := setCol s (k + 1) (copyTimes s.heap (getCol s k))
      let s := makeTransfers s (k + 1) feed.walkingTransfers options lastValid
      raptorLoop feed options lastValid count (k + 2) (s)

/-- The initial state of `raptor` (src/router.ts:219): `tau[0]` holds only
the origin, at cost 0, marked unexplored. -/
def raptorInit (stopId : String) (timeOfDaySec : ℚ) : RS :=
  { heap := [⟨timeOfDaySec, 0, none, TransportMode.origin, none, true, none⟩],
    tau := [[(stopId, 0)]] }

/-- `lastValidTimeSecs = timeOfDaySec + options.max_commute_time_secs`
(src/router.ts:231). -/
def raptorLastValid (timeOfDaySec : ℚ) (options : QueryOptions) : WithTop ℚ :=
  (timeOfDaySec : WithTop ℚ) + options.max_commute_time_secs

/-- The conditional initial walking round of `raptor` (src/router.ts:234):
when the origin has no stop-times, insert an empty `tau[1]`, walk from
`tau[0]`, and continue from column 2; otherwise start at column 1.  Returns
the state and the next column index `k`. -/
def raptorStart (stopId : String) (timeOfDaySec : ℚ) (feed : Feed)
    (options : QueryOptions) : RS × Nat :=
  if (feed.stopTimesAt stopId).isEmpty then
    (makeTransfers (setCol (raptorInit stopId timeOfDaySec) 1 []) 1
      feed.walkingTransfers options (raptorLastValid timeOfDaySec options), 2)
  else (raptorInit stopId timeOfDaySec, 1)

/-- `raptor` (src/router.ts:211): seed `tau[0]` with the origin; if the
origin has no stop-times, run one initial walking round; then run
`1 + max_number_of_transfers` boarding/walking round pairs and clear the
marks of the final column. -/
def raptor (stopId : String) (timeOfDaySec : ℚ) (feed : Feed)
    (options : QueryOptions) : RS :=
  clearMarks
    (raptorLoop feed options (raptorLastValid timeOfDaySec options)
      (1 + options.max_number_of_transfers)
      (raptorStart stopId timeOfDaySec feed options).2
      (raptorStart stopId timeOfDaySec feed options).1).1
    ((raptorLoop feed options (raptorLastValid timeOfDaySec options)
      (1 + options.max_number_of_transfers)
      (raptorStart stopId timeOfDaySec feed options).2
      (raptorStart stopId timeOfDaySec feed options).1).2 - 1)

/-- The loop body count of `numTransfers` (src/router.ts:263): follow
`prevK`/`previousStopId` back to the origin, counting transit legs.  On the
matrices produced by `raptor`, `prevK` strictly decreases, so fuel `k + 1`
never runs out; a missing record would throw in JS and stops the count
here. -/
def numTransfersAux (s : RS) : Nat → Nat → String → Nat → Nat
  | 0, _, _, numVehicles => numVehicles
  | fuel + 1, k, id, numVehicles =>
      match reachAt s k id with
      | none => numVehicles
      | some reach =>
          if reach.mode = TransportMode.origin then numVehicles
          else
            numTransfersAux s fuel (reach.prevK.getD 0)
              (reach.previousStopId.getD "")
              (if reach.mode = TransportMode.transit then numVehicles + 1
               else numVehicles)

/-- `numTransfers` (src/router.ts:263): transit legs beyond the first are
transfers (`Math.max(0, numVehicles - 1)`; `Nat` subtraction truncates at
zero just like the `max`). -/
def numTransfers (s : RS) (k : Nat) (id : String) : Nat :=
  numTransfersAux s (k + 1) k id 0 - 1

/-- The per-column score of `findBestK` (src/router.ts:279): `Infinity`
(`⊤`) when the column has no record for `id`. -/
def columnCost (s : RS) (id : String) (transferPenalty : ℚ) (k : Nat) :
    WithTop ℚ :=
  match reachAt s k id with
  | some reachInfo =>
      ((reachInfo.cost + (numTransfers s k id : ℚ) * transferPenalty : ℚ) :
        WithTop ℚ)
  | none => ⊤

/-- The minimum of two extended scores (spelled out so that it reduces in
the kernel). -/
def wtMin (a b : WithTop ℚ) : WithTop ℚ := if a ≤ b then a else b

/-- `findBestK` (src/router.ts:278): the first column of minimal score
(lodash `_.minBy` keeps the first strict minimum), or `null`/`none` when
every score is `Infinity`. -/
def findBestK (s : RS) (id : String) (transferPenalty : ℚ) : Option Nat :=
  let costs := (List.range s.tau.length).map (columnCost s id transferPenalty)
  let best := costs.foldl wtMin ⊤
  if best < ⊤ then costs.findIdx? (fun c => c = best) else none

/-- `findBestRoutes` (src/router.ts:293): the full one-to-many search plus
the best column per destination. -/
def findBestRoutes (originId : String) (timeOfDaySec : ℚ)
    (destinationIds : List String) (feed : Feed) (options : QueryOptions) :
    RS × List (String × Option Nat) :=
  let s := raptor originId timeOfDaySec feed options
  (s, destinationIds.map
    (fun id => (id, findBestK s id options.transfer_penalty_secs)))

/-! The online router, src/online-router.ts.  The `Location`-level entry
points `oneToMany`/`oneToOne` first augment the feed with the query's
endpoints (`augmentWithLocations`, modelled separately below at the level of
its mutations); the models here take the already-augmented feed and the
origin's id, which is all `oneToManyHelper` passes on to the core. -/

/-- `RouteSpec` (src/online-router.ts:52), minus the shared `tau` matrix,
which our model returns alongside. -/
structure RouteSpec where
  cost : ℚ
  travelTimeSecs : ℚ
  k : Nat
deriving DecidableEq, Repr

/-- A step of a reconstructed route (src/online-router.ts `Step`).  The
human-readable `description` string is presentation-only and omitted. -/
structure Step where
  fromStop : Stop
  toStop : Stop
  mode : TransportMode
  departTimeSecs : ℚ
  arriveTimeSecs : ℚ
  travelTimeSecs : ℚ
  numStops : Option ℤ
  tripId : Option String
  routeId : Option String
  distanceKm : Option ℚ
deriving DecidableEq, Repr

/-- A reconstructed route (src/online-router.ts `Route`), minus the
`origin`/`destination` location echoes. -/
structure TRoute where
  departureSecs : ℚ
  arriveTimeSecs : ℚ
  travelTimeSecs : ℚ
  walkingDistanceKm : ℚ
  steps : List Step
deriving DecidableEq, Repr

/-- `getStopTime` (src/online-router.ts:70). -/
def getStopTime (tripId stopId : String) (feed : Feed) : Option StopTime :=
  (feed.tripStopTimes tripId).find? (fun st => st.stopId = stopId)

/-- `feed.stopIdToStop[stopId]` (missing ids would make the JS crash
downstream; no reachable path does). -/
def Feed.stopOf (f : Feed) (stopId : String) : Stop :=
  alGetD f.stopIdToStop stopId default

/-- The recursion of `traceRoute` (src/online-router.ts:81), with the
haversine of `distanceBetweenStops` passed in as `dist`.  `prevK` strictly
decreases on raptor matrices, so fuel `k + 1` suffices. -/
def traceRouteAux (s : RS) (feed : Feed) (dist : Stop → Stop → ℚ) :
    Nat → String → Nat → List Step
  | 0, _, _ => []
  | fuel + 1, stopId, k =>
      match reachAt s k stopId with
      | none => []
      | some reach =>
          if reach.mode = TransportMode.origin then []
          else
            let prevK := reach.prevK.getD 0
            let previousStopId := reach.previousStopId.getD ""
            let arriveTimeSecs := reach.timeOfDaySec
            let f := feed.stopOf previousStopId
            let t := feed.stopOf stopId
            let step : Step :=
              if reach.mode = TransportMode.transit then
                let tripId := reach.tripId.getD ""
                let trip := feed.tripOf tripId
                let fromST := (getStopTime tripId previousStopId feed).getD default
                let toST := (getStopTime tripId stopId feed).getD default
                { fromStop := f, toStop := t, mode := reach.mode,
                  departTimeSecs := fromST.timeOfDaySec,
                  arriveTimeSecs := arriveTimeSecs,
                  travelTimeSecs := arriveTimeSecs - fromST.timeOfDaySec,
                  numStops := some ((toST.stopSequence : ℤ) - fromST.stopSequence),
                  tripId := some tripId, routeId := some trip.route_id,
                  distanceKm := none }
              else
                let fromReach := (reachAt s prevK previousStopId).getD default
                let departTimeSecs := fromReach.timeOfDaySec
                { fromStop := f, toStop := t, mode := reach.mode,
                  departTimeSecs := departTimeSecs,
                  arriveTimeSecs := arriveTimeSecs,
                  travelTimeSecs := arriveTimeSecs - departTimeSecs,
                  numStops := none, tripId := none, routeId := none,
                  distanceKm := some (dist f t) }
            traceRouteAux s feed dist fuel previousStopId prevK ++ [step]

/-- `traceRoute` (src/online-router.ts:81): back out the steps to `stopId`
after `k` rounds. -/
def traceRoute (s : RS) (stopId : String) (k : Nat) (feed : Feed)
    (dist : Stop → Stop → ℚ) : List Step :=
  traceRouteAux s feed dist (k + 1) stopId k

/-- `getTotalWalkingDistanceKm` (src/online-router.ts:133). -/
def getTotalWalkingDistanceKm (steps : List Step) : ℚ :=
  (steps.map (fun step => step.distanceKm.getD 0)).sum

/-- `oneToManyStopHelper` (src/online-router.ts:139): run the search and
turn each destination's best column into a `RouteSpec`; `none` marks an
unreachable destination (`null` in the source). -/
def oneToManyStopHelper (feed : Feed) (originId : String) (departureSecs : ℚ)
    (destinationIds : List String) (options : QueryOptions) :
    RS × List (String × Option RouteSpec) :=
  let br := findBestRoutes originId departureSecs destinationIds feed options
  let s := br.1
  (s, br.2.map (fun p =>
    (p.1, p.2.map (fun k =>
      let reachInfo := (reachAt s k p.1).getD default
      ⟨reachInfo.cost, reachInfo.timeOfDaySec - departureSecs, k⟩))))

/-- The value map of `oneToMany` (src/online-router.ts:234):
`routeSpec ? routeSpec.travelTimeSecs : Infinity`. -/
def routeSpecToTime : Option RouteSpec → WithTop ℚ
  | some routeSpec => (routeSpec.travelTimeSecs : WithTop ℚ)
  | none => ⊤

/-- `oneToMany` (src/online-router.ts:226), from the augmented feed on: an
unreachable destination maps to `Infinity` (`⊤`). -/
def oneToMany (feed : Feed) (originId : String) (departureSecs : ℚ)
    (destinationIds : List String) (options : QueryOptions) :
    List (String × WithTop ℚ) :=
  ((oneToManyStopHelper feed originId departureSecs destinationIds
    options).2).map (fun p => (p.1, routeSpecToTime p.2))

/-- `oneToOne` (src/online-router.ts:274), from the augmented feed on: an
unreachable destination yields `null`/`none`; otherwise the route is
reconstructed with `traceRoute`. -/
def oneToOne (feed : Feed) (originId : String) (departureSecs : ℚ)
    (destinationId : String) (options : QueryOptions)
    (dist : Stop → Stop → ℚ) : Option TRoute :=
  match alFind (oneToManyStopHelper feed originId departureSecs
      [destinationId] options).2 destinationId with
  | some (some route) =>
      some ⟨departureSecs, departureSecs + route.travelTimeSecs,
        route.travelTimeSecs,
        getTotalWalkingDistanceKm (traceRoute (oneToManyStopHelper feed
          originId departureSecs [destinationId] options).1 destinationId
          route.k feed dist),
        traceRoute (oneToManyStopHelper feed originId departureSecs
          [destinationId] options).1 destinationId route.k feed dist⟩
  | _ => none

/-- `stopToStop` (src/online-router.ts:302).  Unlike `oneToOne`, the source
destructures `routes[destinationStopId]` without a null check, so an
unreachable (or unknown) destination stop throws a `TypeError`; the model
returns `Except.error` there. -/
def stopToStop (feed : Feed) (originStopId : String) (departureSecs : ℚ)
    (destinationStopId : String) (options : QueryOptions)
    (dist : Stop → Stop → ℚ) : Except String TRoute :=
  match alFind (oneToManyStopHelper feed originStopId departureSecs
      [destinationStopId] options).2 destinationStopId with
  | some (some route) =>
      Except.ok ⟨departureSecs, departureSecs + route.travelTimeSecs,
        route.travelTimeSecs,
        getTotalWalkingDistanceKm (traceRoute (oneToManyStopHelper feed
          originStopId departureSecs [destinationStopId] options).1
          destinationStopId route.k feed dist),
        traceRoute (oneToManyStopHelper feed originStopId departureSecs
          [destinationStopId] options).1 destinationStopId route.k feed dist⟩
  | _ => Except.error "TypeError: cannot destructure property of null"

/-! Walking-transfer construction, src/indexed-gtfs.ts. -/

/-- `TransferType` from src/gtfs-types.ts. -/
inductive TransferType where
  | recommended
  | timed
  | minTime
  | infeasible
deriving DecidableEq, Repr

/-- A transfers.txt row (src/gtfs-types.ts `Transfer`); `minTransferTime` is
optional in the CSV. -/
structure Transfer where
  fromStopId : String
  toStopId : String
  type : TransferType
  minTransferTime : Option ℚ
deriving DecidableEq, Repr

/-- Append one value to a string-keyed group (lodash `groupBy` order:
first-encounter key order, values in encounter order). -/
def addToGroup {α : Type} (m : List (String × List α)) (k : String) (v : α) :
    List (String × List α) :=
  alPut m k (alGetD m k [] ++ [v])

/-- The `parentPairs` grouping of src/indexed-gtfs.ts:79: children by parent
station, skipping stops with a falsy `parentStation`. -/
def groupByParent (stops : List Stop) : List (String × List String) :=
  stops.foldl
    (fun m st => match st.parentStation with
      | some p => addToGroup m p st.stopId
      | none => m) []

/-- `pairs[k].push(t)`.  (The JS crashes when `k` is not a known stop; the
transfer construction only pushes to initialized keys, and the model
auto-creates instead.) -/
def pushTransfer (m : List (String × List WalkingTransfer)) (k : String)
    (t : WalkingTransfer) : List (String × List WalkingTransfer) :=
  alPut m k (alGetD m k [] ++ [t])

/-- Keep the first element per key (`_.uniqBy`). -/
def uniqBy {α : Type} (key : α → String) (l : List α) : List α :=
  l.foldl
    (fun acc t => if acc.any (fun u => key u = key t) then acc else acc ++ [t])
    []

/-- The `['secs', 'stopId']` sort key of src/indexed-gtfs.ts:115 as a
boolean order. -/
def secsStopLe (a b : WalkingTransfer) : Bool :=
  a.secs.getD 0 < b.secs.getD 0 ∨
    (a.secs.getD 0 = b.secs.getD 0 ∧ a.stopId ≤ b.stopId)

/-- The `km` sort key of src/indexed-gtfs.ts:287 as a boolean order. -/
def kmLe (a b : WalkingTransfer) : Bool :=
  a.km.getD 0 ≤ b.km.getD 0

/-- The intra-station loop of `getExplicitTransfers`
(src/indexed-gtfs.ts:102-111): for each child in turn, free transfers with
the parent in both directions and with every later sibling in both
directions. -/
def intraStation (parentId : String) :
    List String → List (String × List WalkingTransfer) →
      List (String × List WalkingTransfer)
  | [], m => m
  | cFrom :: rest, m =>
      let m := pushTransfer m parentId ⟨cFrom, none, some 0⟩
      let m := pushTransfer m cFrom ⟨parentId, none, some 0⟩
      let m := rest.foldl
        (fun m cTo =>
          pushTransfer (pushTransfer m cFrom ⟨cTo, none, some 0⟩) cTo
            ⟨cFrom, none, some 0⟩) m
      intraStation parentId rest m

/-- `getExplicitTransfers` (src/indexed-gtfs.ts:68): explicit `MIN_TIME`
transfers fanned out over the parent-station children of both endpoints,
plus free intra-station transfers; per origin, de-duplicated by destination
and sorted by `(secs, stopId)`. -/
def getExplicitTransfers (stops : List Stop) (transfers : List Transfer) :
    List (String × List WalkingTransfer) :=
  let pairs := stops.foldl (fun m st => alPut m st.stopId []) []
  let parentPairs := groupByParent stops
  let pairs := transfers.foldl
    (fun m transfer =>
      if transfer.type ≠ TransferType.minTime then m
      else
        let froms := transfer.fromStopId ::
          alGetD parentPairs transfer.fromStopId []
        let tos := transfer.toStopId :: alGetD parentPairs transfer.toStopId []
        froms.foldl
          (fun m childFrom =>
            tos.foldl
              (fun m childTo =>
                if childFrom = childTo then m
                else pushTransfer m childFrom
                  ⟨childTo, none, transfer.minTransferTime⟩) m) m)
    pairs
  let pairs := parentPairs.foldl
    (fun m pc => intraStation pc.1 pc.2 m) pairs
  pairs.map (fun p => (p.1, stableSortBy secsStopLe (uniqBy (·.stopId) p.2)))

/-- `indexRoutesByStop` (src/indexed-gtfs.ts:51): ordered, de-duplicated
route ids serving each stop. -/
def indexRoutesByStop (stopTimes : List StopTime)
    (tripIdToTrip : List (String × Trip)) : List (String × List String) :=
  let stopRoutes := stopTimes.foldl
    (fun m st =>
      addToGroup m st.stopId (alGetD tripIdToTrip st.tripId default).route_id)
    []
  stopRoutes.map (fun p =>
    (p.1, uniqBy id (stableSortBy (fun a b => decide (a ≤ b)) p.2)))

/-- `aFeed in this.attributes && this.attributes[aFeed].hasTransfers`
(src/indexed-gtfs.ts:266). -/
def feedHasTransfers (attrs : List (String × Bool)) : Option String → Bool
  | some n => alGetD attrs n false
  | none => false

/-- The all-pairs double loop of `findNearbyStops`
(src/indexed-gtfs.ts:262-284), over the stop-distance function `dist`
(haversine in the source) and the water predicate `water`: each unordered
pair of served stops is considered once and, if accepted, contributes a
walking edge in both directions. -/
def nearbyLoop (stopIdToRoutes : List (String × List String))
    (attrs : List (String × Bool)) (maxDistanceKm : ℚ)
    (dist : Stop → Stop → ℚ) (water : ℚ → ℚ → ℚ → ℚ → Bool) :
    List Stop → List (String × List WalkingTransfer) →
      List (String × List WalkingTransfer)
  | [], pairs => pairs
  | a :: rest, pairs =>
      let aRoutes := alFind stopIdToRoutes a.stopId
      let aHasTransfers := feedHasTransfers attrs a.feed
      let pairs := rest.foldl
        (fun pairs b =>
          if a.feed = b.feed ∧ aHasTransfers then pairs
          else
            let km := dist a b
            if km ≤ maxDistanceKm ∧
                water a.stopLat a.stopLng b.stopLat b.stopLng = false then
              if aRoutes = alFind stopIdToRoutes b.stopId then pairs
              else
                pushTransfer (pushTransfer pairs a.stopId ⟨b.stopId, some km, none⟩)
                  b.stopId ⟨a.stopId, some km, none⟩
            else pairs)
        pairs
      nearbyLoop stopIdToRoutes attrs maxDistanceKm dist water rest pairs

/-- `findNearbyStops` (src/indexed-gtfs.ts:233): proximity footpaths between
served stops, each origin's list finally sorted by km. -/
def findNearbyStops (stops : List Stop) (stopTimes : List StopTime)
    (tripIdToTrip : List (String × Trip)) (attrs : List (String × Bool))
    (maxDistanceKm : ℚ) (dist : Stop → Stop → ℚ)
    (water : ℚ → ℚ → ℚ → ℚ → Bool) : List (String × List WalkingTransfer) :=
  let servedStops := stops.filter
    (fun st => stopTimes.any (fun x => x.stopId = st.stopId))
  let pairs := servedStops.foldl (fun m st => alPut m st.stopId []) []
  let stopIdToRoutes := indexRoutesByStop stopTimes tripIdToTrip
  let pairs := nearbyLoop stopIdToRoutes attrs maxDistanceKm dist water
    servedStops pairs
  pairs.map (fun p => (p.1, stableSortBy kmLe p.2))

/-- `computeTransfers` (src/indexed-gtfs.ts:294): explicit transfers, then
the proximity map concatenated per origin — `pairs[originId] =
(pairs[originId] || []).concat(transfers)`. -/
def computeTransfers (stops : List Stop) (transfers : List Transfer)
    (stopTimes : List StopTime) (tripIdToTrip : List (String × Trip))
    (attrs : List (String × Bool)) (maxDistanceKm : ℚ)
    (dist : Stop → Stop → ℚ) (water : ℚ → ℚ → ℚ → ℚ → Bool) :
    List (String × List WalkingTransfer) :=
  let explicitTransfers := getExplicitTransfers stops transfers
  let implicitTransfers := findNearbyStops stops stopTimes tripIdToTrip attrs
    maxDistanceKm dist water
  implicitTransfers.foldl
    (fun m p => alPut m p.1 (alGetD m p.1 [] ++ p.2)) explicitTransfers

/-! Date-based service filtering, src/gtfs.ts. -/

/-- A calendar.txt row (src/gtfs-types.ts `Calendar`); dates are `YYYYMMDD`
strings compared lexicographically, as the source compares them. -/
structure Calendar where
  service_id : String
  monday : Bool
  tuesday : Bool
  wednesday : Bool
  thursday : Bool
  friday : Bool
  saturday : Bool
  sunday : Bool
  start_date : String
  end_date : String
deriving DecidableEq, Repr

/-- A calendar_dates.txt row (src/gtfs-types.ts `CalendarDate`).  The
`exception_type` column is numeric; `ServiceAdded = 1`,
`ServiceRemoved = 2`. -/
structure CalendarDate where
  service_id : String
  date : String
  exception_type : ℤ
deriving DecidableEq, Repr

/-- Lexicographic strict comparison of character lists: the order JS `<`
imposes on `YYYYMMDD` date strings. -/
def strLt : List Char → List Char → Bool
  | [], [] => false
  | [], _ :: _ => true
  | _ :: _, [] => false
  | a :: as, b :: bs =>
      if a.val < b.val then true
      else if b.val < a.val then false
      else strLt as bs

/-- `a <= b` on date strings. -/
def dateLe (a b : String) : Bool := !(strLt b.data a.data)

/-- JS `Set.delete`. -/
def sdelete (l : List String) (x : String) : List String := l.filter (· ≠ x)

/-- JS `Set.add` (no-op when present). -/
def sadd (l : List String) (x : String) : List String :=
  if x ∈ l then l else l ++ [x]

/-- The day-of-week flag array of src/gtfs.ts:173, indexed Sunday-first. -/
def dowFlags (c : Calendar) : List Bool :=
  [c.sunday, c.monday, c.tuesday, c.wednesday, c.thursday, c.friday,
    c.saturday]

/-- The calendar pass of `filterServicesByDate` (src/gtfs.ts:169-181): each
calendar entry deletes its service when the date is out of
`[start_date, end_date]` or the weekday flag is unset. -/
def applyCalendars (services : List String) (calendars : List Calendar)
    (departureDow : Nat) (date : String) : List String :=
  calendars.foldl
    (fun acc service =>
      if dateLe service.start_date date ∧ dateLe date service.end_date then
        if (dowFlags service).getD departureDow false = false then
          sdelete acc service.service_id
        else acc
      else sdelete acc service.service_id)
    services

/-- The exception pass of `filterServicesByDate` (src/gtfs.ts:184-195): each
calendar-date exception on this date adds (type 1 / `ServiceAdded`) or
deletes (type 2 / `ServiceRemoved`) its service; any other value throws. -/
def applyExceptions (services : List String)
    (calendarDates : List CalendarDate) (date : String) :
    Except String (List String) :=
  calendarDates.foldlM
    (fun acc exception =>
      if exception.date = date then
        if exception.exception_type = 1 then
          Except.ok (sadd acc exception.service_id)
        else if exception.exception_type = 2 then
          Except.ok (sdelete acc exception.service_id)
        else
          Except.error "Unexpected value of gtfs.CalendarDates.exception_type"
      else Except.ok acc)
    services

/-- `filterServicesByDate` (src/gtfs.ts:162).  `departureDow` stands for
`utils.dayOfWeek(date)` (the date-arithmetic utility is outside the core). -/
def filterServicesByDate (services : List String) (calendars : List Calendar)
    (calendarDates : List CalendarDate) (departureDow : Nat) (date : String) :
    Except String (List String) :=
  applyExceptions (applyCalendars services calendars departureDow date)
    calendarDates date

/-- `_.uniq`, keeping first occurrences. -/
def uniqList (l : List String) : List String :=
  l.foldl (fun acc x => if x ∈ acc then acc else acc ++ [x]) []

/-- `GTFS.filterByDate` (src/gtfs.ts:294): start from the service ids
present in trips, filter them by date, and drop the trips whose service did
not survive. -/
def filterByDate (trips : List Trip) (calendars : List Calendar)
    (calendarDates : List CalendarDate) (departureDow : Nat) (date : String) :
    Except String (List Trip) :=
  let allServices := uniqList (trips.map (·.service_id))
  (filterServicesByDate allServices calendars calendarDates departureDow
    date).map
    (fun availableServices =>
      trips.filter (fun trip => trip.service_id ∈ availableServices))

/-! Feed augmentation, src/indexed-gtfs.ts `augmentWithLocations`.

The source mutates JS objects through references: `clone()` copies field
pointers, `_.clone` copies one map level, `concat` allocates fresh arrays.
To make the frame property ("the base feed is not mutated") a real theorem,
the mutable structures live in an explicit store of cells addressed by
natural numbers, and the feed object is a record of cell references. -/

/-- A query location (src/location.ts `Location`). -/
structure Loc where
  id : String
  latitude : ℚ
  longitude : ℚ
deriving DecidableEq, Repr

/-- A spatial-index search hit (src/spatial-index.ts `Link`). -/
structure Link where
  id : String
  km : ℚ
deriving DecidableEq, Repr

/-- The store of mutable structures: stop arrays, stop maps, walking
transfer lists, walking transfer maps (origin id to list cell), and spatial
index contents. -/
structure FStore where
  stopArrs : List (List Stop)
  stopMaps : List (List (String × Stop))
  wtLists : List (List WalkingTransfer)
  wtMaps : List (List (String × Nat))
  spatials : List (List Loc)
deriving Repr

/-- The mutable fields of `IndexedGTFS` touched by augmentation, as cell
references. -/
structure FeedObj where
  stopsRef : Nat
  stopIdToStopRef : Nat
  walkingTransfersRef : Nat
  stopIndexRef : Nat
deriving DecidableEq, Repr

def readStops (st : FStore) (r : Nat) : List Stop := st.stopArrs.getD r []

def readStopMap (st : FStore) (r : Nat) : List (String × Stop) :=
  st.stopMaps.getD r []

def readWtList (st : FStore) (r : Nat) : List WalkingTransfer :=
  st.wtLists.getD r []

def readWtMap (st : FStore) (r : Nat) : List (String × Nat) :=
  st.wtMaps.getD r []

def readSpatial (st : FStore) (r : Nat) : List Loc := st.spatials.getD r []

def allocStops (st : FStore) (v : List Stop) : FStore × Nat :=
  ({ st with stopArrs := st.stopArrs ++ [v] }, st.stopArrs.length)

def allocStopMap (st : FStore) (v : List (String × Stop)) : FStore × Nat :=
  ({ st with stopMaps := st.stopMaps ++ [v] }, st.stopMaps.length)

def allocWtList (st : FStore) (v : List WalkingTransfer) : FStore × Nat :=
  ({ st with wtLists := st.wtLists ++ [v] }, st.wtLists.length)

def allocWtMap (st : FStore) (v : List (String × Nat)) : FStore × Nat :=
  ({ st with wtMaps := st.wtMaps ++ [v] }, st.wtMaps.length)

def allocSpatial (st : FStore) (v : List Loc) : FStore × Nat :=
  ({ st with spatials := st.spatials ++ [v] }, st.spatials.length)

def writeStopMap (st : FStore) (r : Nat) (v : List (String × Stop)) : FStore :=
  { st with stopMaps := st.stopMaps.set r v }

def writeWtMap (st : FStore) (r : Nat) (v : List (String × Nat)) : FStore :=
  { st with wtMaps := st.wtMaps.set r v }

/-- `addTransfer` (src/indexed-gtfs.ts:348): `transfers[from] =
(transfers[from] || []).concat([{stopId: to, km}])` — a fresh list cell is
allocated (`concat` copies), and the map cell at `wtMapRef` is updated in
place. -/
def addTransferM (st : FStore) (wtMapRef : Nat) (fromId toId : String)
    (km : ℚ) : FStore :=
  let m := readWtMap st wtMapRef
  let content := match alFind m fromId with
    | some r => readWtList st r
    | none => []
  let a := allocWtList st (content ++ [⟨toId, some km, none⟩])
  writeWtMap a.1 wtMapRef (alPut m fromId a.2)

/-- The synthetic stop made for a location (src/indexed-gtfs.ts:330):
`stopName = id`. -/
def locToStop (loc : Loc) : Stop :=
  ⟨loc.id, loc.id, loc.latitude, loc.longitude, none, none⟩

/-- `augmentWithLocations` (src/indexed-gtfs.ts:315).  The geometric search
of the spatial index (`intersect` / `search`, flat-earth floating point) is
passed in as `search : contents → point → radius → hits`.  Errors on an id
collision between locations and existing stops; otherwise returns the
augmented feed object and the updated store, leaving every cell of the base
feed unchanged. -/
def augmentWithLocations (st : FStore) (f : FeedObj) (origin : Option Loc)
    (destinations : List Loc) (options : QueryOptions)
    (search : List Loc → Loc → ℚ → List Link)
    (water : ℚ → ℚ → ℚ → ℚ → Bool) : Except String (FStore × FeedObj) :=
  let locations := destinations ++ origin.toList
  let locationIds := locations.map (·.id)
  let stopIds := (readStopMap st f.stopIdToStopRef).map (·.1)
  let dupeIds := stopIds.filter (· ∈ locationIds)
  if dupeIds ≠ [] then
    Except.error "id collision between locations and stops"
  else
    let newStops := locations.map locToStop
    -- const feed = this.clone();  -- field-level copy: same cell refs
    -- feed.stops = feed.stops.concat(newStops);
    let a1 := allocStops st (readStops st f.stopsRef ++ newStops)
    let st := a1.1
    -- feed.stopIdToStop = _.clone(feed.stopIdToStop); then insert new stops
    let a2 := allocStopMap st (readStopMap st f.stopIdToStopRef)
    let st := a2.1
    let mapRef := a2.2
    let st := newStops.foldl
      (fun st stop =>
        writeStopMap st mapRef (alPut (readStopMap st mapRef) stop.stopId stop))
      st
    -- const transfers = _.clone(feed.walkingTransfers);
    let a3 := allocWtMap st (readWtMap st f.walkingTransfersRef)
    let st := a3.1
    let wtMapRef := a3.2
    -- const links = locationsIndex.intersect(this.stopIndex, max_walking_distance_km);
    let baseIndexPts := readSpatial st f.stopIndexRef
    let st := locations.foldl
      (fun st loc =>
        (search baseIndexPts loc options.max_walking_distance_km).foldl
          (fun st link =>
            let a := alGetD (readStopMap st mapRef) loc.id default
            let b := alGetD (readStopMap st mapRef) link.id default
            if water a.stopLat a.stopLng b.stopLat b.stopLng then st
            else
              match origin with
              | some o =>
                  if loc.id = o.id then addTransferM st wtMapRef loc.id link.id link.km
                  else addTransferM st wtMapRef link.id loc.id link.km
              | none => addTransferM st wtMapRef link.id loc.id link.km)
          st)
      st
    -- walks between the origin and the destinations
    let st := match origin with
      | none => st
      | some o =>
          (search locations o options.max_walking_distance_km).foldl
            (fun st link =>
              if link.id = o.id then st
              else
                let destination := alGetD (readStopMap st mapRef) link.id default
                if water o.latitude o.longitude destination.stopLat
                    destination.stopLng then st
                else addTransferM st wtMapRef o.id link.id link.km)
            st
    -- feed.stopIndex = this.stopIndex.clone(); feed.stopIndex.add(locations);
    -- (clone() deep-copies via a JSON round trip, so a fresh cell)
    let a4 := allocSpatial st (readSpatial st f.stopIndexRef ++ locations)
    Except.ok (a4.1,
      { stopsRef := a1.2, stopIdToStopRef := mapRef,
        walkingTransfersRef := wtMapRef, stopIndexRef := a4.2 })

/-! Helper lemmas on the association-list and heap primitives. -/

theorem alFind_of_not_any {α : Type} (m : List (String × α)) (k : String)
    (h : ¬ m.any (fun p => p.1 = k)) : alFind m k = none := by
  unfold alFind
  rw [List.find?_eq_none.2]
  · rfl
  · intro x hx hpx
    exact h (List.any_eq_true.2 ⟨x, hx, hpx⟩)

theorem find?_map_put {α : Type} (m : List (String × α)) (k : String) (v : α)
    (h : m.any (fun p => p.1 = k)) :
    alFind (m.map (fun p => if p.1 = k then (k, v) else p)) k = some v := by
  induction m with
  | nil => simp at h
  | cons p rest ih =>
      by_cases hp : p.1 = k
      · simp [alFind, List.find?_cons, hp]
      · have h' : rest.any (fun p => p.1 = k) := by
          simpa [List.any_cons, hp] using h
        simpa [alFind, List.find?_cons, hp] using ih h'

theorem alFind_alPut_self {α : Type} (m : List (String × α)) (k : String)
    (v : α) : alFind (alPut m k v) k = some v := by
  unfold alPut
  by_cases h : m.any (fun p => p.1 = k)
  · rw [if_pos h]
    exact find?_map_put m k v h
  · rw [if_neg h]
    unfold alFind
    rw [List.find?_append, List.find?_eq_none.2, Option.none_or]
    · simp [List.find?_cons]
    · intro x hx hpx
      exact h (List.any_eq_true.2 ⟨x, hx, hpx⟩)

theorem alFind_alPut_ne {α : Type} (m : List (String × α)) (k k' : String)
    (v : α) (hne : k' ≠ k) : alFind (alPut m k v) k' = alFind m k' := by
  unfold alPut
  by_cases h : m.any (fun p => p.1 = k)
  · rw [if_pos h]
    clear h
    have hcomp :
        ((fun p : String × α => decide (p.1 = k')) ∘
          (fun p => if p.1 = k then (k, v) else p)) =
          (fun p : String × α => decide (p.1 = k')) := by
      funext p
      by_cases hp : p.1 = k
      · simp [Function.comp, hp]
      · simp only [Function.comp, if_neg hp]
    unfold alFind
    rw [List.find?_map, hcomp]
    cases hfind : m.find? (fun p => decide (p.1 = k')) with
    | none => rfl
    | some p0 =>
        have hp0 : p0.1 = k' := by simpa using List.find?_some hfind
        have hfp0 : (if p0.1 = k then (k, v) else p0) = p0 :=
          if_neg (fun hk => hne (hp0 ▸ hk))
        simp [hfp0]
  · rw [if_neg h]
    unfold alFind
    rw [List.find?_append]
    have hone : List.find? (fun p => decide (p.1 = k')) [(k, v)] = none := by
      have : (decide (((k, v) : String × α).1 = k')) = false :=
        decide_eq_false (fun hk => hne hk.symm)
      simp [List.find?_cons, this]
    rw [hone, Option.or_none]

theorem getD_setColList_self (t : List ReachMap) (k : Nat) (m : ReachMap) :
    (setColList t k m).getD k [] = m := by
  unfold setColList
  by_cases h : k < t.length
  · rw [if_pos h, List.getD_eq_getElem _ _ (by simpa using h)]
    simp [List.getElem_set_self]
  · rw [if_neg h, List.append_assoc,
      List.getD_append_right _ _ _ _ (le_of_not_lt h),
      List.getD_append_right _ _ _ _ (by simp [Nat.le_sub_of_add_le, le_of_not_lt h])]
    simp [le_of_not_lt h, Nat.sub_sub_self]

theorem hGet_append_new (h : Heap) (v : ReachInfo) :
    hGet (h ++ [v]) h.length = v := by
  unfold hGet
  rw [List.getD_append_right _ _ _ _ le_rfl]
  simp

theorem hGet_append_old (h : Heap) (v : ReachInfo) (r : Nat)
    (hr : r < h.length) : hGet (h ++ [v]) r = hGet h r := by
  unfold hGet
  rw [List.getD_append _ _ _ _ hr]

/-! ## Claim C4: the relaxation behaviour of `addConnection` -/

/-- C4.  `addConnection` updates `τ[k][dest]` iff there is no current record
or its cost strictly exceeds the candidate's: in the second case the stored
record carries exactly the candidate's time, cost, predecessor, mode,
tripId and prevK and is marked `isUnexplored`; otherwise the state is left
completely unchanged. -/
theorem C4_addConnection_relaxation (s : RS) (k : Nat) (dest : String)
    (time cost : ℚ) (prev : String) (mode : TransportMode)
    (tripId : Option String) (prevK : Nat) :
    (∀ r, alFind (getCol s k) dest = some r →
        ¬ cost < (hGet s.heap r).cost →
        addConnection s k dest time cost prev mode tripId prevK = s) ∧
    ((alFind (getCol s k) dest = none ∨
        ∃ r, alFind (getCol s k) dest = some r ∧ cost < (hGet s.heap r).cost) →
      reachAt (addConnection s k dest time cost prev mode tripId prevK) k dest =
        some ⟨time, cost, some prev, mode, tripId, true, some prevK⟩) := by
  constructor
  · intro r hr hc
    unfold addConnection
    rw [hr]
    simp only [gt_iff_lt, if_neg hc]
  · intro hcase
    have store :
        reachAt
          ⟨s.heap ++ [⟨time, cost, some prev, mode, tripId, true, some prevK⟩],
            setColList s.tau k (alPut (getCol s k) dest s.heap.length)⟩ k dest =
          some ⟨time, cost, some prev, mode, tripId, true, some prevK⟩ := by
      unfold reachAt getCol
      rw [getD_setColList_self, alFind_alPut_self]
      simp [hGet_append_new]
    rcases hcase with hnone | ⟨r, hr, hlt⟩
    · unfold addConnection
      rw [hnone]
      exact store
    · unfold addConnection
      rw [hr]
      simp only [gt_iff_lt, if_pos hlt]
      exact store

/-- C4 witness: a concrete insertion into an empty column. -/
theorem C4_witness :
    reachAt (addConnection ⟨[], [[]]⟩ 0 "D" 5 7 "P" TransportMode.transit
      none 0) 0 "D" =
      some ⟨5, 7, some "P", TransportMode.transit, none, true, some 0⟩ :=
  (C4_addConnection_relaxation ⟨[], [[]]⟩ 0 "D" 5 7 "P" TransportMode.transit
    none 0).2 (Or.inl rfl)

/-! ## Claim C10: the walking-distance guard only applies to truthy `km` -/

/-- C10.  In a walking round, the `max_walking_distance_km` check rejects
exactly the transfers whose `km` field is set, nonzero and above the limit:
a transfer with an explicit `secs` cost (no `km`) or with `km = 0` is never
rejected by the distance check — for any limit, including 0 — and yields a
candidate whenever it is not excluded and not past `lastValidTimeSecs`,
while a walked transfer with nonnegative limit and `km` above the limit is
always skipped. -/
theorem C10_distance_guard (options : QueryOptions) (lastValid : WithTop ℚ)
    (secsPerKm : ℚ) (k : Nat) (stopId : String) (reachCost time : ℚ)
    (t : WalkingTransfer) :
    ((t.km = none ∨ t.km = some 0) →
      isStopExcluded t.stopId options = false →
      (¬ lastValid <
        ((time + (match t.secs with
          | some v => v
          | none => t.km.getD 0 * secsPerKm) : ℚ) : WithTop ℚ)) →
      (walkCand options lastValid secsPerKm k stopId reachCost time t).isSome) ∧
    (∀ x : ℚ, t.km = some x → options.max_walking_distance_km < x →
      0 ≤ options.max_walking_distance_km →
      walkCand options lastValid secsPerKm k stopId reachCost time t = none) := by
  constructor
  · intro hkm hex hlate
    have hfalsy : kmTruthy t.km = false := by
      rcases hkm with h | h <;> simp [kmTruthy, h]
    unfold walkCand
    rw [if_neg (by simp [hfalsy])]
    rw [if_neg (by simp [hex])]
    simp only [if_neg hlate, Option.isSome_some]
  · intro x hx hgt hnn
    have htruthy : kmTruthy t.km = true := by
      have : x ≠ 0 := by
        intro h0
        rw [h0] at hgt
        exact absurd hgt (not_lt.2 hnn)
      simp [kmTruthy, hx, this]
    unfold walkCand
    rw [if_pos ⟨htruthy, by simp [hx]; exact hgt⟩]

/-- C10 witness: with the limit set to 0, an explicit 30-second transfer
still produces a candidate, a 0 km transfer still produces a candidate, and
a 1 km transfer is skipped. -/
theorem C10_witness :
    (walkCand { defaultOptions with max_walking_distance_km := 0 } ⊤ 100 1
        "A" 0 600 ⟨"B", none, some 30⟩).isSome ∧
    (walkCand { defaultOptions with max_walking_distance_km := 0 } ⊤ 100 1
        "A" 0 600 ⟨"C", some 0, none⟩).isSome ∧
    walkCand { defaultOptions with max_walking_distance_km := 0 } ⊤ 100 1
        "A" 0 600 ⟨"D", some 1, none⟩ = none := by
  refine ⟨?_, ?_, ?_⟩
  · exact (C10_distance_guard _ ⊤ 100 1 "A" 0 600 ⟨"B", none, some 30⟩).1
      (Or.inl rfl) (by decide) (by decide)
  · exact (C10_distance_guard _ ⊤ 100 1 "A" 0 600 ⟨"C", some 0, none⟩).1
      (Or.inr rfl) (by decide) (by decide)
  · exact (C10_distance_guard _ ⊤ 100 1 "A" 0 600 ⟨"D", some 1, none⟩).2 1
      rfl (by decide) (by decide)

/-! ## Claim C1: behaviour on unreachable destinations -/

theorem alFind_map_self {β : Type} (l : List String) (g : String → β)
    (x : String) (hx : x ∈ l) :
    alFind (l.map (fun id => (id, g id))) x = some (g x) := by
  induction l with
  | nil => cases hx
  | cons a rest ih =>
      by_cases ha : a = x
      · subst ha
        simp [alFind, List.find?_cons]
      · have hx' : x ∈ rest := by
          cases hx with
          | head => exact absurd rfl ha
          | tail _ h => exact h
        have hdec : (decide ((a, g a).1 = x)) = false :=
          decide_eq_false ha
        unfold alFind at ih ⊢
        rw [List.map_cons, List.find?_cons, hdec]
        exact ih hx'

theorem alFind_map_pair {β γ : Type} (l : List (String × β)) (f : β → γ)
    (x : String) :
    alFind (l.map (fun p => (p.1, f p.2))) x = (alFind l x).map f := by
  induction l with
  | nil => rfl
  | cons p rest ih =>
      unfold alFind at ih ⊢
      rw [List.map_cons, List.find?_cons, List.find?_cons]
      by_cases hp : p.1 = x
      · rw [decide_eq_true (show ((p.1, f p.2).1 = x) from hp)]
        rfl
      · rw [decide_eq_false (show ¬ ((p.1, f p.2).1 = x) from hp)]
        exact ih

/-- The route-spec lookup of `oneToManyStopHelper` for a requested
destination: `none` (the JS `null`) exactly when `findBestK` found no
column. -/
theorem oneToManyStopHelper_lookup (feed : Feed) (originId : String)
    (departureSecs : ℚ) (destinationIds : List String)
    (options : QueryOptions) (destId : String) (hmem : destId ∈ destinationIds) :
    alFind (oneToManyStopHelper feed originId departureSecs destinationIds
        options).2 destId =
      some ((findBestK (raptor originId departureSecs feed options) destId
          options.transfer_penalty_secs).map
        (fun k =>
          let reachInfo := (reachAt (raptor originId departureSecs feed options)
            k destId).getD default
          ⟨reachInfo.cost, reachInfo.timeOfDaySec - departureSecs, k⟩)) := by
  unfold oneToManyStopHelper findBestRoutes
  simp only [List.map_map]
  exact alFind_map_self destinationIds _ destId hmem

/-- C1 (amended).  For a destination the search cannot reach (`findBestK`
yields `null`): `oneToMany` maps it to `Infinity` and `oneToOne` returns
`null` without throwing, but `stopToStop` throws (it destructures the null
route spec); an unknown stop id at query time falls under this case. -/
theorem C1_unreachable_outcomes (feed : Feed) (originId : String)
    (departureSecs : ℚ) (destinationIds : List String) (destId : String)
    (options : QueryOptions) (dist : Stop → Stop → ℚ)
    (hmem : destId ∈ destinationIds)
    (hun : findBestK (raptor originId departureSecs feed options) destId
      options.transfer_penalty_secs = none) :
    alFind (oneToMany feed originId departureSecs destinationIds options)
        destId = some ⊤ ∧
    oneToOne feed originId departureSecs destId options dist = none ∧
    ∃ e, stopToStop feed originId departureSecs destId options dist =
      Except.error e := by
  have hhelp := oneToManyStopHelper_lookup feed originId departureSecs
    destinationIds options destId hmem
  rw [hun] at hhelp
  simp only [Option.map_none'] at hhelp
  have hhelp1 := oneToManyStopHelper_lookup feed originId departureSecs
    [destId] options destId (List.mem_singleton.2 rfl)
  rw [hun] at hhelp1
  simp only [Option.map_none'] at hhelp1
  refine ⟨?_, ?_, ?_⟩
  · unfold oneToMany
    rw [alFind_map_pair, hhelp]
    rfl
  · unfold oneToOne
    rw [hhelp1]
  · unfold stopToStop
    rw [hhelp1]
    exact ⟨_, rfl⟩

/-! A small concrete feed for witnesses and counterexamples: stops `A` and
`B`, a bus trip and a subway trip from `A` to `B` (the setting of the
repository's own multiplier unit test). -/

def stA1 : StopTime := ⟨"busT", "A", 0, 1000⟩

def stB1 : StopTime := ⟨"busT", "B", 1, 1600⟩

def stA2 : StopTime := ⟨"railT", "A", 0, 1060⟩

def stB2 : StopTime := ⟨"railT", "B", 1, 1660⟩

def sampleFeed : Feed where
  stopIdToStopTimes := [("A", [stA1, stA2]), ("B", [stB1, stB2])]
  tripIdToStopTime := [("busT", [stA1, stB1]), ("railT", [stA2, stB2])]
  tripIdToTrip := [("busT", ⟨"busT", "bus", "s"⟩), ("railT", ⟨"railT", "rail", "s"⟩)]
  routeIdToRoute := [("bus", ⟨"bus", RouteType.bus⟩),
    ("rail", ⟨"rail", RouteType.subway⟩)]
  stopIdToStop := []
  walkingTransfers := []

def distZero : Stop → Stop → ℚ := fun _ _ => 0

instance : DecidableEq (Except String TRoute) := fun a b =>
  match a, b with
  | .ok x, .ok y =>
      if h : x = y then .isTrue (h ▸ rfl)
      else .isFalse (fun hc => h (by cases hc; rfl))
  | .ok _, .error _ => .isFalse (fun hc => by cases hc)
  | .error _, .ok _ => .isFalse (fun hc => by cases hc)
  | .error x, .error y =>
      if h : x = y then .isTrue (h ▸ rfl)
      else .isFalse (fun hc => h (by cases hc; rfl))

unseal Rat.add Rat.mul Rat.inv Rat.sub in
/-- C1 counterexample: on the sample feed, the unknown stop id `ZZZ` is
unreachable, yet `stopToStop` raises an error instead of returning a null
route (while `oneToMany` and `oneToOne` do report it as unreachable). -/
theorem C1_counterexample :
    stopToStop sampleFeed "A" 1000 "ZZZ" defaultOptions distZero =
      Except.error "TypeError: cannot destructure property of null" ∧
    alFind (oneToMany sampleFeed "A" 1000 ["ZZZ"] defaultOptions) "ZZZ" =
      some ⊤ ∧
    oneToOne sampleFeed "A" 1000 "ZZZ" defaultOptions distZero = none := by
  refine ⟨by decide, by decide, by decide⟩

unseal Rat.add Rat.mul Rat.inv Rat.sub in
/-- C1 witness: the amended theorem applied to the sample feed and the
unreachable destination `ZZZ`. -/
theorem C1_witness :
    alFind (oneToMany sampleFeed "A" 1000 ["B", "ZZZ"] defaultOptions) "ZZZ" =
      some ⊤ ∧
    oneToOne sampleFeed "A" 1000 "ZZZ" defaultOptions distZero = none ∧
    ∃ e, stopToStop sampleFeed "A" 1000 "ZZZ" defaultOptions distZero =
      Except.error e :=
  C1_unreachable_outcomes sampleFeed "A" 1000 ["B", "ZZZ"] "ZZZ"
    defaultOptions distZero (by decide) (by decide)

/-! ## Claims C2 and C6: the boarding-round scan and its cost accounting -/

theorem mem_of_takeWhile {α : Type} (p : α → Bool) (l : List α) (x : α)
    (hx : x ∈ l.takeWhile p) : x ∈ l := by
  induction l with
  | nil => simp at hx
  | cons y rest ih =>
      rw [List.takeWhile_cons] at hx
      by_cases hp : p y
      · rw [if_pos hp] at hx
        rcases List.mem_cons.1 hx with rfl | h
        · exact List.mem_cons_self _ _
        · exact List.mem_cons_of_mem _ (ih h)
      · rw [if_neg hp] at hx
        cases hx

/-- The downstream scan of `takeVehicles` records exactly the maximal prefix
of the post-boarding stop-times that are neither too late nor excluded: the
loop breaks at the first offender. -/
theorem scanDownstream_eq_takeWhile (options : QueryOptions)
    (lastValid : WithTop ℚ) (k : Nat) (time prevCost : ℚ)
    (boarding : StopTime) (multiplier : ℚ) (l : List StopTime) :
    scanDownstream options lastValid k time prevCost boarding multiplier l =
      (l.takeWhile (fun st =>
        !(decide (lastValid < (st.timeOfDaySec : WithTop ℚ))) &&
          !(isStopExcluded st.stopId options))).map
        (fun st => mkTransitCand k time prevCost boarding st multiplier) := by
  induction l with
  | nil => rfl
  | cons st rest ih =>
      unfold scanDownstream
      by_cases hl : lastValid < (st.timeOfDaySec : WithTop ℚ)
      · rw [if_pos hl, List.takeWhile_cons]
        simp [hl]
      · rw [if_neg hl]
        by_cases he : isStopExcluded st.stopId options
        · rw [if_pos he, List.takeWhile_cons]
          simp [hl, he]
        · rw [if_neg he, List.takeWhile_cons]
          simp only [decide_eq_true hl, he, Bool.not_false, Bool.not_true,
            Bool.and_false, Bool.and_true]
          rw [if_pos (by simp [hl, he])]
          rw [List.map_cons, ih]

/-- The full candidate characterization of one boarding-round stop: the
boardings scanned are the stop-times in the waiting window, and each
non-excluded, nonnegative-multiplier boarding contributes the maximal
non-excluded, in-time prefix of its trip's later stop-times. -/
theorem stopCandidates_eq (s : RS) (k : Nat) (feed : Feed)
    (options : QueryOptions) (lastValid : WithTop ℚ) (stopId : String)
    (r : Nat) (hr : alFind (getCol s (k - 1)) stopId = some r) :
    stopCandidates s k feed options lastValid stopId =
      (((feed.stopTimesAt stopId).filter (fun st =>
          (hGet s.heap r).timeOfDaySec ≤ st.timeOfDaySec ∧
            st.timeOfDaySec ≤ (hGet s.heap r).timeOfDaySec +
              options.max_waiting_time_secs)).map (fun a =>
        if lastValid < (a.timeOfDaySec : WithTop ℚ) then []
        else if isTripExcluded (feed.tripOf a.tripId) options then []
        else if getCostMultiplier (feed.tripOf a.tripId) feed options < 0 then []
        else
          (((feed.tripStopTimes a.tripId).drop
              (findStopTimeInSequence (feed.tripStopTimes a.tripId)
                a.stopSequence + 1)).takeWhile (fun b =>
            !(decide (lastValid < (b.timeOfDaySec : WithTop ℚ))) &&
              !(isStopExcluded b.stopId options))).map
            (fun b => mkTransitCand k (hGet s.heap r).timeOfDaySec
              ((reachAt s (k - 1) a.stopId).getD default).cost a b
              (getCostMultiplier (feed.tripOf a.tripId) feed options)))).flatten := by
  unfold stopCandidates
  rw [hr]
  dsimp only
  congr 1
  apply List.map_congr_left
  intro a _
  unfold boardCands
  by_cases hl : lastValid < (a.timeOfDaySec : WithTop ℚ)
  · rw [if_pos hl, if_pos hl]
  · rw [if_neg hl, if_neg hl]
    by_cases he : isTripExcluded (feed.tripOf a.tripId) options
    · rw [if_pos he, if_pos he]
    · rw [if_neg he, if_neg he]
      by_cases hm : getCostMultiplier (feed.tripOf a.tripId) feed options < 0
      · rw [if_pos hm, if_pos hm]
      · rw [if_neg hm, if_neg hm]
        exact scanDownstream_eq_takeWhile options lastValid k _ _ a _ _

/-- C2 (amended).  In a boarding round, for a stop reached in `τ[k-1]` at
time `t`, the stop-times scanned are exactly those at the stop with
`t ≤ departure ≤ t + max_waiting_time_secs`; for each such boarding on a
non-excluded, nonnegative-multiplier trip, the downstream stop-times whose
candidate connections are recorded into `τ[k]` are exactly the *maximal
prefix* of the stop-times after the boarding position that are neither past
`lastValidTimeSecs` nor in `exclude_stops`: the scan breaks at the first
excluded or too-late stop-time, so an excluded downstream stop-time *does*
prevent all later downstream stop-times of that trip from being recorded
from this boarding. -/
theorem C2_boarding_scan (s : RS) (k : Nat) (feed : Feed)
    (options : QueryOptions) (lastValid : WithTop ℚ) (stopId : String)
    (r : Nat) (hr : alFind (getCol s (k - 1)) stopId = some r) :
    stopCandidates s k feed options lastValid stopId =
      (((feed.stopTimesAt stopId).filter (fun st =>
          (hGet s.heap r).timeOfDaySec ≤ st.timeOfDaySec ∧
            st.timeOfDaySec ≤ (hGet s.heap r).timeOfDaySec +
              options.max_waiting_time_secs)).map (fun a =>
        if lastValid < (a.timeOfDaySec : WithTop ℚ) then []
        else if isTripExcluded (feed.tripOf a.tripId) options then []
        else if getCostMultiplier (feed.tripOf a.tripId) feed options < 0 then []
        else
          (((feed.tripStopTimes a.tripId).drop
              (findStopTimeInSequence (feed.tripStopTimes a.tripId)
                a.stopSequence + 1)).takeWhile (fun b =>
            !(decide (lastValid < (b.timeOfDaySec : WithTop ℚ))) &&
              !(isStopExcluded b.stopId options))).map
            (fun b => mkTransitCand k (hGet s.heap r).timeOfDaySec
              ((reachAt s (k - 1) a.stopId).getD default).cost a b
              (getCostMultiplier (feed.tripOf a.tripId) feed options)))).flatten :=
  stopCandidates_eq s k feed options lastValid stopId r hr

/-- The feed, options and initial state of the C2 counterexample: one trip
`T1` visiting `A`, `B`, `C` in order, with `B` excluded. -/
def feedC2 : Feed where
  stopIdToStopTimes := [("A", [⟨"T1", "A", 1, 100⟩]), ("B", [⟨"T1", "B", 2, 200⟩]),
    ("C", [⟨"T1", "C", 3, 300⟩])]
  tripIdToStopTime := [("T1", [⟨"T1", "A", 1, 100⟩, ⟨"T1", "B", 2, 200⟩,
    ⟨"T1", "C", 3, 300⟩])]
  tripIdToTrip := [("T1", ⟨"T1", "R1", "s"⟩)]
  routeIdToRoute := [("R1", ⟨"R1", RouteType.bus⟩)]
  stopIdToStop := []
  walkingTransfers := []

def optsC2 : QueryOptions := { defaultOptions with exclude_stops := ["B"] }

def sC2 : RS :=
  { heap := [⟨50, 0, none, TransportMode.origin, none, true, none⟩],
    tau := [[("A", 0)], []] }

unseal Rat.add Rat.mul Rat.inv Rat.sub in
/-- C2 counterexample: with `B` excluded, the downstream stop-time `C` of
the same trip is not excluded and not past `lastValidTimeSecs`, yet the
boarding round records nothing for it — the scan broke at `B`. -/
theorem C2_counterexample :
    reachAt (takeVehicles sC2 1 feedC2 optsC2 ⊤) 1 "C" = none ∧
    reachAt (takeVehicles sC2 1 feedC2 optsC2 ⊤) 1 "B" = none ∧
    isStopExcluded "B" optsC2 = true ∧
    isStopExcluded "C" optsC2 = false ∧
    ¬ (⊤ : WithTop ℚ) < ((300 : ℚ) : WithTop ℚ) := by
  refine ⟨by decide, by decide, by decide, by decide, by decide⟩

unseal Rat.add Rat.mul Rat.inv Rat.sub in
/-- C2 witness: the amended characterization applied to a concrete boarding
round without exclusions. -/
theorem C2_witness :
    stopCandidates sC2 1 feedC2 defaultOptions ⊤ "A" =
      [⟨"B", 200, 150, "A", TransportMode.transit, some "T1", 0⟩,
       ⟨"C", 300, 250, "A", TransportMode.transit, some "T1", 0⟩] :=
  (C2_boarding_scan sC2 1 feedC2 defaultOptions ⊤ "A" 0 (by decide)).trans
    (by decide)

/-- C6.  Every candidate a boarding round records is a transit connection
from a boarding stop-time `a` in the waiting window to a later stop-time `b`
of `a`'s trip, with arrival time `b.timeOfDaySec` and cost
`c_A + (a.timeOfDaySec − t_A) + m · (b.timeOfDaySec − a.timeOfDaySec)`,
where `c_A`/`t_A` are the boarding stop's reach cost and time in `τ[k-1]`
and `m` is `bus_multiplier` for a Bus route and `rail_multiplier` otherwise,
and `m` is never negative; moreover a boarding whose trip has a negative
multiplier records no connection at all. -/
theorem C6_transit_cost (s : RS) (k : Nat) (feed : Feed)
    (options : QueryOptions) (lastValid : WithTop ℚ) (stopId : String)
    (r : Nat) (hr : alFind (getCol s (k - 1)) stopId = some r) :
    (∀ c ∈ stopCandidates s k feed options lastValid stopId,
      ∃ a b : StopTime,
        a ∈ (feed.stopTimesAt stopId).filter (fun st =>
          (hGet s.heap r).timeOfDaySec ≤ st.timeOfDaySec ∧
            st.timeOfDaySec ≤ (hGet s.heap r).timeOfDaySec +
              options.max_waiting_time_secs) ∧
        b ∈ (feed.tripStopTimes a.tripId).drop
          (findStopTimeInSequence (feed.tripStopTimes a.tripId)
            a.stopSequence + 1) ∧
        c.mode = TransportMode.transit ∧
        c.dest = b.stopId ∧
        c.timeOfDaySec = b.timeOfDaySec ∧
        c.cost = ((reachAt s (k - 1) a.stopId).getD default).cost +
          ((a.timeOfDaySec - (hGet s.heap r).timeOfDaySec) +
            getCostMultiplier (feed.tripOf a.tripId) feed options *
              (b.timeOfDaySec - a.timeOfDaySec)) ∧
        getCostMultiplier (feed.tripOf a.tripId) feed options =
          (if (feed.routeOf (feed.tripOf a.tripId).route_id).route_type =
              RouteType.bus then options.bus_multiplier
            else options.rail_multiplier) ∧
        0 ≤ getCostMultiplier (feed.tripOf a.tripId) feed options) ∧
    (∀ time : ℚ, ∀ stopTime : StopTime,
      getCostMultiplier (feed.tripOf stopTime.tripId) feed options < 0 →
      boardCands s k feed options lastValid time stopTime = []) := by
  constructor
  · intro c hc
    rw [stopCandidates_eq s k feed options lastValid stopId r hr] at hc
    rw [List.mem_flatten] at hc
    obtain ⟨l, hl, hcl⟩ := hc
    rw [List.mem_map] at hl
    obtain ⟨a, ha, rfl⟩ := hl
    by_cases h1 : lastValid < (a.timeOfDaySec : WithTop ℚ)
    · rw [if_pos h1] at hcl
      cases hcl
    · rw [if_neg h1] at hcl
      by_cases h2 : isTripExcluded (feed.tripOf a.tripId) options
      · rw [if_pos h2] at hcl
        cases hcl
      · rw [if_neg h2] at hcl
        by_cases h3 : getCostMultiplier (feed.tripOf a.tripId) feed options < 0
        · rw [if_pos h3] at hcl
          cases hcl
        · rw [if_neg h3] at hcl
          rw [List.mem_map] at hcl
          obtain ⟨b, hb, rfl⟩ := hcl
          refine ⟨a, b, ha, mem_of_takeWhile _ _ _ hb, rfl, rfl, rfl, rfl,
            rfl, not_lt.1 h3⟩
  · intro time stopTime hneg
    unfold boardCands
    by_cases h1 : lastValid < (stopTime.timeOfDaySec : WithTop ℚ)
    · rw [if_pos h1]
    · rw [if_neg h1]
      by_cases h2 : isTripExcluded (feed.tripOf stopTime.tripId) options
      · rw [if_pos h2]
      · rw [if_neg h2]
        rw [if_pos hneg]

unseal Rat.add Rat.mul Rat.inv Rat.sub in
/-- C6 witness: the cost accounting theorem applied to the concrete boarding
round of the sample feed, plus its negative-multiplier clause applied with
`bus_multiplier = -1`. -/
theorem C6_witness :
    (∃ a b : StopTime,
        a ∈ (feedC2.stopTimesAt "A").filter (fun st =>
          (hGet sC2.heap 0).timeOfDaySec ≤ st.timeOfDaySec ∧
            st.timeOfDaySec ≤ (hGet sC2.heap 0).timeOfDaySec +
              defaultOptions.max_waiting_time_secs) ∧
        b ∈ (feedC2.tripStopTimes a.tripId).drop
          (findStopTimeInSequence (feedC2.tripStopTimes a.tripId)
            a.stopSequence + 1) ∧
        (⟨"B", 200, 150, "A", TransportMode.transit, some "T1", 0⟩ : Cand).mode =
          TransportMode.transit ∧
        (⟨"B", 200, 150, "A", TransportMode.transit, some "T1", 0⟩ : Cand).dest =
          b.stopId ∧
        (⟨"B", 200, 150, "A", TransportMode.transit, some "T1", 0⟩ :
          Cand).timeOfDaySec = b.timeOfDaySec ∧
        (⟨"B", 200, 150, "A", TransportMode.transit, some "T1", 0⟩ :
          Cand).cost = ((reachAt sC2 0 a.stopId).getD default).cost +
          ((a.timeOfDaySec - (hGet sC2.heap 0).timeOfDaySec) +
            getCostMultiplier (feedC2.tripOf a.tripId) feedC2 defaultOptions *
              (b.timeOfDaySec - a.timeOfDaySec)) ∧
        getCostMultiplier (feedC2.tripOf a.tripId) feedC2 defaultOptions =
          (if (feedC2.routeOf (feedC2.tripOf a.tripId).route_id).route_type =
              RouteType.bus then defaultOptions.bus_multiplier
            else defaultOptions.rail_multiplier) ∧
        0 ≤ getCostMultiplier (feedC2.tripOf a.tripId) feedC2 defaultOptions) ∧
    boardCands sC2 1 feedC2
      { defaultOptions with bus_multiplier := -1 } ⊤ 50 ⟨"T1", "A", 1, 100⟩ =
      [] := by
  constructor
  · exact (C6_transit_cost sC2 1 feedC2 defaultOptions ⊤ "A" 0 (by decide)).1
      ⟨"B", 200, 150, "A", TransportMode.transit, some "T1", 0⟩ (by decide)
  · exact (C6_transit_cost sC2 1 feedC2
      { defaultOptions with bus_multiplier := -1 } ⊤ "A" 0 (by decide)).2 50
      ⟨"T1", "A", 1, 100⟩ (by decide)

/-! ## Claim C7: round structure and leftover exploration marks -/

theorem foldl_preserve {σ α : Type} {P : σ → Prop} (f : σ → α → σ)
    (hstep : ∀ t x, P t → P (f t x)) :
    ∀ (l : List α) (s : σ), P s → P (l.foldl f s) := by
  intro l
  induction l with
  | nil => intro s hs; exact hs
  | cons x rest ih => intro s hs; exact ih (f s x) (hstep s x hs)

theorem setColList_length (t : List ReachMap) (k : Nat) (m : ReachMap) :
    (setColList t k m).length = max t.length (k + 1) := by
  unfold setColList
  by_cases h : k < t.length
  · rw [if_pos h, List.length_set]
    omega
  · rw [if_neg h]
    simp only [List.length_append, List.length_replicate, List.length_cons,
      List.length_nil]
    omega

theorem addConnection_tau_length (s : RS) (k : Nat) (dest : String)
    (time cost : ℚ) (prev : String) (mode : TransportMode)
    (tripId : Option String) (prevK : Nat) (hk : k < s.tau.length) :
    (addConnection s k dest time cost prev mode tripId prevK).tau.length =
      s.tau.length := by
  unfold addConnection
  cases h : alFind (getCol s k) dest with
  | none =>
      show (setColList s.tau k _).length = s.tau.length
      rw [setColList_length]
      omega
  | some r =>
      dsimp only
      by_cases hc : (hGet s.heap r).cost > cost
      · rw [if_pos hc]
        show (setColList s.tau k _).length = s.tau.length
        rw [setColList_length]
        omega
      · rw [if_neg hc]

theorem exploreStop_tau_length (feed : Feed) (options : QueryOptions)
    (lastValid : WithTop ℚ) (k : Nat) (s : RS) (stopId : String)
    (hk : k < s.tau.length) :
    (exploreStop feed options lastValid k s stopId).tau.length =
      s.tau.length := by
  unfold exploreStop
  cases alFind (getCol s (k - 1)) stopId with
  | none => rfl
  | some r =>
      show ((stopCandidates s k feed options lastValid stopId).foldl
        (applyCand k) s).tau.length = s.tau.length
      exact foldl_preserve (P := fun t => t.tau.length = s.tau.length)
        (applyCand k)
        (fun t c ht => by
          dsimp only at ht ⊢
          unfold applyCand
          rw [addConnection_tau_length _ _ _ _ _ _ _ _ _ (by omega), ht])
        _ s rfl

theorem takeVehicles_tau_length (s : RS) (k : Nat) (feed : Feed)
    (options : QueryOptions) (lastValid : WithTop ℚ) (hk : k < s.tau.length) :
    (takeVehicles s k feed options lastValid).tau.length = s.tau.length := by
  unfold takeVehicles
  exact foldl_preserve (P := fun t => t.tau.length = s.tau.length)
    (exploreStop feed options lastValid k)
    (fun t stopId ht => by
      dsimp only at ht ⊢
      rw [exploreStop_tau_length _ _ _ _ _ _ (by omega), ht])
    _ s rfl

theorem walkStop_tau_length (transfers : List (String × List WalkingTransfer))
    (options : QueryOptions) (lastValid : WithTop ℚ) (k : Nat) (s : RS)
    (stopId : String) (hk : k < s.tau.length) :
    (walkStop transfers options lastValid k s stopId).tau.length =
      s.tau.length := by
  unfold walkStop
  cases alFind (getCol s (k - 1)) stopId with
  | none => rfl
  | some r =>
      dsimp only
      by_cases hw : (hGet s.heap r).mode = TransportMode.walk
      · rw [if_pos hw]
      · rw [if_neg hw]
        exact foldl_preserve (P := fun t => t.tau.length = s.tau.length)
          (applyCand k)
          (fun t c ht => by
            dsimp only at ht ⊢
            unfold applyCand
            rw [addConnection_tau_length _ _ _ _ _ _ _ _ _ (by omega), ht])
          _ s rfl

theorem makeTransfers_tau_length (s : RS) (k : Nat)
    (transfers : List (String × List WalkingTransfer))
    (options : QueryOptions) (lastValid : WithTop ℚ) (hk : k < s.tau.length) :
    (makeTransfers s k transfers options lastValid).tau.length =
      s.tau.length := by
  unfold makeTransfers
  exact foldl_preserve (P := fun t => t.tau.length = s.tau.length)
    (walkStop transfers options lastValid k)
    (fun t stopId ht => by
      dsimp only at ht ⊢
      rw [walkStop_tau_length _ _ _ _ _ _ (by omega), ht])
    _ s rfl

theorem clearMarks_tau (s : RS) (k : Nat) : (clearMarks s k).tau = s.tau := by
  unfold clearMarks
  exact foldl_preserve (P := fun t => t.tau = s.tau)
    (fun t (p : String × Nat) =>
      { t with heap := hSet t.heap p.2 (markExplored (hGet t.heap p.2)) })
    (fun t p ht => ht) _ s rfl

theorem getCol_clearMarks (s : RS) (k j : Nat) :
    getCol (clearMarks s k) j = getCol s j := by
  unfold getCol
  rw [clearMarks_tau]

theorem setCol_length (s : RS) (k : Nat) (m : ReachMap) :
    (setCol s k m).tau.length = max s.tau.length (k + 1) := by
  unfold setCol
  exact setColList_length s.tau k m

theorem raptorLoop_spec (feed : Feed) (options : QueryOptions)
    (lastValid : WithTop ℚ) :
    ∀ (count k : Nat) (s : RS), s.tau.length = k →
      (raptorLoop feed options lastValid count k s).2 = k + 2 * count ∧
      (raptorLoop feed options lastValid count k s).1.tau.length =
        k + 2 * count := by
  intro count
  induction count with
  | zero => intro k s hk; exact ⟨rfl, by simpa using hk⟩
  | succ n ih =>
      intro k s hk
      unfold raptorLoop
      have h1 : (setCol s k []).tau.length = k + 1 := by
        rw [setCol_length, hk, Nat.max_eq_right (by omega)]
      have h2 : (takeVehicles (setCol s k []) k feed options
          lastValid).tau.length = k + 1 := by
        rw [takeVehicles_tau_length _ _ _ _ _ (by omega), h1]
      have h3 : (setCol (takeVehicles (setCol s k []) k feed options lastValid)
          (k + 1) (copyTimes (takeVehicles (setCol s k []) k feed options
            lastValid).heap (getCol (takeVehicles (setCol s k []) k feed
              options lastValid) k))).tau.length = k + 2 := by
        rw [setCol_length, h2, Nat.max_eq_right (by omega)]
      have h4 : (makeTransfers (setCol (takeVehicles (setCol s k []) k feed
          options lastValid) (k + 1) (copyTimes (takeVehicles (setCol s k [])
            k feed options lastValid).heap (getCol (takeVehicles (setCol s k
              []) k feed options lastValid) k))) (k + 1)
          feed.walkingTransfers options lastValid).tau.length = k + 2 := by
        rw [makeTransfers_tau_length _ _ _ _ _ (by omega), h3]
      have := ih (k + 2) _ h4
      refine ⟨?_, ?_⟩
      · rw [this.1]
        omega
      · rw [this.2]
        omega

/-- A feed with no service and no transfers at all: the origin of a raptor
run over it is not a served stop. -/
def feedU : Feed where
  stopIdToStopTimes := []
  tripIdToStopTime := []
  tripIdToTrip := []
  routeIdToRoute := []
  stopIdToStop := []
  walkingTransfers := []

theorem hGet_hSet_ne (h : Heap) (r : Nat) (v : ReachInfo) (r' : Nat)
    (hne : r ≠ r') : hGet (hSet h r v) r' = hGet h r' := by
  unfold hGet hSet
  rw [List.getD_eq_getD_get?, List.getD_eq_getD_get?]
  rw [List.get?_eq_getElem?, List.get?_eq_getElem?]
  rw [List.getElem?_set_ne hne]

theorem isUnexplored_clear_step (s : RS) (p : String × Nat) (r0 : Nat)
    (h0 : (hGet s.heap r0).isUnexplored = false) :
    (hGet (hSet s.heap p.2 (markExplored (hGet s.heap p.2))) r0).isUnexplored =
      false := by
  by_cases he : p.2 = r0
  · subst he
    by_cases hlt : p.2 < s.heap.length
    · unfold hGet hSet
      rw [List.getD_eq_getElem _ _ (by simpa using hlt)]
      rw [List.getElem_set_self]
      rfl
    · unfold hGet hSet
      rw [List.set_eq_of_length_le (le_of_not_lt hlt)]
      exact h0
  · rw [hGet_hSet_ne _ _ _ _ he]
    exact h0

theorem clearMarks_unmarks (s : RS) (k : Nat) :
    ∀ p ∈ getCol s k, (hGet (clearMarks s k).heap p.2).isUnexplored = false := by
  unfold clearMarks
  generalize getCol s k = col
  induction col generalizing s with
  | nil => intro p hp; cases hp
  | cons p0 rest ih =>
      intro p hp
      rw [List.foldl_cons]
      rcases List.mem_cons.1 hp with rfl | hmem
      · -- after its own step the record is unmarked, and every further step
        -- only ever writes unmarked records
        refine foldl_preserve
          (P := fun t : RS => (hGet t.heap p.2).isUnexplored = false)
          (fun t q =>
            { t with heap := hSet t.heap q.2 (markExplored (hGet t.heap q.2)) })
          (fun t q ht => isUnexplored_clear_step t q p.2 ht) rest _ ?_
        show (hGet (hSet s.heap p.2 (markExplored (hGet s.heap p.2)))
          p.2).isUnexplored = false
        by_cases hlt : p.2 < s.heap.length
        · unfold hGet hSet
          rw [List.getD_eq_getElem _ _ (by simpa using hlt)]
          rw [List.getElem_set_self]
          rfl
        · unfold hGet hSet
          rw [List.set_eq_of_length_le (le_of_not_lt hlt)]
          rw [List.getD_eq_default _ _ (le_of_not_lt hlt)]
          rfl
      · exact ih _ p hmem

/-- C7 (amended).  `raptor` always runs exactly `1 + max_number_of_transfers`
boarding rounds, each immediately followed by a walking round: the returned
τ has columns `τ[0 .. 2·(1+maxTransfers)]` for a served origin, with one
extra initial walking column when the origin has no stop-times; and upon
completion no record of the *final* column is still marked `isUnexplored`
(records of earlier columns may remain marked — see the counterexample). -/
theorem C7_round_structure (feed : Feed) (options : QueryOptions)
    (stopId : String) (timeOfDaySec : ℚ) :
    (raptor stopId timeOfDaySec feed options).tau.length =
      (if (feed.stopTimesAt stopId).isEmpty then 2 else 1) +
        2 * (1 + options.max_number_of_transfers) ∧
    ∀ p ∈ getCol (raptor stopId timeOfDaySec feed options)
        ((raptor stopId timeOfDaySec feed options).tau.length - 1),
      (hGet (raptor stopId timeOfDaySec feed options).heap p.2).isUnexplored =
        false := by
  have hstart : (raptorStart stopId timeOfDaySec feed options).1.tau.length =
      (raptorStart stopId timeOfDaySec feed options).2 ∧
      (raptorStart stopId timeOfDaySec feed options).2 =
        (if (feed.stopTimesAt stopId).isEmpty then 2 else 1) := by
    unfold raptorStart
    by_cases hserved : (feed.stopTimesAt stopId).isEmpty
    · rw [if_pos hserved, if_pos hserved]
      refine ⟨?_, rfl⟩
      show (makeTransfers _ 1 _ _ _).tau.length = 2
      rw [makeTransfers_tau_length _ _ _ _ _
        (by rw [setCol_length]; simp [raptorInit])]
      rw [setCol_length]
      rfl
    · rw [if_neg hserved, if_neg hserved]
      exact ⟨rfl, rfl⟩
  have hspec := raptorLoop_spec feed options
    (raptorLastValid timeOfDaySec options)
    (1 + options.max_number_of_transfers)
    (raptorStart stopId timeOfDaySec feed options).2
    (raptorStart stopId timeOfDaySec feed options).1 hstart.1
  have hlen : (raptor stopId timeOfDaySec feed options).tau.length =
      (if (feed.stopTimesAt stopId).isEmpty then 2 else 1) +
        2 * (1 + options.max_number_of_transfers) := by
    unfold raptor
    rw [clearMarks_tau, hspec.2, hstart.2]
  refine ⟨hlen, ?_⟩
  intro p hp
  unfold raptor at hp ⊢
  rw [getCol_clearMarks] at hp
  apply clearMarks_unmarks
  have hidx : (clearMarks
      (raptorLoop feed options (raptorLastValid timeOfDaySec options)
        (1 + options.max_number_of_transfers)
        (raptorStart stopId timeOfDaySec feed options).2
        (raptorStart stopId timeOfDaySec feed options).1).1
      ((raptorLoop feed options (raptorLastValid timeOfDaySec options)
        (1 + options.max_number_of_transfers)
        (raptorStart stopId timeOfDaySec feed options).2
        (raptorStart stopId timeOfDaySec feed options).1).2 - 1)).tau.length - 1 =
      (raptorLoop feed options (raptorLastValid timeOfDaySec options)
        (1 + options.max_number_of_transfers)
        (raptorStart stopId timeOfDaySec feed options).2
        (raptorStart stopId timeOfDaySec feed options).1).2 - 1 := by
    rw [clearMarks_tau, hspec.2, hspec.1]
  rw [hidx] at hp
  exact hp

unseal Rat.add Rat.mul Rat.inv Rat.sub in
/-- C7 counterexample: for an origin with no stop-times, the origin's own
reach record in `τ[0]` is still marked `isUnexplored` when `raptor`
returns — the initial walking round never unmarks it and the final cleanup
only touches the last column. -/
theorem C7_counterexample :
    (reachAt (raptor "X" 0 feedU defaultOptions) 0 "X").map
      (fun ri => ri.isUnexplored) = some true := by
  decide

/-- The default options restricted to zero transfers (so the final walking
column of a sample-feed run is nonempty). -/
def optsK0 : QueryOptions := { defaultOptions with max_number_of_transfers := 0 }

unseal Rat.add Rat.mul Rat.inv Rat.sub in
/-- C7 witness: the amended round-structure theorem instantiated on the
sample feed (served origin, zero transfers: three columns), checking a
record of the final column is unmarked. -/
theorem C7_witness :
    (raptor "A" 1000 sampleFeed optsK0).tau.length =
      (if (sampleFeed.stopTimesAt "A").isEmpty then 2 else 1) +
        2 * (1 + optsK0.max_number_of_transfers) ∧
    (hGet (raptor "A" 1000 sampleFeed optsK0).heap
      (("B", 1) : String × Nat).2).isUnexplored = false := by
  constructor
  · exact (C7_round_structure sampleFeed optsK0 "A" 1000).1
  · exact (C7_round_structure sampleFeed optsK0 "A" 1000).2
      ("B", 1) (by decide)

/-! ## Claim C3: the no-wormholes cost invariant -/

/-- The invariant: every record on the heap has cost at least its arrival
time minus the departure time. -/
def HeapInv (dep : ℚ) (h : Heap) : Prop :=
  ∀ ri ∈ h, ri.timeOfDaySec - dep ≤ ri.cost

/-- Per-trip well-formedness: stop-times sorted by strictly increasing
`stopSequence` with nondecreasing `timeOfDaySec` (spec §3). -/
def TripsSorted (feed : Feed) : Prop :=
  ∀ q ∈ feed.tripIdToStopTime,
    q.2.Pairwise (fun x y => x.stopSequence < y.stopSequence ∧
      x.timeOfDaySec ≤ y.timeOfDaySec)

/-- Index consistency: every stop-time filed under a stop carries that
stop's id and appears in its own trip's list. -/
def StopIndexConsistent (feed : Feed) : Prop :=
  ∀ q ∈ feed.stopIdToStopTimes, ∀ st ∈ q.2,
    st.stopId = q.1 ∧ st ∈ feed.tripStopTimes st.tripId

theorem alGetD_cases {α : Type} (m : List (String × α)) (k : String)
    (dflt : α) :
    alGetD m k dflt = dflt ∨
      ∃ q ∈ m, q.1 = k ∧ alGetD m k dflt = q.2 := by
  unfold alGetD alFind
  cases hf : m.find? (fun p => p.1 = k) with
  | none => exact Or.inl rfl
  | some q =>
      refine Or.inr ⟨q, List.mem_of_find?_eq_some hf, ?_, rfl⟩
      simpa using List.find?_some hf

theorem hGet_inv (dep : ℚ) (h : Heap) (hd : 0 ≤ dep) (hinv : HeapInv dep h)
    (r : Nat) : (hGet h r).timeOfDaySec - dep ≤ (hGet h r).cost := by
  by_cases hr : r < h.length
  · apply hinv
    unfold hGet
    rw [List.getD_eq_getElem _ _ hr]
    exact List.getElem_mem hr
  · unfold hGet
    rw [List.getD_eq_default _ _ (le_of_not_lt hr)]
    show (0 : ℚ) - dep ≤ 0
    linarith

theorem addConnection_inv (dep : ℚ) (s : RS) (k : Nat) (dest : String)
    (time cost : ℚ) (prev : String) (mode : TransportMode)
    (tripId : Option String) (prevK : Nat) (hinv : HeapInv dep s.heap)
    (hc : time - dep ≤ cost) :
    HeapInv dep (addConnection s k dest time cost prev mode tripId prevK).heap := by
  unfold addConnection
  have hnew : HeapInv dep (s.heap ++
      [⟨time, cost, some prev, mode, tripId, true, some prevK⟩]) := by
    intro ri hri
    rcases List.mem_append.1 hri with hold | hfresh
    · exact hinv ri hold
    · rw [List.mem_singleton.1 hfresh]
      exact hc
  cases alFind (getCol s k) dest with
  | none => exact hnew
  | some r =>
      dsimp only
      by_cases hgt : (hGet s.heap r).cost > cost
      · rw [if_pos hgt]
        exact hnew
      · rw [if_neg hgt]
        exact hinv

theorem hSet_markExplored_inv (dep : ℚ) (h : Heap) (hd : 0 ≤ dep)
    (hinv : HeapInv dep h) (r : Nat) :
    HeapInv dep (hSet h r (markExplored (hGet h r))) := by
  intro ri hri
  rcases List.mem_or_eq_of_mem_set hri with hold | hnew
  · exact hinv ri hold
  · rw [hnew]
    show (hGet h r).timeOfDaySec - dep ≤ (hGet h r).cost
    exact hGet_inv dep h hd hinv r

theorem foldl_preserve_mem {σ α : Type} {P : σ → Prop} (f : σ → α → σ)
    (l : List α) (hstep : ∀ t x, x ∈ l → P t → P (f t x)) :
    ∀ s : σ, P s → P (l.foldl f s) := by
  induction l with
  | nil => intro s hs; exact hs
  | cons x rest ih =>
      intro s hs
      exact ih (fun t y hy ht => hstep t y (List.mem_cons_of_mem x hy) ht)
        (f s x) (hstep s x (List.mem_cons_self x rest) hs)

theorem seq_inj (l : List StopTime)
    (hs : l.Pairwise (fun x y => x.stopSequence < y.stopSequence))
    (i j : Nat) (hi : i < l.length) (hj : j < l.length)
    (he : (l.get ⟨i, hi⟩).stopSequence = (l.get ⟨j, hj⟩).stopSequence) :
    i = j := by
  rcases lt_trichotomy i j with hlt | heq | hgt
  · have := List.pairwise_iff_get.1 hs ⟨i, hi⟩ ⟨j, hj⟩ hlt
    omega
  · exact heq
  · have := List.pairwise_iff_get.1 hs ⟨j, hj⟩ ⟨i, hi⟩ hgt
    omega

theorem takeWhile_length_eq {α : Type} (p : α → Bool) :
    ∀ (l : List α) (i : Nat) (hi : i < l.length),
      (∀ j (hj : j < i), p (l.get ⟨j, lt_trans hj hi⟩) = true) →
      p (l.get ⟨i, hi⟩) = false → (l.takeWhile p).length = i := by
  intro l
  induction l with
  | nil => intro i hi; simp at hi
  | cons a rest ih =>
      intro i hi hbefore hat
      cases i with
      | zero =>
          rw [List.takeWhile_cons, if_neg (by simp_all)]
          rfl
      | succ n =>
          have ha : p a = true := hbefore 0 (Nat.succ_pos n)
          rw [List.takeWhile_cons, if_pos ha]
          have := ih n (by simpa using hi)
            (fun j hj => hbefore (j + 1) (by omega)) hat
          simp [this]

theorem findStopTime_get (l : List StopTime)
    (hs : l.Pairwise (fun x y => x.stopSequence < y.stopSequence))
    (i : Nat) (hi : i < l.length) :
    findStopTimeInSequence l (l.get ⟨i, hi⟩).stopSequence = i := by
  unfold findStopTimeInSequence
  by_cases hguess : 1 ≤ (l.get ⟨i, hi⟩).stopSequence ∧
      (l.get ⟨i, hi⟩).stopSequence ≤ l.length ∧
      (l.getD ((l.get ⟨i, hi⟩).stopSequence - 1) default).stopSequence =
        (l.get ⟨i, hi⟩).stopSequence
  · rw [if_pos hguess]
    obtain ⟨h1, h2, h3⟩ := hguess
    have hlt : (l.get ⟨i, hi⟩).stopSequence - 1 < l.length := by omega
    rw [List.getD_eq_getElem _ _ hlt] at h3
    exact seq_inj l hs ((l.get ⟨i, hi⟩).stopSequence - 1) i hlt hi
      (by simpa using h3)
  · rw [if_neg hguess]
    apply takeWhile_length_eq _ l i hi
    · intro j hj
      exact decide_eq_true
        (List.pairwise_iff_get.1 hs ⟨j, lt_trans hj hi⟩ ⟨i, hi⟩ hj)
    · exact decide_eq_false (lt_irrefl _)

theorem downstream_time_ge (l : List StopTime)
    (hsort : l.Pairwise (fun x y => x.stopSequence < y.stopSequence ∧
      x.timeOfDaySec ≤ y.timeOfDaySec))
    (a : StopTime) (ha : a ∈ l) (b : StopTime)
    (hb : b ∈ l.drop (findStopTimeInSequence l a.stopSequence + 1)) :
    a.timeOfDaySec ≤ b.timeOfDaySec := by
  have hseq : l.Pairwise (fun x y => x.stopSequence < y.stopSequence) :=
    hsort.imp (fun h => h.1)
  obtain ⟨i, hia⟩ := List.mem_iff_get.1 ha
  subst hia
  have hidx : findStopTimeInSequence l (l.get i).stopSequence = i.1 := by
    have := findStopTime_get l hseq i.1 i.2
    simpa using this
  rw [hidx] at hb
  obtain ⟨j, hjb⟩ := List.mem_iff_get.1 hb
  have hj2 : i.1 + 1 + j.1 < l.length := by
    have hjlen := j.2
    have hld : (List.drop (i.1 + 1) l).length = l.length - (i.1 + 1) :=
      List.length_drop _ _
    omega
  have hdg : (l.drop (i.1 + 1)).get j = l.get ⟨i.1 + 1 + j.1, hj2⟩ := by
    simp [List.get_eq_getElem, List.getElem_drop]
  have hrel := List.pairwise_iff_get.1 hsort i ⟨i.1 + 1 + j.1, hj2⟩
    (by rw [Fin.lt_def]; dsimp only; omega)
  rw [← hjb, hdg]
  exact hrel.2

/-- Every candidate produced by a boarding-round scan of a marked stop
respects the cost-vs-time bound, provided the feed is well-formed, the
multipliers are at least 1 and the heap already satisfies the invariant. -/
theorem stopCandidates_inv (dep : ℚ) (s : RS) (k : Nat) (feed : Feed)
    (options : QueryOptions) (lastValid : WithTop ℚ) (stopId : String)
    (hd : 0 ≤ dep) (hmb : 1 ≤ options.bus_multiplier)
    (hmr : 1 ≤ options.rail_multiplier) (hsort : TripsSorted feed)
    (hcons : StopIndexConsistent feed) (hinv : HeapInv dep s.heap) :
    ∀ c ∈ stopCandidates s k feed options lastValid stopId,
      c.timeOfDaySec - dep ≤ c.cost := by
  intro c hc
  cases hr : alFind (getCol s (k - 1)) stopId with
  | none =>
      unfold stopCandidates at hc
      rw [hr] at hc
      cases hc
  | some r =>
      rw [stopCandidates_eq s k feed options lastValid stopId r hr] at hc
      rw [List.mem_flatten] at hc
      obtain ⟨lc, hlc, hclc⟩ := hc
      rw [List.mem_map] at hlc
      obtain ⟨a, ha, rfl⟩ := hlc
      rw [List.mem_filter] at ha
      obtain ⟨hamem, hawin⟩ := ha
      by_cases h1 : lastValid < (a.timeOfDaySec : WithTop ℚ)
      · rw [if_pos h1] at hclc; cases hclc
      · rw [if_neg h1] at hclc
        by_cases h2 : isTripExcluded (feed.tripOf a.tripId) options
        · rw [if_pos h2] at hclc; cases hclc
        · rw [if_neg h2] at hclc
          by_cases h3 : getCostMultiplier (feed.tripOf a.tripId) feed options < 0
          · rw [if_pos h3] at hclc; cases hclc
          · rw [if_neg h3] at hclc
            rw [List.mem_map] at hclc
            obtain ⟨b, hb, rfl⟩ := hclc
            -- the boarding stop-time is filed under this stop and lives in
            -- its own trip's sorted list
            have hmain : a.stopId = stopId ∧ a ∈ feed.tripStopTimes a.tripId := by
              rcases alGetD_cases feed.stopIdToStopTimes stopId [] with hdef | hm
              · rw [show feed.stopTimesAt stopId =
                  alGetD feed.stopIdToStopTimes stopId [] from rfl, hdef] at hamem
                cases hamem
              · obtain ⟨q, hq, hq1, hq2⟩ := hm
                have : a ∈ q.2 := by
                  rw [show feed.stopTimesAt stopId =
                    alGetD feed.stopIdToStopTimes stopId [] from rfl, hq2] at hamem
                  exact hamem
                have := hcons q hq a this
                exact ⟨this.1.trans hq1, this.2⟩
            have hsorted : (feed.tripStopTimes a.tripId).Pairwise
                (fun x y => x.stopSequence < y.stopSequence ∧
                  x.timeOfDaySec ≤ y.timeOfDaySec) := by
              rcases alGetD_cases feed.tripIdToStopTime a.tripId [] with hdef | hm
              · rw [show feed.tripStopTimes a.tripId =
                  alGetD feed.tripIdToStopTime a.tripId [] from rfl, hdef]
                exact List.Pairwise.nil
              · obtain ⟨q, hq, _, hq2⟩ := hm
                rw [show feed.tripStopTimes a.tripId =
                  alGetD feed.tripIdToStopTime a.tripId [] from rfl, hq2]
                exact hsort q hq
            have htravel : a.timeOfDaySec ≤ b.timeOfDaySec :=
              downstream_time_ge _ hsorted a hmain.2 b
                (mem_of_takeWhile _ _ _ hb)
            have hmult : 1 ≤ getCostMultiplier (feed.tripOf a.tripId) feed options := by
              unfold getCostMultiplier
              by_cases hb2 : (feed.routeOf (feed.tripOf a.tripId).route_id).route_type =
                  RouteType.bus
              · rw [if_pos hb2]; exact hmb
              · rw [if_neg hb2]; exact hmr
            have hprev : ((reachAt s (k - 1) a.stopId).getD default).cost =
                (hGet s.heap r).cost := by
              rw [hmain.1]
              unfold reachAt
              rw [hr]
              rfl
            have hreach : (hGet s.heap r).timeOfDaySec - dep ≤
                (hGet s.heap r).cost := hGet_inv dep s.heap hd hinv r
            have hwait : (hGet s.heap r).timeOfDaySec ≤ a.timeOfDaySec := by
              have := of_decide_eq_true hawin
              exact this.1
            show (mkTransitCand k (hGet s.heap r).timeOfDaySec
              ((reachAt s (k - 1) a.stopId).getD default).cost a b
                (getCostMultiplier (feed.tripOf a.tripId) feed options)).timeOfDaySec -
                dep ≤ _
            unfold mkTransitCand
            dsimp only
            rw [hprev]
            set m := getCostMultiplier (feed.tripOf a.tripId) feed options with hmdef
            have hprod : 0 ≤ (m - 1) * (b.timeOfDaySec - a.timeOfDaySec) :=
              mul_nonneg (by linarith) (by linarith)
            nlinarith [hreach, hwait, hprod]

/-- Every candidate produced by a walking-round scan of a marked stop
respects the cost-vs-time bound (walking adds the same seconds to cost and
to arrival time). -/
theorem walkCands_inv (dep : ℚ) (s : RS) (k : Nat)
    (transfers : List (String × List WalkingTransfer))
    (options : QueryOptions) (lastValid : WithTop ℚ) (stopId : String)
    (r : Nat) (hd : 0 ≤ dep) (hinv : HeapInv dep s.heap) :
    ∀ c ∈ (alGetD transfers stopId []).filterMap
        (walkCand options lastValid (3600 / options.walking_speed_kph) k
          stopId (hGet s.heap r).cost (hGet s.heap r).timeOfDaySec),
      c.timeOfDaySec - dep ≤ c.cost := by
  intro c hc
  rw [List.mem_filterMap] at hc
  obtain ⟨t, _, ht⟩ := hc
  unfold walkCand at ht
  by_cases h1 : kmTruthy t.km ∧ t.km.getD 0 > options.max_walking_distance_km
  · rw [if_pos h1] at ht; cases ht
  · rw [if_neg h1] at ht
    by_cases h2 : isStopExcluded t.stopId options
    · rw [if_pos (by simpa using h2)] at ht; cases ht
    · rw [if_neg (by simpa using h2)] at ht
      dsimp only at ht
      by_cases h3 : lastValid < (((hGet s.heap r).timeOfDaySec +
          (match t.secs with
            | some v => v
            | none => t.km.getD 0 * (3600 / options.walking_speed_kph)) : ℚ) :
          WithTop ℚ)
      · rw [if_pos h3] at ht; cases ht
      · rw [if_neg h3] at ht
        have hreach := hGet_inv dep s.heap hd hinv r
        cases ht
        dsimp only
        linarith

theorem exploreStop_inv (dep : ℚ) (feed : Feed) (options : QueryOptions)
    (lastValid : WithTop ℚ) (k : Nat) (s : RS) (stopId : String)
    (hd : 0 ≤ dep) (hmb : 1 ≤ options.bus_multiplier)
    (hmr : 1 ≤ options.rail_multiplier) (hsort : TripsSorted feed)
    (hcons : StopIndexConsistent feed) (hinv : HeapInv dep s.heap) :
    HeapInv dep (exploreStop feed options lastValid k s stopId).heap := by
  unfold exploreStop
  cases hr : alFind (getCol s (k - 1)) stopId with
  | none => exact hinv
  | some r =>
      dsimp only
      have hgood := stopCandidates_inv dep s k feed options lastValid stopId
        hd hmb hmr hsort hcons hinv
      have hfold : HeapInv dep
          ((stopCandidates s k feed options lastValid stopId).foldl
            (applyCand k) s).heap :=
        foldl_preserve_mem (applyCand k) _
          (fun t c hcmem ht => by
            unfold applyCand
            exact addConnection_inv dep t k c.dest c.timeOfDaySec c.cost
              c.prev c.mode c.tripId c.prevK ht (hgood c hcmem))
          s hinv
      exact hSet_markExplored_inv dep _ hd hfold r

theorem walkStop_inv (dep : ℚ)
    (transfers : List (String × List WalkingTransfer))
    (options : QueryOptions) (lastValid : WithTop ℚ) (k : Nat) (s : RS)
    (stopId : String) (hd : 0 ≤ dep) (hinv : HeapInv dep s.heap) :
    HeapInv dep (walkStop transfers options lastValid k s stopId).heap := by
  unfold walkStop
  cases hr : alFind (getCol s (k - 1)) stopId with
  | none => exact hinv
  | some r =>
      dsimp only
      by_cases hw : (hGet s.heap r).mode = TransportMode.walk
      · rw [if_pos hw]
        exact hinv
      · rw [if_neg hw]
        have hgood := walkCands_inv dep s k transfers options lastValid
          stopId r hd hinv
        exact foldl_preserve_mem (applyCand k) _
          (fun t c hcmem ht => by
            unfold applyCand
            exact addConnection_inv dep t k c.dest c.timeOfDaySec c.cost
              c.prev c.mode c.tripId c.prevK ht (hgood c hcmem))
          s hinv

theorem takeVehicles_inv (dep : ℚ) (s : RS) (k : Nat) (feed : Feed)
    (options : QueryOptions) (lastValid : WithTop ℚ) (hd : 0 ≤ dep)
    (hmb : 1 ≤ options.bus_multiplier) (hmr : 1 ≤ options.rail_multiplier)
    (hsort : TripsSorted feed) (hcons : StopIndexConsistent feed)
    (hinv : HeapInv dep s.heap) :
    HeapInv dep (takeVehicles s k feed options lastValid).heap := by
  unfold takeVehicles
  exact foldl_preserve (P := fun t => HeapInv dep t.heap)
    (exploreStop feed options lastValid k)
    (fun t stopId ht =>
      exploreStop_inv dep feed options lastValid k t stopId hd hmb hmr hsort
        hcons ht) _ s hinv

theorem makeTransfers_inv (dep : ℚ) (s : RS) (k : Nat)
    (transfers : List (String × List WalkingTransfer))
    (options : QueryOptions) (lastValid : WithTop ℚ) (hd : 0 ≤ dep)
    (hinv : HeapInv dep s.heap) :
    HeapInv dep (makeTransfers s k transfers options lastValid).heap := by
  unfold makeTransfers
  exact foldl_preserve (P := fun t => HeapInv dep t.heap)
    (walkStop transfers options lastValid k)
    (fun t stopId ht =>
      walkStop_inv dep transfers options lastValid k t stopId hd ht)
    _ s hinv

theorem clearMarks_inv (dep : ℚ) (s : RS) (k : Nat) (hd : 0 ≤ dep)
    (hinv : HeapInv dep s.heap) : HeapInv dep (clearMarks s k).heap := by
  unfold clearMarks
  exact foldl_preserve (P := fun t => HeapInv dep t.heap)
    (fun t (p : String × Nat) =>
      { t with heap := hSet t.heap p.2 (markExplored (hGet t.heap p.2)) })
    (fun t p ht => hSet_markExplored_inv dep t.heap hd ht p.2) _ s hinv

theorem raptorLoop_inv (dep : ℚ) (feed : Feed) (options : QueryOptions)
    (lastValid : WithTop ℚ) (hd : 0 ≤ dep)
    (hmb : 1 ≤ options.bus_multiplier) (hmr : 1 ≤ options.rail_multiplier)
    (hsort : TripsSorted feed) (hcons : StopIndexConsistent feed) :
    ∀ (count k : Nat) (s : RS), HeapInv dep s.heap →
      HeapInv dep (raptorLoop feed options lastValid count k s).1.heap := by
  intro count
  induction count with
  | zero => intro k s hinv; exact hinv
  | succ n ih =>
      intro k s hinv
      unfold raptorLoop
      apply ih
      apply makeTransfers_inv dep _ _ _ _ _ hd
      show HeapInv dep (takeVehicles (setCol s k []) k feed options
        lastValid).heap
      exact takeVehicles_inv dep _ _ _ _ _ hd hmb hmr hsort hcons hinv

/-- C3 (amended).  The no-wormholes invariant `cost ≥ timeOfDaySec −
depSecs` holds (exactly, with no tolerance) for every record of every round
of a raptor run, provided the departure time is nonnegative, both cost
multipliers are at least 1, and the feed is well-formed (per-trip stop-times
sorted with nondecreasing times, stop index consistent).  It fails for
multipliers below 1 — see the counterexample. -/
theorem C3_cost_invariant (feed : Feed) (options : QueryOptions)
    (stopId : String) (depSecs : ℚ) (hd : 0 ≤ depSecs)
    (hmb : 1 ≤ options.bus_multiplier) (hmr : 1 ≤ options.rail_multiplier)
    (hsort : TripsSorted feed) (hcons : StopIndexConsistent feed) :
    ∀ (k : Nat) (sid : String) (ri : ReachInfo),
      reachAt (raptor stopId depSecs feed options) k sid = some ri →
      ri.timeOfDaySec - depSecs ≤ ri.cost := by
  have hinit : HeapInv depSecs (raptorInit stopId depSecs).heap := by
    intro ri hri
    rw [List.mem_singleton.1 hri]
    show depSecs - depSecs ≤ (0 : ℚ)
    linarith
  have hstart : HeapInv depSecs
      (raptorStart stopId depSecs feed options).1.heap := by
    unfold raptorStart
    by_cases hserved : (feed.stopTimesAt stopId).isEmpty
    · rw [if_pos hserved]
      exact makeTransfers_inv depSecs _ _ _ _ _ hd hinit
    · rw [if_neg hserved]
      exact hinit
  have hfin : HeapInv depSecs (raptor stopId depSecs feed options).heap := by
    unfold raptor
    apply clearMarks_inv depSecs _ _ hd
    exact raptorLoop_inv depSecs feed options _ hd hmb hmr hsort hcons _ _ _
      hstart
  intro k sid ri hri
  unfold reachAt at hri
  cases hf : alFind (getCol (raptor stopId depSecs feed options) k) sid with
  | none => rw [hf] at hri; cases hri
  | some r =>
      rw [hf] at hri
      have : ri = hGet (raptor stopId depSecs feed options).heap r := by
        simp only [Option.map_some'] at hri
        exact (Option.some.inj hri).symm
      rw [this]
      exact hGet_inv depSecs _ hd hfin r

/-- The options of the C3 counterexample: a zero bus multiplier (which the
router accepts — only negative multipliers disable a mode). -/
def optsC3 : QueryOptions := { defaultOptions with bus_multiplier := 0 }

unseal Rat.add Rat.mul Rat.inv Rat.sub in
/-- C3 counterexample: with `bus_multiplier = 0`, a stop reached by a bus
trip gets cost 50 at arrival time 200 from departure 50, violating
`cost ≥ timeOfDaySec − depSecs − ε` by a margin of 99 — so the claim's
"for every options value" fails. -/
theorem C3_counterexample :
    reachAt (raptor "A" 50 feedC2 optsC3) 1 "B" =
      some ⟨200, 50, some "A", TransportMode.transit, some "T1", false,
        some 0⟩ ∧
    (50 : ℚ) + 1 < 200 - 50 := by
  exact ⟨by decide, by decide⟩

unseal Rat.add Rat.mul Rat.inv Rat.sub in
/-- C3 witness: the amended invariant applied to the sample feed at the
record for stop `B` in round 1. -/
theorem C3_witness :
    ((⟨1600, 600, some "A", TransportMode.transit, some "busT", false,
      some 0⟩ : ReachInfo)).timeOfDaySec - 1000 ≤
      ((⟨1600, 600, some "A", TransportMode.transit, some "busT", false,
        some 0⟩ : ReachInfo)).cost :=
  C3_cost_invariant sampleFeed defaultOptions "A" 1000 (by decide) (by decide)
    (by decide) (by unfold TripsSorted; decide)
    (by unfold StopIndexConsistent; decide) 1 "B"
    ⟨1600, 600, some "A", TransportMode.transit, some "busT", false, some 0⟩
    (by decide)

/-! ## Claim C8: date-based service filtering -/

/-- The exception that decides a service's fate: the last calendar-date row
matching the date and the service (later rows override earlier ones in the
sequential pass). -/
def lastException (date sid : String) (exs : List CalendarDate) :
    Option CalendarDate :=
  exs.reverse.find? (fun e => e.date = date ∧ e.service_id = sid)

theorem sdelete_mem (l : List String) (x sid : String) :
    sid ∈ sdelete l x ↔ sid ∈ l ∧ sid ≠ x := by
  unfold sdelete
  rw [List.mem_filter]
  simp

theorem sadd_mem (l : List String) (x sid : String) :
    sid ∈ sadd l x ↔ sid ∈ l ∨ sid = x := by
  unfold sadd
  by_cases h : x ∈ l
  · rw [if_pos h]
    constructor
    · exact Or.inl
    · rintro (hs | rfl)
      · exact hs
      · exact h
  · rw [if_neg h]
    rw [List.mem_append, List.mem_singleton]

theorem uniqList_mem (l : List String) (sid : String) :
    sid ∈ uniqList l ↔ sid ∈ l := by
  unfold uniqList
  have main : ∀ (l : List String) (acc : List String),
      sid ∈ l.foldl (fun acc x => if x ∈ acc then acc else acc ++ [x]) acc ↔
        sid ∈ acc ∨ sid ∈ l := by
    intro l
    induction l with
    | nil => intro acc; simp
    | cons x rest ih =>
        intro acc
        rw [List.foldl_cons]
        have hstep : ∀ z, z ∈ (if x ∈ acc then acc else acc ++ [x]) ↔
            z ∈ acc ∨ z = x := by
          intro z
          by_cases h : x ∈ acc
          · rw [if_pos h]
            constructor
            · exact Or.inl
            · rintro (hz | rfl)
              · exact hz
              · exact h
          · rw [if_neg h, List.mem_append, List.mem_singleton]
        rw [ih, hstep]
        simp [List.mem_cons]
        tauto
  rw [main l []]
  simp

theorem applyCalendars_mem (departureDow : Nat) (date : String) :
    ∀ (calendars : List Calendar) (acc : List String) (sid : String),
      sid ∈ applyCalendars acc calendars departureDow date ↔
        sid ∈ acc ∧ ∀ c ∈ calendars, c.service_id = sid →
          (dateLe c.start_date date ∧ dateLe date c.end_date ∧
            (dowFlags c).getD departureDow false = true) := by
  intro calendars
  induction calendars with
  | nil =>
      intro acc sid
      unfold applyCalendars
      simp
  | cons c rest ih =>
      intro acc sid
      unfold applyCalendars at ih ⊢
      rw [List.foldl_cons]
      have hstep : sid ∈ (if dateLe c.start_date date ∧ dateLe date c.end_date
            then
              if (dowFlags c).getD departureDow false = false then
                sdelete acc c.service_id
              else acc
            else sdelete acc c.service_id) ↔
          sid ∈ acc ∧ (c.service_id = sid →
            (dateLe c.start_date date ∧ dateLe date c.end_date ∧
              (dowFlags c).getD departureDow false = true)) := by
        by_cases h1 : dateLe c.start_date date ∧ dateLe date c.end_date
        · rw [if_pos h1]
          by_cases h2 : (dowFlags c).getD departureDow false = false
          · rw [if_pos h2, sdelete_mem]
            constructor
            · rintro ⟨hs, hne⟩
              exact ⟨hs, fun he => absurd he.symm hne⟩
            · rintro ⟨hs, himp⟩
              refine ⟨hs, fun he => ?_⟩
              have := himp he.symm
              rw [h2] at this
              exact Bool.false_ne_true this.2.2
          · rw [if_neg h2]
            constructor
            · intro hs
              exact ⟨hs, fun _ => ⟨h1.1, h1.2, by simpa using h2⟩⟩
            · exact fun h => h.1
        · rw [if_neg h1, sdelete_mem]
          constructor
          · rintro ⟨hs, hne⟩
            exact ⟨hs, fun he => absurd he.symm hne⟩
          · rintro ⟨hs, himp⟩
            refine ⟨hs, fun he => ?_⟩
            exact absurd ⟨(himp he.symm).1, (himp he.symm).2.1⟩ h1
      rw [ih, hstep]
      constructor
      · rintro ⟨⟨hs, hc⟩, hrest⟩
        refine ⟨hs, fun c2 hc2 => ?_⟩
        rcases List.mem_cons.1 hc2 with rfl | hm
        · exact hc
        · exact hrest c2 hm
      · rintro ⟨hs, hall⟩
        exact ⟨⟨hs, hall c (List.mem_cons_self c rest)⟩,
          fun c2 hm => hall c2 (List.mem_cons_of_mem c hm)⟩

theorem lastException_cons (date sid : String) (e : CalendarDate)
    (rest : List CalendarDate) :
    lastException date sid (e :: rest) =
      (lastException date sid rest).or
        (if e.date = date ∧ e.service_id = sid then some e else none) := by
  unfold lastException
  rw [List.reverse_cons, List.find?_append]
  congr 1
  by_cases h : e.date = date ∧ e.service_id = sid
  · rw [if_pos h]
    simp [List.find?_cons, h]
  · rw [if_neg h]
    simp only [List.find?_cons, List.find?_nil]
    rw [decide_eq_false h]

theorem applyExceptions_ok (date : String) :
    ∀ (exs : List CalendarDate) (acc : List String),
      (∀ e ∈ exs, e.date = date →
        e.exception_type = 1 ∨ e.exception_type = 2) →
      ∃ S, applyExceptions acc exs date = Except.ok S ∧
        ∀ sid, sid ∈ S ↔
          (match lastException date sid exs with
           | some e => e.exception_type = 1
           | none => sid ∈ acc) := by
  intro exs
  induction exs with
  | nil =>
      intro acc _
      exact ⟨acc, rfl, fun sid => by unfold lastException; simp⟩
  | cons e rest ih =>
      intro acc hok
      have hrest : ∀ e2 ∈ rest, e2.date = date →
          e2.exception_type = 1 ∨ e2.exception_type = 2 :=
        fun e2 hm => hok e2 (List.mem_cons_of_mem e hm)
      by_cases hd : e.date = date
      · rcases hok e (List.mem_cons_self e rest) hd with h1 | h2
        · obtain ⟨S, hS, hchar⟩ := ih (sadd acc e.service_id) hrest
          refine ⟨S, ?_, ?_⟩
          · show applyExceptions acc (e :: rest) date = Except.ok S
            unfold applyExceptions at hS ⊢
            rw [List.foldlM_cons, if_pos hd, if_pos h1]
            exact hS
          · intro sid
            rw [hchar sid, lastException_cons]
            cases hlast : lastException date sid rest with
            | some e2 => simp
            | none =>
                simp only [Option.none_or]
                by_cases hm : e.date = date ∧ e.service_id = sid
                · rw [if_pos hm]
                  rw [sadd_mem]
                  constructor
                  · intro _; exact h1
                  · intro _; exact Or.inr hm.2.symm
                · rw [if_neg hm]
                  rw [sadd_mem]
                  have hne : sid ≠ e.service_id := by
                    intro hcontra
                    exact hm ⟨hd, hcontra.symm⟩
                  constructor
                  · rintro (hs | hs)
                    · exact hs
                    · exact absurd hs hne
                  · exact Or.inl
        · obtain ⟨S, hS, hchar⟩ := ih (sdelete acc e.service_id) hrest
          refine ⟨S, ?_, ?_⟩
          · show applyExceptions acc (e :: rest) date = Except.ok S
            unfold applyExceptions at hS ⊢
            rw [List.foldlM_cons, if_pos hd]
            have hne1 : e.exception_type ≠ 1 := by omega
            rw [if_neg hne1, if_pos h2]
            exact hS
          · intro sid
            rw [hchar sid, lastException_cons]
            cases hlast : lastException date sid rest with
            | some e2 => simp
            | none =>
                simp only [Option.none_or]
                by_cases hm : e.date = date ∧ e.service_id = sid
                · rw [if_pos hm]
                  rw [sdelete_mem]
                  constructor
                  · rintro ⟨_, hne⟩
                    exact absurd hm.2.symm hne
                  · intro hcontra
                    omega
                · rw [if_neg hm]
                  rw [sdelete_mem]
                  have hne : sid ≠ e.service_id := by
                    intro hcontra
                    exact hm ⟨hd, hcontra.symm⟩
                  constructor
                  · exact fun h => h.1
                  · exact fun h => ⟨h, hne⟩
      · obtain ⟨S, hS, hchar⟩ := ih acc hrest
        refine ⟨S, ?_, ?_⟩
        · show applyExceptions acc (e :: rest) date = Except.ok S
          unfold applyExceptions at hS ⊢
          rw [List.foldlM_cons, if_neg hd]
          exact hS
        · intro sid
          rw [hchar sid, lastException_cons]
          have hm : ¬ (e.date = date ∧ e.service_id = sid) :=
            fun h => hd h.1
          rw [if_neg hm, Option.or_none]

theorem applyExceptions_error (date : String) :
    ∀ (exs : List CalendarDate) (acc : List String),
      (∃ e ∈ exs, e.date = date ∧
        ¬(e.exception_type = 1 ∨ e.exception_type = 2)) →
      ∃ msg, applyExceptions acc exs date = Except.error msg := by
  intro exs
  induction exs with
  | nil =>
      intro acc hbad
      obtain ⟨e, hm, _⟩ := hbad
      cases hm
  | cons e rest ih =>
      intro acc hbad
      by_cases hd : e.date = date
      · by_cases h1 : e.exception_type = 1
        · obtain ⟨S, hbadrest⟩ : ∃ e2 ∈ rest, e2.date = date ∧
              ¬(e2.exception_type = 1 ∨ e2.exception_type = 2) := by
            obtain ⟨e2, hm, hprop⟩ := hbad
            rcases List.mem_cons.1 hm with rfl | hm2
            · exact absurd (Or.inl h1) hprop.2
            · exact ⟨e2, hm2, hprop⟩
          obtain ⟨msg, hmsg⟩ := ih (sadd acc e.service_id) ⟨S, hbadrest⟩
          refine ⟨msg, ?_⟩
          show applyExceptions acc (e :: rest) date = Except.error msg
          unfold applyExceptions at hmsg ⊢
          rw [List.foldlM_cons, if_pos hd, if_pos h1]
          exact hmsg
        · by_cases h2 : e.exception_type = 2
          · obtain ⟨S, hbadrest⟩ : ∃ e2 ∈ rest, e2.date = date ∧
                ¬(e2.exception_type = 1 ∨ e2.exception_type = 2) := by
              obtain ⟨e2, hm, hprop⟩ := hbad
              rcases List.mem_cons.1 hm with rfl | hm2
              · exact absurd (Or.inr h2) hprop.2
              · exact ⟨e2, hm2, hprop⟩
            obtain ⟨msg, hmsg⟩ := ih (sdelete acc e.service_id) ⟨S, hbadrest⟩
            refine ⟨msg, ?_⟩
            show applyExceptions acc (e :: rest) date = Except.error msg
            unfold applyExceptions at hmsg ⊢
            rw [List.foldlM_cons, if_pos hd, if_neg h1, if_pos h2]
            exact hmsg
          · refine ⟨"Unexpected value of gtfs.CalendarDates.exception_type", ?_⟩
            show applyExceptions acc (e :: rest) date = Except.error _
            unfold applyExceptions
            rw [List.foldlM_cons, if_pos hd, if_neg h1, if_neg h2]
            rfl
      · obtain ⟨e2, hm, hprop⟩ := hbad
        rcases List.mem_cons.1 hm with rfl | hm2
        · exact absurd hprop.1 hd
        · obtain ⟨msg, hmsg⟩ := ih acc ⟨e2, hm2, hprop⟩
          refine ⟨msg, ?_⟩
          show applyExceptions acc (e :: rest) date = Except.error msg
          unfold applyExceptions at hmsg ⊢
          rw [List.foldlM_cons, if_neg hd]
          exact hmsg

/-- C8.  Service filtering for a date keeps exactly this set: start from the
service ids present in trips; a service with calendar entries survives the
calendar pass iff every entry for it has the date inside
`[start_date, end_date]` and the weekday flag set; a calendar-date exception
matching the date then overrides (the last matching exception wins:
`ServiceAdded` (1) keeps the service in, `ServiceRemoved` (2) keeps it out),
while any other `exception_type` on this date makes the filter throw; and
`filterByDate` finally removes every trip whose serviceId did not survive. -/
theorem C8_service_filtering (trips : List Trip) (calendars : List Calendar)
    (calendarDates : List CalendarDate) (departureDow : Nat) (date : String) :
    ((∀ e ∈ calendarDates, e.date = date →
        e.exception_type = 1 ∨ e.exception_type = 2) →
      ∃ S, filterByDate trips calendars calendarDates departureDow date =
          Except.ok (trips.filter (fun t => t.service_id ∈ S)) ∧
        filterServicesByDate (uniqList (trips.map (·.service_id))) calendars
          calendarDates departureDow date = Except.ok S ∧
        ∀ sid, sid ∈ S ↔
          (match lastException date sid calendarDates with
           | some e => e.exception_type = 1
           | none => sid ∈ trips.map (·.service_id) ∧
              ∀ c ∈ calendars, c.service_id = sid →
                (dateLe c.start_date date ∧ dateLe date c.end_date ∧
                  (dowFlags c).getD departureDow false = true))) ∧
    ((∃ e ∈ calendarDates, e.date = date ∧
        ¬(e.exception_type = 1 ∨ e.exception_type = 2)) →
      ∃ msg, filterByDate trips calendars calendarDates departureDow date =
        Except.error msg) := by
  constructor
  · intro hok
    obtain ⟨S, hS, hchar⟩ := applyExceptions_ok date calendarDates
      (applyCalendars (uniqList (trips.map (·.service_id))) calendars
        departureDow date) hok
    refine ⟨S, ?_, ?_, ?_⟩
    · unfold filterByDate filterServicesByDate
      dsimp only
      rw [hS]
      rfl
    · unfold filterServicesByDate
      exact hS
    · intro sid
      rw [hchar sid]
      cases lastException date sid calendarDates with
      | some e => rfl
      | none =>
          show sid ∈ applyCalendars _ _ _ _ ↔ _
          rw [applyCalendars_mem, uniqList_mem]
  · intro hbad
    obtain ⟨msg, hmsg⟩ := applyExceptions_error date calendarDates
      (applyCalendars (uniqList (trips.map (·.service_id))) calendars
        departureDow date) hbad
    refine ⟨msg, ?_⟩
    unfold filterByDate filterServicesByDate
    dsimp only
    rw [hmsg]
    rfl

/-- Concrete data for the C8 witness: three trips on services S1/S2/S3, a
calendar that keeps S1 and weekday-drops S2, an exception list whose last
matching rows re-add S3 and remove S1, plus a variant with an invalid
exception type. -/
def tripsW : List Trip := [⟨"t1", "r", "S1"⟩, ⟨"t2", "r", "S2"⟩, ⟨"t3", "r", "S3"⟩]

def calsW : List Calendar :=
  [⟨"S1", true, true, true, true, true, true, true, "20170101", "20171231"⟩,
   ⟨"S2", false, false, false, false, false, false, false, "20170101", "20171231"⟩,
   ⟨"S3", true, true, true, true, true, true, true, "20180101", "20181231"⟩]

def exsW : List CalendarDate :=
  [⟨"S3", "20170315", 1⟩, ⟨"S1", "20170315", 2⟩, ⟨"S1", "20170316", 1⟩]

def exsBadW : List CalendarDate := [⟨"S1", "20170315", 3⟩]

/-- C8 witness: the filtering theorem applied to the concrete feed above
(with the surviving set and the filtered trips evaluated), plus the
error case on an invalid exception type. -/
theorem C8_witness :
    (∃ S, filterByDate tripsW calsW exsW 2 "20170315" =
        Except.ok (tripsW.filter (fun t => t.service_id ∈ S)) ∧
      filterServicesByDate (uniqList (tripsW.map (·.service_id))) calsW exsW
        2 "20170315" = Except.ok S ∧
      ∀ sid, sid ∈ S ↔
        (match lastException "20170315" sid exsW with
         | some e => e.exception_type = 1
         | none => sid ∈ tripsW.map (·.service_id) ∧
            ∀ c ∈ calsW, c.service_id = sid →
              (dateLe c.start_date "20170315" ∧
                dateLe "20170315" c.end_date ∧
                (dowFlags c).getD 2 false = true))) ∧
    (∃ msg, filterByDate tripsW calsW exsBadW 2 "20170315" =
      Except.error msg) :=
  ⟨(C8_service_filtering tripsW calsW exsW 2 "20170315").1 (by decide),
   (C8_service_filtering tripsW calsW exsBadW 2 "20170315").2 (by decide)⟩

/-! Lemmas for the walking-transfer construction (claim C5). -/

theorem nodup_snoc {α : Type} [DecidableEq α] (l : List α) (a : α)
    (h1 : l.Nodup) (h2 : a ∉ l) : (l ++ [a]).Nodup := by
  simp [List.nodup_append, h1, h2]

theorem alFind_mem {α : Type} (m : List (String × α)) (k : String) (v : α)
    (h : alFind m k = some v) : (k, v) ∈ m := by
  unfold alFind at h
  cases hf : m.find? (fun p => p.1 = k) with
  | none => rw [hf] at h; simp at h
  | some p =>
      rw [hf] at h
      have hp1 : p.1 = k := by simpa using List.find?_some hf
      have hp2 : p.2 = v := by simpa using h
      have hmem : p ∈ m := List.mem_of_find?_eq_some hf
      have : (k, v) = p := by
        cases p with
        | mk a b => simp_all
      rw [this]
      exact hmem

theorem mem_alPut_elim {α : Type} (m : List (String × α)) (k : String)
    (v : α) (pc : String × α) (h : pc ∈ alPut m k v) :
    (pc ∈ m ∧ pc.1 ≠ k) ∨ pc = (k, v) := by
  unfold alPut at h
  by_cases hany : m.any (fun p => p.1 = k)
  · rw [if_pos hany] at h
    rcases List.mem_map.1 h with ⟨p, hp, hfp⟩
    by_cases hpk : p.1 = k
    · right; rw [if_pos hpk] at hfp; exact hfp.symm
    · left; rw [if_neg hpk] at hfp; exact ⟨hfp ▸ hp, hfp ▸ hpk⟩
  · rw [if_neg hany] at h
    rcases List.mem_append.1 h with hin | hone
    · left
      refine ⟨hin, fun hk => hany ?_⟩
      exact List.any_eq_true.2 ⟨pc, hin, by simp [hk]⟩
    · right; simpa using hone

theorem alGetD_alPut_self {α : Type} (m : List (String × α)) (k : String)
    (v dflt : α) : alGetD (alPut m k v) k dflt = v := by
  unfold alGetD; rw [alFind_alPut_self]; rfl

theorem alGetD_alPut_ne {α : Type} (m : List (String × α)) (k k' : String)
    (v dflt : α) (h : k' ≠ k) :
    alGetD (alPut m k v) k' dflt = alGetD m k' dflt := by
  unfold alGetD; rw [alFind_alPut_ne m k k' v h]

theorem alFind_not_mem_keys {α : Type} (m : List (String × α)) (k : String)
    (h : k ∉ m.map (fun p => p.1)) : alFind m k = none := by
  apply alFind_of_not_any
  intro hany
  rcases List.any_eq_true.1 hany with ⟨p, hp, hpk⟩
  exact h (List.mem_map.2 ⟨p, hp, by simpa using hpk⟩)

theorem alGetD_not_mem_keys {α : Type} (m : List (String × α)) (k : String)
    (dflt : α) (h : k ∉ m.map (fun p => p.1)) : alGetD m k dflt = dflt := by
  unfold alGetD; rw [alFind_not_mem_keys m k h]; rfl

theorem alGetD_cons_self {α : Type} (p : String × α)
    (m : List (String × α)) (dflt : α) : alGetD (p :: m) p.1 dflt = p.2 := by
  simp [alGetD, alFind, List.find?_cons]

theorem alGetD_cons_ne {α : Type} (p : String × α) (m : List (String × α))
    (k : String) (dflt : α) (h : k ≠ p.1) :
    alGetD (p :: m) k dflt = alGetD m k dflt := by
  have : (decide (p.1 = k)) = false := decide_eq_false (fun hk => h hk.symm)
  simp [alGetD, alFind, List.find?_cons, this]

theorem alGetD_pushTransfer_self (m : List (String × List WalkingTransfer))
    (k : String) (t : WalkingTransfer) :
    alGetD (pushTransfer m k t) k [] = alGetD m k [] ++ [t] := by
  unfold pushTransfer; exact alGetD_alPut_self m k _ []

theorem alGetD_pushTransfer_ne (m : List (String × List WalkingTransfer))
    (k k' : String) (t : WalkingTransfer) (h : k' ≠ k) :
    alGetD (pushTransfer m k t) k' [] = alGetD m k' [] := by
  unfold pushTransfer; exact alGetD_alPut_ne m k k' _ [] h

theorem alPut_keys_nodup {α : Type} (m : List (String × α)) (k : String)
    (v : α) (h : (m.map (fun p => p.1)).Nodup) :
    ((alPut m k v).map (fun p => p.1)).Nodup := by
  unfold alPut
  by_cases hany : m.any (fun p => p.1 = k)
  · rw [if_pos hany, List.map_map]
    have : ((fun p : String × α => p.1) ∘
        (fun p : String × α => if p.1 = k then (k, v) else p)) =
        (fun p : String × α => p.1) := by
      funext p
      by_cases hpk : p.1 = k
      · simp [Function.comp, hpk]
      · simp [Function.comp, hpk]
    rw [this]; exact h
  · rw [if_neg hany, List.map_append]
    apply nodup_snoc _ _ h
    intro hk
    rcases List.mem_map.1 hk with ⟨p, hp, hpk⟩
    exact hany (List.any_eq_true.2 ⟨p, hp, by simp [hpk]⟩)

theorem insortBy_perm {α : Type} (le : α → α → Bool) (x : α) (l : List α) :
    (insortBy le x l).Perm (x :: l) := by
  induction l with
  | nil => exact List.Perm.refl _
  | cons y ys ih =>
      unfold insortBy
      by_cases h : le y x
      · rw [if_pos h]
        exact (ih.cons y).trans (List.Perm.swap x y ys)
      · rw [if_neg h]

theorem stableSortBy_fold_perm {α : Type} (le : α → α → Bool) :
    ∀ (l acc : List α),
      (l.foldl (fun a x => insortBy le x a) acc).Perm (acc ++ l) := by
  intro l
  induction l with
  | nil => intro acc; simp
  | cons x xs ih =>
      intro acc
      have h1 := ih (insortBy le x acc)
      have h2 : (insortBy le x acc ++ xs).Perm ((x :: acc) ++ xs) :=
        (insortBy_perm le x acc).append_right xs
      have h3 : ((x :: acc) ++ xs).Perm (acc ++ x :: xs) := by
        simpa using List.perm_middle.symm
      exact (h1.trans h2).trans h3

theorem stableSortBy_perm {α : Type} (le : α → α → Bool) (l : List α) :
    (stableSortBy le l).Perm l := by
  simpa using stableSortBy_fold_perm le l []

theorem mem_stableSortBy {α : Type} (le : α → α → Bool) (l : List α)
    (x : α) (h : x ∈ stableSortBy le l) : x ∈ l :=
  (stableSortBy_perm le l).mem_iff.1 h

theorem pairwise_insortBy {α : Type} (le : α → α → Bool)
    (htot : ∀ a b, le a b = true ∨ le b a = true)
    (htrans : ∀ a b c, le a b = true → le b c = true → le a c = true)
    (x : α) (l : List α) (hl : l.Pairwise (fun a b => le a b = true)) :
    (insortBy le x l).Pairwise (fun a b => le a b = true) := by
  induction l with
  | nil => simp [insortBy]
  | cons y ys ih =>
      rcases List.pairwise_cons.1 hl with ⟨hy, hys⟩
      unfold insortBy
      by_cases h : le y x
      · rw [if_pos h]
        refine List.pairwise_cons.2 ⟨?_, ih hys⟩
        intro z hz
        rcases List.mem_cons.1 ((insortBy_perm le x ys).mem_iff.1 hz) with
          rfl | hzys
        · exact h
        · exact hy z hzys
      · rw [if_neg h]
        have hxy : le x y = true := (htot x y).resolve_right (fun hc => h hc)
        refine List.pairwise_cons.2 ⟨?_, hl⟩
        intro z hz
        rcases List.mem_cons.1 hz with rfl | hzys
        · exact hxy
        · exact htrans x y z hxy (hy z hzys)

theorem pairwise_stableSortBy {α : Type} (le : α → α → Bool)
    (htot : ∀ a b, le a b = true ∨ le b a = true)
    (htrans : ∀ a b c, le a b = true → le b c = true → le a c = true)
    (l : List α) :
    (stableSortBy le l).Pairwise (fun a b => le a b = true) := by
  unfold stableSortBy
  exact foldl_preserve (fun a x => insortBy le x a)
    (fun t x ht => pairwise_insortBy le htot htrans x t ht) l []
    List.Pairwise.nil

theorem uniqBy_fold_mem {α : Type} (key : α → String) (t : α) :
    ∀ (l acc : List α),
      t ∈ l.foldl
        (fun acc u =>
          if acc.any (fun w => key w = key u) then acc else acc ++ [u]) acc →
      t ∈ acc ∨ t ∈ l := by
  intro l
  induction l with
  | nil => intro acc h; exact Or.inl h
  | cons x xs ih =>
      intro acc h
      rcases ih _ h with hacc | hxs
      · dsimp only at hacc
        by_cases hany : acc.any (fun w => key w = key x)
        · rw [if_pos hany] at hacc; exact Or.inl hacc
        · rw [if_neg hany] at hacc
          rcases List.mem_append.1 hacc with h1 | h2
          · exact Or.inl h1
          · exact Or.inr (List.mem_cons.2 (Or.inl (by simpa using h2)))
      · exact Or.inr (List.mem_cons_of_mem x hxs)

theorem mem_uniqBy {α : Type} (key : α → String) (l : List α) (t : α)
    (h : t ∈ uniqBy key l) : t ∈ l := by
  rcases uniqBy_fold_mem key t l [] h with hnil | hl
  · simp at hnil
  · exact hl

theorem uniqBy_fold_nodup {α : Type} (key : α → String) :
    ∀ (l acc : List α), (acc.map key).Nodup →
      ((l.foldl
        (fun acc u =>
          if acc.any (fun w => key w = key u) then acc else acc ++ [u])
        acc).map key).Nodup := by
  intro l
  induction l with
  | nil => intro acc h; exact h
  | cons x xs ih =>
      intro acc h
      apply ih
      dsimp only
      by_cases hany : acc.any (fun w => key w = key x)
      · rw [if_pos hany]; exact h
      · rw [if_neg hany, List.map_append]
        apply nodup_snoc _ _ h
        intro hk
        rcases List.mem_map.1 hk with ⟨u, hu, hku⟩
        exact hany (List.any_eq_true.2 ⟨u, hu, by simp [hku]⟩)

theorem uniqBy_nodup_keys {α : Type} (key : α → String) (l : List α) :
    ((uniqBy key l).map key).Nodup :=
  uniqBy_fold_nodup key l [] (by simp)

/-- No entry of the transfer map points back at its own origin. -/
def noSelf (m : List (String × List WalkingTransfer)) : Prop :=
  ∀ pc ∈ m, ∀ t ∈ pc.2, t.stopId ≠ pc.1

/-- Entries have pairwise-distinct destinations and no self-loop. -/
def wtOk (m : List (String × List WalkingTransfer)) : Prop :=
  ∀ pc ∈ m,
    ((pc.2.map (fun t => t.stopId)).Nodup) ∧ ∀ t ∈ pc.2, t.stopId ≠ pc.1

theorem noSelf_getD (m : List (String × List WalkingTransfer)) (k : String)
    (hm : noSelf m) : ∀ t ∈ alGetD m k [], t.stopId ≠ k := by
  intro t ht
  unfold alGetD at ht
  cases hf : alFind m k with
  | none => rw [hf] at ht; simp at ht
  | some l =>
      rw [hf] at ht
      exact hm (k, l) (alFind_mem m k l hf) t (by simpa using ht)

theorem wtOk_getD (m : List (String × List WalkingTransfer)) (k : String)
    (hm : wtOk m) :
    ((alGetD m k []).map (fun t => t.stopId)).Nodup ∧
      ∀ t ∈ alGetD m k [], t.stopId ≠ k := by
  unfold alGetD
  cases hf : alFind m k with
  | none => simp
  | some l =>
      have := hm (k, l) (alFind_mem m k l hf)
      simpa using this

theorem pushTransfer_noSelf (m : List (String × List WalkingTransfer))
    (k : String) (t : WalkingTransfer) (hm : noSelf m)
    (hself : t.stopId ≠ k) : noSelf (pushTransfer m k t) := by
  intro pc hpc
  rcases mem_alPut_elim _ _ _ _ hpc with ⟨hin, _⟩ | rfl
  · exact hm pc hin
  · intro u hu
    dsimp only at hu ⊢
    rcases List.mem_append.1 hu with h1 | h2
    · exact noSelf_getD m k hm u h1
    · rw [List.mem_singleton.1 h2]; exact hself

theorem pushTransfer_wtOk (m : List (String × List WalkingTransfer))
    (k : String) (t : WalkingTransfer) (hm : wtOk m)
    (hself : t.stopId ≠ k)
    (hdup : t.stopId ∉ (alGetD m k []).map (fun u => u.stopId)) :
    wtOk (pushTransfer m k t) := by
  intro pc hpc
  rcases mem_alPut_elim _ _ _ _ hpc with ⟨hin, _⟩ | rfl
  · exact hm pc hin
  · constructor
    · dsimp only
      rw [List.map_append]
      simp only [List.map_cons, List.map_nil]
      exact nodup_snoc _ _ (wtOk_getD m k hm).1 hdup
    · intro u hu
      dsimp only at hu ⊢
      rcases List.mem_append.1 hu with h1 | h2
      · exact (wtOk_getD m k hm).2 u h1
      · rw [List.mem_singleton.1 h2]; exact hself

theorem alPut_empty_noSelf (m : List (String × List WalkingTransfer))
    (k : String) (hm : noSelf m) :
    noSelf (alPut m k ([] : List WalkingTransfer)) := by
  intro pc hpc
  rcases mem_alPut_elim _ _ _ _ hpc with ⟨hin, _⟩ | rfl
  · exact hm pc hin
  · intro u hu; simp at hu

theorem groupLoop_facts :
    ∀ (rem : List Stop) (doneIds : List String)
      (m : List (String × List String)),
      (doneIds ++ rem.map (fun st => st.stopId)).Nodup →
      (∀ st ∈ rem, st.parentStation ≠ some st.stopId) →
      (∀ pc ∈ m, pc.2.Nodup ∧ ∀ c ∈ pc.2, c ∈ doneIds ∧ c ≠ pc.1) →
      ∀ pc ∈ rem.foldl
        (fun m st => match st.parentStation with
          | some p => addToGroup m p st.stopId
          | none => m) m,
        pc.2.Nodup ∧ ∀ c ∈ pc.2,
          c ∈ doneIds ++ rem.map (fun st => st.stopId) ∧ c ≠ pc.1 := by
  intro rem
  induction rem with
  | nil =>
      intro doneIds m hnd hpar hm pc hpc
      simp only [List.foldl_nil] at hpc
      rcases hm pc hpc with ⟨h1, h2⟩
      exact ⟨h1, fun c hc => ⟨by simpa using (h2 c hc).1, (h2 c hc).2⟩⟩
  | cons st rest ih =>
      intro doneIds m hnd hpar hm pc hpc
      rw [List.foldl_cons] at hpc
      simp only [List.map_cons] at hnd
      have hrw : doneIds ++ st.stopId :: rest.map (fun x => x.stopId) =
          (doneIds ++ [st.stopId]) ++ rest.map (fun x => x.stopId) := by
        rw [List.append_assoc, List.singleton_append]
      have hnd2 : ((doneIds ++ [st.stopId]) ++
          rest.map (fun x => x.stopId)).Nodup := by
        rw [← hrw]; exact hnd
      have hstid : st.stopId ∉ doneIds := by
        intro hmem
        rcases List.nodup_append.1 hnd with ⟨_, _, hdisj⟩
        exact hdisj hmem (List.mem_cons_self _ _)
      have hstep : ∀ pc2 ∈ (match st.parentStation with
          | some p => addToGroup m p st.stopId
          | none => m),
          pc2.2.Nodup ∧ ∀ c ∈ pc2.2,
            c ∈ doneIds ++ [st.stopId] ∧ c ≠ pc2.1 := by
        cases hps : st.parentStation with
        | none =>
            intro pc2 hpc2
            rcases hm pc2 hpc2 with ⟨h1, h2⟩
            exact ⟨h1, fun c hc =>
              ⟨List.mem_append.2 (Or.inl (h2 c hc).1), (h2 c hc).2⟩⟩
        | some p =>
            intro pc2 hpc2
            unfold addToGroup at hpc2
            rcases mem_alPut_elim _ _ _ _ hpc2 with ⟨hin, _⟩ | rfl
            · rcases hm pc2 hin with ⟨h1, h2⟩
              exact ⟨h1, fun c hc =>
                ⟨List.mem_append.2 (Or.inl (h2 c hc).1), (h2 c hc).2⟩⟩
            · have hold : (alGetD m p []).Nodup ∧
                  ∀ c ∈ alGetD m p [], c ∈ doneIds ∧ c ≠ p := by
                unfold alGetD
                cases hf : alFind m p with
                | none => simp
                | some l =>
                    have := hm (p, l) (alFind_mem m p l hf)
                    simpa using this
              constructor
              · dsimp only
                exact nodup_snoc _ _ hold.1
                  (fun hmem => hstid (hold.2 _ hmem).1)
              · intro c hc
                dsimp only at hc ⊢
                rcases List.mem_append.1 hc with h1 | h2
                · exact ⟨List.mem_append.2 (Or.inl (hold.2 c h1).1),
                    (hold.2 c h1).2⟩
                · rw [List.mem_singleton.1 h2]
                  refine ⟨List.mem_append.2 (Or.inr (by simp)), ?_⟩
                  intro hq
                  apply hpar st (List.mem_cons_self st rest)
                  rw [hps]
                  exact congrArg some hq.symm
      have hres := ih (doneIds ++ [st.stopId]) _ hnd2
        (fun x hx => hpar x (List.mem_cons_of_mem st hx)) hstep pc hpc
      rcases hres with ⟨h1, h2⟩
      refine ⟨h1, fun c hc => ?_⟩
      rcases h2 c hc with ⟨hcm, hcne⟩
      refine ⟨?_, hcne⟩
      simp only [List.map_cons]
      rw [hrw]
      exact hcm

theorem groupByParent_facts (stops : List Stop)
    (hids : (stops.map (fun st => st.stopId)).Nodup)
    (hpar : ∀ st ∈ stops, st.parentStation ≠ some st.stopId) :
    ∀ pc ∈ groupByParent stops, pc.2.Nodup ∧ ∀ c ∈ pc.2, c ≠ pc.1 := by
  intro pc hpc
  unfold groupByParent at hpc
  have := groupLoop_facts stops [] [] (by simpa using hids) hpar
    (by intro pc2 hpc2; simp at hpc2) pc hpc
  exact ⟨this.1, fun c hc => (this.2 c hc).2⟩

theorem intraStation_noSelf (parentId : String) :
    ∀ (cs : List String) (m : List (String × List WalkingTransfer)),
      noSelf m → (∀ c ∈ cs, c ≠ parentId) → cs.Nodup →
      noSelf (intraStation parentId cs m) := by
  intro cs
  induction cs with
  | nil => intro m hm _ _; exact hm
  | cons cFrom rest ih =>
      intro m hm hc hnd
      have hstep : intraStation parentId (cFrom :: rest) m =
          intraStation parentId rest
            (rest.foldl
              (fun m cTo =>
                pushTransfer (pushTransfer m cFrom ⟨cTo, none, some 0⟩) cTo
                  ⟨cFrom, none, some 0⟩)
              (pushTransfer (pushTransfer m parentId ⟨cFrom, none, some 0⟩)
                cFrom ⟨parentId, none, some 0⟩)) := rfl
      rw [hstep]
      have hfromne : cFrom ≠ parentId := hc cFrom (List.mem_cons_self _ _)
      have h1 : noSelf (pushTransfer m parentId ⟨cFrom, none, some 0⟩) :=
        pushTransfer_noSelf m parentId _ hm hfromne
      have h2 : noSelf (pushTransfer
          (pushTransfer m parentId ⟨cFrom, none, some 0⟩) cFrom
          ⟨parentId, none, some 0⟩) :=
        pushTransfer_noSelf _ cFrom _ h1 (fun hq => hfromne hq.symm)
      have hnotin : cFrom ∉ rest := (List.nodup_cons.1 hnd).1
      have h3 := foldl_preserve_mem
        (fun m cTo =>
          pushTransfer (pushTransfer m cFrom ⟨cTo, none, some 0⟩) cTo
            ⟨cFrom, none, some 0⟩) rest
        (fun t cTo hcTo ht => by
          have hne : cTo ≠ cFrom := fun hq => hnotin (hq ▸ hcTo)
          exact pushTransfer_noSelf _ cTo _
            (pushTransfer_noSelf t cFrom _ ht hne) (fun hq => hne hq.symm))
        _ h2
      exact ih _ h3 (fun c hcr => hc c (List.mem_cons_of_mem _ hcr))
        (List.nodup_cons.1 hnd).2

/-- The initial all-stops map of `getExplicitTransfers`
(src/indexed-gtfs.ts:71). -/
def explicitBase (stops : List Stop) : List (String × List WalkingTransfer) :=
  stops.foldl (fun m st => alPut m st.stopId []) []

/-- The `MIN_TIME` fan-out fold of `getExplicitTransfers`
(src/indexed-gtfs.ts:83-100). -/
def explicitFanout (parentPairs : List (String × List String))
    (transfers : List Transfer)
    (m0 : List (String × List WalkingTransfer)) :
    List (String × List WalkingTransfer) :=
  transfers.foldl
    (fun m transfer =>
      if transfer.type ≠ TransferType.minTime then m
      else
        let froms := transfer.fromStopId ::
          alGetD parentPairs transfer.fromStopId []
        let tos := transfer.toStopId :: alGetD parentPairs transfer.toStopId []
        froms.foldl
          (fun m childFrom =>
            tos.foldl
              (fun m childTo =>
                if childFrom = childTo then m
                else pushTransfer m childFrom
                  ⟨childTo, none, transfer.minTransferTime⟩) m) m)
    m0

/-- The intra-station fold of `getExplicitTransfers`
(src/indexed-gtfs.ts:102-111). -/
def explicitIntra (parentPairs : List (String × List String))
    (m0 : List (String × List WalkingTransfer)) :
    List (String × List WalkingTransfer) :=
  parentPairs.foldl (fun m pc => intraStation pc.1 pc.2 m) m0

theorem getExplicitTransfers_eq (stops : List Stop)
    (transfers : List Transfer) :
    getExplicitTransfers stops transfers =
      (explicitIntra (groupByParent stops)
        (explicitFanout (groupByParent stops) transfers
          (explicitBase stops))).map
        (fun p => (p.1, stableSortBy secsStopLe (uniqBy (·.stopId) p.2))) :=
  rfl

theorem explicitBase_noSelf (stops : List Stop) :
    noSelf (explicitBase stops) := by
  unfold explicitBase
  exact foldl_preserve (fun m st => alPut m st.stopId [])
    (fun t st ht => alPut_empty_noSelf t st.stopId ht) stops []
    (by intro pc hpc; simp at hpc)

theorem explicitFanout_noSelf (parentPairs : List (String × List String))
    (transfers : List Transfer) (m0 : List (String × List WalkingTransfer))
    (hm : noSelf m0) : noSelf (explicitFanout parentPairs transfers m0) := by
  unfold explicitFanout
  refine foldl_preserve _ (fun t transfer ht => ?_) transfers m0 hm
  dsimp only
  by_cases htype : transfer.type ≠ TransferType.minTime
  · rw [if_pos htype]; exact ht
  · rw [if_neg htype]
    refine foldl_preserve _ (fun t2 childFrom ht2 => ?_) _ t ht
    refine foldl_preserve _ (fun t3 childTo ht3 => ?_) _ t2 ht2
    by_cases heq : childFrom = childTo
    · rw [if_pos heq]; exact ht3
    · rw [if_neg heq]
      exact pushTransfer_noSelf t3 childFrom _ ht3 (fun hq => heq hq.symm)

theorem explicitIntra_noSelf (parentPairs : List (String × List String))
    (m0 : List (String × List WalkingTransfer)) (hm : noSelf m0)
    (hpp : ∀ pc ∈ parentPairs, pc.2.Nodup ∧ ∀ c ∈ pc.2, c ≠ pc.1) :
    noSelf (explicitIntra parentPairs m0) := by
  unfold explicitIntra
  refine foldl_preserve_mem _ parentPairs (fun t pc hpc ht => ?_) m0 hm
  exact intraStation_noSelf pc.1 pc.2 t ht (hpp pc hpc).2 (hpp pc hpc).1

theorem getExplicitTransfers_entry (stops : List Stop)
    (transfers : List Transfer) (s : String) :
    alGetD (getExplicitTransfers stops transfers) s [] = [] ∨
      ∃ l, (s, l) ∈ explicitIntra (groupByParent stops)
          (explicitFanout (groupByParent stops) transfers
            (explicitBase stops)) ∧
        alGetD (getExplicitTransfers stops transfers) s [] =
          stableSortBy secsStopLe (uniqBy (·.stopId) l) := by
  rw [getExplicitTransfers_eq]
  unfold alGetD
  rw [alFind_map_pair _
    (fun v => stableSortBy secsStopLe (uniqBy (fun x => x.stopId) v)) s]
  cases hf : alFind (explicitIntra (groupByParent stops)
      (explicitFanout (groupByParent stops) transfers
        (explicitBase stops))) s with
  | none => left; rfl
  | some l => right; exact ⟨l, alFind_mem _ _ _ hf, rfl⟩

theorem getExplicitTransfers_noSelf (stops : List Stop)
    (transfers : List Transfer)
    (hids : (stops.map (fun st => st.stopId)).Nodup)
    (hpar : ∀ st ∈ stops, st.parentStation ≠ some st.stopId) (s : String) :
    ∀ t ∈ alGetD (getExplicitTransfers stops transfers) s [],
      t.stopId ≠ s := by
  intro t ht
  rcases getExplicitTransfers_entry stops transfers s with hnil | ⟨l, hl, heq⟩
  · rw [hnil] at ht; simp at ht
  · rw [heq] at ht
    have htl : t ∈ l := mem_uniqBy _ _ t (mem_stableSortBy _ _ t ht)
    have hok : noSelf (explicitIntra (groupByParent stops)
        (explicitFanout (groupByParent stops) transfers
          (explicitBase stops))) :=
      explicitIntra_noSelf _ _
        (explicitFanout_noSelf _ transfers _ (explicitBase_noSelf stops))
        (groupByParent_facts stops hids hpar)
    exact hok (s, l) hl t htl

theorem getExplicitTransfers_nodup (stops : List Stop)
    (transfers : List Transfer) (s : String) :
    ((alGetD (getExplicitTransfers stops transfers) s []).map
      (fun t => t.stopId)).Nodup := by
  rcases getExplicitTransfers_entry stops transfers s with hnil | ⟨l, _, heq⟩
  · rw [hnil]; simp
  · rw [heq]
    have hperm : ((stableSortBy secsStopLe (uniqBy (·.stopId) l)).map
        (fun t => t.stopId)).Perm
        ((uniqBy (·.stopId) l).map (fun t => t.stopId)) :=
      (stableSortBy_perm secsStopLe (uniqBy (·.stopId) l)).map _
    exact hperm.nodup_iff.2 (uniqBy_nodup_keys _ l)

theorem secsStopLe_total (a b : WalkingTransfer) :
    secsStopLe a b = true ∨ secsStopLe b a = true := by
  unfold secsStopLe
  rcases lt_trichotomy (a.secs.getD 0) (b.secs.getD 0) with h | h | h
  · left; simp [h]
  · rcases le_total a.stopId b.stopId with hs | hs
    · left; simp [h, hs]
    · right; simp [h.symm, hs]
  · right; simp [h]

theorem secsStopLe_trans (a b c : WalkingTransfer)
    (h1 : secsStopLe a b = true) (h2 : secsStopLe b c = true) :
    secsStopLe a c = true := by
  unfold secsStopLe at h1 h2 ⊢
  simp only [Bool.or_eq_true, decide_eq_true_eq, Bool.and_eq_true] at h1 h2 ⊢
  rcases h1 with h1 | ⟨h1e, h1s⟩
  · rcases h2 with h2 | ⟨h2e, h2s⟩
    · exact Or.inl (h1.trans h2)
    · exact Or.inl (h2e ▸ h1)
  · rcases h2 with h2 | ⟨h2e, h2s⟩
    · exact Or.inl (h1e ▸ h2)
    · exact Or.inr ⟨h1e.trans h2e, h1s.trans h2s⟩

theorem kmLe_total (a b : WalkingTransfer) :
    kmLe a b = true ∨ kmLe b a = true := by
  unfold kmLe
  rcases le_total (a.km.getD 0) (b.km.getD 0) with h | h
  · left; simp [h]
  · right; simp [h]

theorem kmLe_trans (a b c : WalkingTransfer) (h1 : kmLe a b = true)
    (h2 : kmLe b c = true) : kmLe a c = true := by
  unfold kmLe at h1 h2 ⊢
  simp only [decide_eq_true_eq] at h1 h2 ⊢
  exact h1.trans h2

theorem getExplicitTransfers_sorted (stops : List Stop)
    (transfers : List Transfer) (s : String) :
    (alGetD (getExplicitTransfers stops transfers) s []).Pairwise
      (fun a b => secsStopLe a b = true) := by
  rcases getExplicitTransfers_entry stops transfers s with hnil | ⟨l, _, heq⟩
  · rw [hnil]; exact List.Pairwise.nil
  · rw [heq]
    exact pairwise_stableSortBy secsStopLe secsStopLe_total secsStopLe_trans _

/-- One iteration of the inner all-pairs loop of `findNearbyStops`
(src/indexed-gtfs.ts:263-283), the body of the fold in `nearbyLoop`. -/
def nearbyStep (stopIdToRoutes : List (String × List String))
    (attrs : List (String × Bool)) (maxDistanceKm : ℚ)
    (dist : Stop → Stop → ℚ) (water : ℚ → ℚ → ℚ → ℚ → Bool) (a : Stop)
    (pairs : List (String × List WalkingTransfer)) (b : Stop) :
    List (String × List WalkingTransfer) :=
  if a.feed = b.feed ∧ feedHasTransfers attrs a.feed then pairs
  else
    if dist a b ≤ maxDistanceKm ∧
        water a.stopLat a.stopLng b.stopLat b.stopLng = false then
      if alFind stopIdToRoutes a.stopId = alFind stopIdToRoutes b.stopId then
        pairs
      else
        pushTransfer
          (pushTransfer pairs a.stopId ⟨b.stopId, some (dist a b), none⟩)
          b.stopId ⟨a.stopId, some (dist a b), none⟩
    else pairs

theorem nearbyLoop_cons (stopIdToRoutes : List (String × List String))
    (attrs : List (String × Bool)) (maxDistanceKm : ℚ)
    (dist : Stop → Stop → ℚ) (water : ℚ → ℚ → ℚ → ℚ → Bool) (a : Stop)
    (rest : List Stop) (pairs : List (String × List WalkingTransfer)) :
    nearbyLoop stopIdToRoutes attrs maxDistanceKm dist water (a :: rest)
        pairs =
      nearbyLoop stopIdToRoutes attrs maxDistanceKm dist water rest
        (rest.foldl
          (nearbyStep stopIdToRoutes attrs maxDistanceKm dist water a)
          pairs) := rfl

theorem nearbyStep_cases (stopIdToRoutes : List (String × List String))
    (attrs : List (String × Bool)) (maxDistanceKm : ℚ)
    (dist : Stop → Stop → ℚ) (water : ℚ → ℚ → ℚ → ℚ → Bool) (a : Stop)
    (pairs : List (String × List WalkingTransfer)) (b : Stop) :
    nearbyStep stopIdToRoutes attrs maxDistanceKm dist water a pairs b =
        pairs ∨
      nearbyStep stopIdToRoutes attrs maxDistanceKm dist water a pairs b =
        pushTransfer
          (pushTransfer pairs a.stopId ⟨b.stopId, some (dist a b), none⟩)
          b.stopId ⟨a.stopId, some (dist a b), none⟩ := by
  unfold nearbyStep
  by_cases h1 : a.feed = b.feed ∧ feedHasTransfers attrs a.feed
  · rw [if_pos h1]; exact Or.inl rfl
  · rw [if_neg h1]
    by_cases h2 : dist a b ≤ maxDistanceKm ∧
        water a.stopLat a.stopLng b.stopLat b.stopLng = false
    · rw [if_pos h2]
      by_cases h3 : alFind stopIdToRoutes a.stopId =
          alFind stopIdToRoutes b.stopId
      · rw [if_pos h3]; exact Or.inl rfl
      · rw [if_neg h3]; exact Or.inr rfl
    · rw [if_neg h2]; exact Or.inl rfl

theorem nearbyInner_inv (stopIdToRoutes : List (String × List String))
    (attrs : List (String × Bool)) (maxKm : ℚ) (dist : Stop → Stop → ℚ)
    (water : ℚ → ℚ → ℚ → ℚ → Bool) (a : Stop) :
    ∀ (rest : List Stop) (m : List (String × List WalkingTransfer)),
      wtOk m →
      (∀ x ∈ rest,
        a.stopId ∉ (alGetD m x.stopId []).map (fun t => t.stopId)) →
      (∀ t ∈ alGetD m a.stopId [],
        t.stopId ∉ rest.map (fun st => st.stopId)) →
      (rest.map (fun st => st.stopId)).Nodup →
      a.stopId ∉ rest.map (fun st => st.stopId) →
      wtOk (rest.foldl
        (nearbyStep stopIdToRoutes attrs maxKm dist water a) m) ∧
      (∀ y, y ≠ a.stopId → y ∉ rest.map (fun st => st.stopId) →
        alGetD (rest.foldl
          (nearbyStep stopIdToRoutes attrs maxKm dist water a) m) y [] =
          alGetD m y []) ∧
      (∀ x ∈ rest,
        ∀ t ∈ alGetD (rest.foldl
            (nearbyStep stopIdToRoutes attrs maxKm dist water a) m)
            x.stopId [],
          t ∈ alGetD m x.stopId [] ∨ t.stopId = a.stopId) := by
  intro rest
  induction rest with
  | nil =>
      intro m hm _ _ _ _
      refine ⟨hm, fun y _ _ => rfl, ?_⟩
      intro x hx; simp at hx
  | cons b rest2 ih =>
      intro m hm hna hav hrn han
      simp only [List.map_cons] at hrn han
      have hab : a.stopId ≠ b.stopId := by
        intro hq; exact han (by rw [hq]; exact List.mem_cons_self _ _)
      have hbr2 : b.stopId ∉ rest2.map (fun st => st.stopId) :=
        (List.nodup_cons.1 hrn).1
      have hrn2 : (rest2.map (fun st => st.stopId)).Nodup :=
        (List.nodup_cons.1 hrn).2
      have han2 : a.stopId ∉ rest2.map (fun st => st.stopId) :=
        fun hq => han (List.mem_cons_of_mem _ hq)
      rw [List.foldl_cons]
      rcases nearbyStep_cases stopIdToRoutes attrs maxKm dist water a m b
        with hid | hpush
      · rw [hid]
        obtain ⟨w, hframe, hsubs⟩ := ih m hm
          (fun x hx => hna x (List.mem_cons_of_mem b hx))
          (fun t ht hmem => hav t ht (by
            simp only [List.map_cons]
            exact List.mem_cons_of_mem _ hmem))
          hrn2 han2
        refine ⟨w, ?_, ?_⟩
        · intro y hy hymem
          refine hframe y hy (fun hq => hymem ?_)
          simp only [List.map_cons]
          exact List.mem_cons_of_mem _ hq
        · intro x hx t ht
          rcases List.mem_cons.1 hx with rfl | hx2
          · rw [hframe x.stopId (fun hq => hab hq.symm) hbr2] at ht
            exact Or.inl ht
          · exact hsubs x hx2 t ht
      · rw [hpush]
        have hdupa : b.stopId ∉
            (alGetD m a.stopId []).map (fun u => u.stopId) := by
          intro hmem
          rcases List.mem_map.1 hmem with ⟨u, hu, hus⟩
          refine hav u hu ?_
          rw [hus]
          simp only [List.map_cons]
          exact List.mem_cons_self _ _
        have w1 : wtOk (pushTransfer m a.stopId
            ⟨b.stopId, some (dist a b), none⟩) :=
          pushTransfer_wtOk m a.stopId _ hm (fun hq => hab hq.symm) hdupa
        have hgb : alGetD (pushTransfer m a.stopId
            ⟨b.stopId, some (dist a b), none⟩) b.stopId [] =
            alGetD m b.stopId [] :=
          alGetD_pushTransfer_ne m a.stopId b.stopId _
            (fun hq => hab hq.symm)
        have hdupb : a.stopId ∉ (alGetD (pushTransfer m a.stopId
            ⟨b.stopId, some (dist a b), none⟩) b.stopId []).map
            (fun u => u.stopId) := by
          rw [hgb]; exact hna b (List.mem_cons_self _ _)
        have w2 : wtOk (pushTransfer (pushTransfer m a.stopId
            ⟨b.stopId, some (dist a b), none⟩) b.stopId
            ⟨a.stopId, some (dist a b), none⟩) :=
          pushTransfer_wtOk _ b.stopId _ w1 hab hdupb
        have hm2a : alGetD (pushTransfer (pushTransfer m a.stopId
            ⟨b.stopId, some (dist a b), none⟩) b.stopId
            ⟨a.stopId, some (dist a b), none⟩) a.stopId [] =
            alGetD m a.stopId [] ++ [⟨b.stopId, some (dist a b), none⟩] := by
          rw [alGetD_pushTransfer_ne _ b.stopId a.stopId _ hab,
            alGetD_pushTransfer_self]
        have hm2b : alGetD (pushTransfer (pushTransfer m a.stopId
            ⟨b.stopId, some (dist a b), none⟩) b.stopId
            ⟨a.stopId, some (dist a b), none⟩) b.stopId [] =
            alGetD m b.stopId [] ++ [⟨a.stopId, some (dist a b), none⟩] := by
          rw [alGetD_pushTransfer_self, hgb]
        have hm2o : ∀ y, y ≠ a.stopId → y ≠ b.stopId →
            alGetD (pushTransfer (pushTransfer m a.stopId
              ⟨b.stopId, some (dist a b), none⟩) b.stopId
              ⟨a.stopId, some (dist a b), none⟩) y [] =
              alGetD m y [] := by
          intro y h1 h2
          rw [alGetD_pushTransfer_ne _ _ _ _ h2,
            alGetD_pushTransfer_ne _ _ _ _ h1]
        have hna2 : ∀ x ∈ rest2, a.stopId ∉
            (alGetD (pushTransfer (pushTransfer m a.stopId
              ⟨b.stopId, some (dist a b), none⟩) b.stopId
              ⟨a.stopId, some (dist a b), none⟩) x.stopId []).map
              (fun t => t.stopId) := by
          intro x hx
          have hxa : x.stopId ≠ a.stopId :=
            fun hq => han2 (List.mem_map.2 ⟨x, hx, hq⟩)
          have hxb : x.stopId ≠ b.stopId :=
            fun hq => hbr2 (List.mem_map.2 ⟨x, hx, hq⟩)
          rw [hm2o x.stopId hxa hxb]
          exact hna x (List.mem_cons_of_mem b hx)
        have hav2 : ∀ t ∈ alGetD (pushTransfer (pushTransfer m a.stopId
            ⟨b.stopId, some (dist a b), none⟩) b.stopId
            ⟨a.stopId, some (dist a b), none⟩) a.stopId [],
            t.stopId ∉ rest2.map (fun st => st.stopId) := by
          intro t ht
          rw [hm2a] at ht
          rcases List.mem_append.1 ht with h1 | h2
          · intro hmem
            refine hav t h1 ?_
            simp only [List.map_cons]
            exact List.mem_cons_of_mem _ hmem
          · rw [List.mem_singleton.1 h2]; exact hbr2
        obtain ⟨w, hframe, hsubs⟩ := ih _ w2 hna2 hav2 hrn2 han2
        refine ⟨w, ?_, ?_⟩
        · intro y hy hymem
          have hyb : y ≠ b.stopId := by
            intro hq
            refine hymem ?_
            rw [hq]
            simp only [List.map_cons]
            exact List.mem_cons_self _ _
          have hy2 : y ∉ rest2.map (fun st => st.stopId) := by
            intro hq
            refine hymem ?_
            simp only [List.map_cons]
            exact List.mem_cons_of_mem _ hq
          rw [hframe y hy hy2, hm2o y hy hyb]
        · intro x hx t ht
          rcases List.mem_cons.1 hx with rfl | hx2
          · rw [hframe x.stopId (fun hq => hab hq.symm) hbr2, hm2b] at ht
            rcases List.mem_append.1 ht with h1 | h2
            · exact Or.inl h1
            · right; rw [List.mem_singleton.1 h2]
          · have hxa : x.stopId ≠ a.stopId :=
              fun hq => han2 (List.mem_map.2 ⟨x, hx2, hq⟩)
            have hxb : x.stopId ≠ b.stopId :=
              fun hq => hbr2 (List.mem_map.2 ⟨x, hx2, hq⟩)
            rcases hsubs x hx2 t ht with h1 | h2
            · rw [hm2o x.stopId hxa hxb] at h1; exact Or.inl h1
            · exact Or.inr h2

theorem nearbyLoop_wtOk (stopIdToRoutes : List (String × List String))
    (attrs : List (String × Bool)) (maxKm : ℚ) (dist : Stop → Stop → ℚ)
    (water : ℚ → ℚ → ℚ → ℚ → Bool) :
    ∀ (rem : List Stop) (allowed : List String)
      (m : List (String × List WalkingTransfer)),
      (allowed ++ rem.map (fun st => st.stopId)).Nodup →
      wtOk m →
      (∀ x ∈ rem, ∀ t ∈ alGetD m x.stopId [], t.stopId ∈ allowed) →
      wtOk (nearbyLoop stopIdToRoutes attrs maxKm dist water rem m) := by
  intro rem
  induction rem with
  | nil => intro allowed m _ hm _; exact hm
  | cons a rest ih =>
      intro allowed m hnd hm hsub
      rw [nearbyLoop_cons]
      simp only [List.map_cons] at hnd
      have hcons : (a.stopId :: rest.map (fun st => st.stopId)).Nodup :=
        (List.nodup_append.1 hnd).2.1
      have hdisj := (List.nodup_append.1 hnd).2.2
      have han : a.stopId ∉ rest.map (fun st => st.stopId) :=
        (List.nodup_cons.1 hcons).1
      have hrn : (rest.map (fun st => st.stopId)).Nodup :=
        (List.nodup_cons.1 hcons).2
      have hallow : a.stopId ∉ allowed :=
        fun hq => hdisj hq (List.mem_cons_self _ _)
      have hna : ∀ x ∈ rest,
          a.stopId ∉ (alGetD m x.stopId []).map (fun t => t.stopId) := by
        intro x hx hmem
        rcases List.mem_map.1 hmem with ⟨u, hu, hus⟩
        exact hallow (hus ▸ hsub x (List.mem_cons_of_mem a hx) u hu)
      have hav : ∀ t ∈ alGetD m a.stopId [],
          t.stopId ∉ rest.map (fun st => st.stopId) := by
        intro t ht hmem
        exact hdisj (hsub a (List.mem_cons_self _ _) t ht)
          (List.mem_cons_of_mem _ hmem)
      obtain ⟨w, hframe, hsubs⟩ := nearbyInner_inv stopIdToRoutes attrs maxKm
        dist water a rest m hm hna hav hrn han
      refine ih (allowed ++ [a.stopId]) _ ?_ w ?_
      · have hrw : allowed ++ a.stopId :: rest.map (fun st => st.stopId) =
            (allowed ++ [a.stopId]) ++ rest.map (fun st => st.stopId) := by
          rw [List.append_assoc, List.singleton_append]
        rw [← hrw]; exact hnd
      · intro x hx t ht
        rcases hsubs x hx t ht with h1 | h2
        · exact List.mem_append.2
            (Or.inl (hsub x (List.mem_cons_of_mem a hx) t h1))
        · rw [h2]; exact List.mem_append.2 (Or.inr (by simp))

/-- The served stops of `findNearbyStops` (src/indexed-gtfs.ts:239). -/
def servedStops (stops : List Stop) (stopTimes : List StopTime) :
    List Stop :=
  stops.filter (fun st => stopTimes.any (fun x => x.stopId = st.stopId))

/-- The empty per-stop map `findNearbyStops` starts from
(src/indexed-gtfs.ts:243-246). -/
def nearbyBase (stops : List Stop) (stopTimes : List StopTime) :
    List (String × List WalkingTransfer) :=
  (servedStops stops stopTimes).foldl (fun m st => alPut m st.stopId []) []

theorem findNearbyStops_eq (stops : List Stop) (stopTimes : List StopTime)
    (tripIdToTrip : List (String × Trip)) (attrs : List (String × Bool))
    (maxKm : ℚ) (dist : Stop → Stop → ℚ)
    (water : ℚ → ℚ → ℚ → ℚ → Bool) :
    findNearbyStops stops stopTimes tripIdToTrip attrs maxKm dist water =
      (nearbyLoop (indexRoutesByStop stopTimes tripIdToTrip) attrs maxKm
        dist water (servedStops stops stopTimes)
        (nearbyBase stops stopTimes)).map
        (fun p => (p.1, stableSortBy kmLe p.2)) := rfl

theorem nearbyBase_entries (stops : List Stop) (stopTimes : List StopTime) :
    ∀ pc ∈ nearbyBase stops stopTimes,
      pc.2 = ([] : List WalkingTransfer) := by
  unfold nearbyBase
  have hstep : ∀ (t : List (String × List WalkingTransfer)) (st : Stop),
      (∀ pc ∈ t, pc.2 = ([] : List WalkingTransfer)) →
      ∀ pc ∈ alPut t st.stopId ([] : List WalkingTransfer), pc.2 = [] := by
    intro t st ht pc hpc
    rcases mem_alPut_elim _ _ _ _ hpc with ⟨hin, _⟩ | rfl
    · exact ht pc hin
    · rfl
  exact foldl_preserve
    (fun (m : List (String × List WalkingTransfer)) (st : Stop) =>
      alPut m st.stopId []) hstep _ []
    (by intro pc hpc; simp at hpc)

theorem nearbyBase_getD (stops : List Stop) (stopTimes : List StopTime)
    (k : String) : alGetD (nearbyBase stops stopTimes) k [] = [] := by
  unfold alGetD
  cases hf : alFind (nearbyBase stops stopTimes) k with
  | none => rfl
  | some l =>
      have := nearbyBase_entries stops stopTimes (k, l) (alFind_mem _ _ _ hf)
      simpa using this

theorem nearbyBase_wtOk (stops : List Stop) (stopTimes : List StopTime) :
    wtOk (nearbyBase stops stopTimes) := by
  intro pc hpc
  have h := nearbyBase_entries stops stopTimes pc hpc
  rw [h]
  exact ⟨by simp, by intro t ht; simp at ht⟩

theorem servedStops_ids_nodup (stops : List Stop)
    (stopTimes : List StopTime)
    (hids : (stops.map (fun st => st.stopId)).Nodup) :
    ((servedStops stops stopTimes).map (fun st => st.stopId)).Nodup := by
  unfold servedStops
  exact List.Nodup.sublist
    ((List.filter_sublist stops).map (fun st => st.stopId)) hids

theorem findNearbyStops_entry (stops : List Stop) (stopTimes : List StopTime)
    (tripIdToTrip : List (String × Trip)) (attrs : List (String × Bool))
    (maxKm : ℚ) (dist : Stop → Stop → ℚ)
    (water : ℚ → ℚ → ℚ → ℚ → Bool) (s : String) :
    alGetD (findNearbyStops stops stopTimes tripIdToTrip attrs maxKm dist
      water) s [] = [] ∨
      ∃ l, (s, l) ∈ nearbyLoop (indexRoutesByStop stopTimes tripIdToTrip)
          attrs maxKm dist water (servedStops stops stopTimes)
          (nearbyBase stops stopTimes) ∧
        alGetD (findNearbyStops stops stopTimes tripIdToTrip attrs maxKm dist
          water) s [] = stableSortBy kmLe l := by
  rw [findNearbyStops_eq]
  unfold alGetD
  rw [alFind_map_pair _ (fun v => stableSortBy kmLe v) s]
  cases hf : alFind (nearbyLoop (indexRoutesByStop stopTimes tripIdToTrip)
      attrs maxKm dist water (servedStops stops stopTimes)
      (nearbyBase stops stopTimes)) s with
  | none => left; rfl
  | some l => right; exact ⟨l, alFind_mem _ _ _ hf, rfl⟩

theorem findNearbyStops_ok (stops : List Stop) (stopTimes : List StopTime)
    (tripIdToTrip : List (String × Trip)) (attrs : List (String × Bool))
    (maxKm : ℚ) (dist : Stop → Stop → ℚ)
    (water : ℚ → ℚ → ℚ → ℚ → Bool)
    (hids : (stops.map (fun st => st.stopId)).Nodup) (s : String) :
    ((alGetD (findNearbyStops stops stopTimes tripIdToTrip attrs maxKm dist
      water) s []).map (fun t => t.stopId)).Nodup ∧
      ∀ t ∈ alGetD (findNearbyStops stops stopTimes tripIdToTrip attrs maxKm
        dist water) s [], t.stopId ≠ s := by
  rcases findNearbyStops_entry stops stopTimes tripIdToTrip attrs maxKm dist
    water s with hnil | ⟨l, hl, heq⟩
  · rw [hnil]; exact ⟨by simp, by intro t ht; simp at ht⟩
  · rw [heq]
    have hok : wtOk (nearbyLoop (indexRoutesByStop stopTimes tripIdToTrip)
        attrs maxKm dist water (servedStops stops stopTimes)
        (nearbyBase stops stopTimes)) :=
      nearbyLoop_wtOk (indexRoutesByStop stopTimes tripIdToTrip) attrs maxKm
        dist water (servedStops stops stopTimes) []
        (nearbyBase stops stopTimes)
        (by simpa using servedStops_ids_nodup stops stopTimes hids)
        (nearbyBase_wtOk stops stopTimes)
        (by intro x hx t ht; rw [nearbyBase_getD] at ht; simp at ht)
    rcases hok (s, l) hl with ⟨h1, h2⟩
    constructor
    · exact (((stableSortBy_perm kmLe l).map (fun t => t.stopId)).nodup_iff).2
        (by simpa using h1)
    · intro t ht
      exact h2 t (mem_stableSortBy kmLe l t ht)

theorem findNearbyStops_sorted (stops : List Stop)
    (stopTimes : List StopTime) (tripIdToTrip : List (String × Trip))
    (attrs : List (String × Bool)) (maxKm : ℚ) (dist : Stop → Stop → ℚ)
    (water : ℚ → ℚ → ℚ → ℚ → Bool) (s : String) :
    (alGetD (findNearbyStops stops stopTimes tripIdToTrip attrs maxKm dist
      water) s []).Pairwise (fun a b => kmLe a b = true) := by
  rcases findNearbyStops_entry stops stopTimes tripIdToTrip attrs maxKm dist
    water s with hnil | ⟨l, _, heq⟩
  · rw [hnil]; exact List.Pairwise.nil
  · rw [heq]
    exact pairwise_stableSortBy kmLe kmLe_total kmLe_trans l

theorem pushTransfer_keys_nodup (m : List (String × List WalkingTransfer))
    (k : String) (t : WalkingTransfer)
    (h : (m.map (fun p => p.1)).Nodup) :
    ((pushTransfer m k t).map (fun p => p.1)).Nodup := by
  unfold pushTransfer
  exact alPut_keys_nodup m k _ h

theorem nearbyStep_keys_nodup (stopIdToRoutes : List (String × List String))
    (attrs : List (String × Bool)) (maxKm : ℚ) (dist : Stop → Stop → ℚ)
    (water : ℚ → ℚ → ℚ → ℚ → Bool) (a : Stop)
    (m : List (String × List WalkingTransfer)) (b : Stop)
    (h : (m.map (fun p => p.1)).Nodup) :
    ((nearbyStep stopIdToRoutes attrs maxKm dist water a m b).map
      (fun p => p.1)).Nodup := by
  rcases nearbyStep_cases stopIdToRoutes attrs maxKm dist water a m b
    with he | he <;> rw [he]
  · exact h
  · exact pushTransfer_keys_nodup _ _ _ (pushTransfer_keys_nodup _ _ _ h)

theorem nearbyLoop_keys_nodup (stopIdToRoutes : List (String × List String))
    (attrs : List (String × Bool)) (maxKm : ℚ) (dist : Stop → Stop → ℚ)
    (water : ℚ → ℚ → ℚ → ℚ → Bool) :
    ∀ (rem : List Stop) (m : List (String × List WalkingTransfer)),
      (m.map (fun p => p.1)).Nodup →
      ((nearbyLoop stopIdToRoutes attrs maxKm dist water rem m).map
        (fun p => p.1)).Nodup := by
  intro rem
  induction rem with
  | nil => intro m h; exact h
  | cons a rest ih =>
      intro m h
      rw [nearbyLoop_cons]
      exact ih _ (foldl_preserve
        (nearbyStep stopIdToRoutes attrs maxKm dist water a)
        (fun t b ht =>
          nearbyStep_keys_nodup stopIdToRoutes attrs maxKm dist water a t b
            ht)
        rest m h)

theorem alPutFold_keys_nodup :
    ∀ (l : List Stop) (m : List (String × List WalkingTransfer)),
      (m.map (fun p => p.1)).Nodup →
      ((l.foldl (fun m st => alPut m st.stopId []) m).map
        (fun p => p.1)).Nodup := by
  intro l
  exact foldl_preserve (fun m st => alPut m st.stopId [])
    (fun t st ht => alPut_keys_nodup t st.stopId [] ht) l

theorem findNearbyStops_keys_nodup (stops : List Stop)
    (stopTimes : List StopTime) (tripIdToTrip : List (String × Trip))
    (attrs : List (String × Bool)) (maxKm : ℚ) (dist : Stop → Stop → ℚ)
    (water : ℚ → ℚ → ℚ → ℚ → Bool) :
    ((findNearbyStops stops stopTimes tripIdToTrip attrs maxKm dist
      water).map (fun p => p.1)).Nodup := by
  rw [findNearbyStops_eq, List.map_map]
  have hcomp : ((fun p : String × List WalkingTransfer => p.1) ∘
      (fun p : String × List WalkingTransfer =>
        (p.1, stableSortBy kmLe p.2))) =
      (fun p : String × List WalkingTransfer => p.1) := by
    funext p; rfl
  rw [hcomp]
  apply nearbyLoop_keys_nodup
  unfold nearbyBase
  exact alPutFold_keys_nodup _ [] (by simp)

theorem merge_getD (impl : List (String × List WalkingTransfer)) :
    ∀ (expl : List (String × List WalkingTransfer)) (s : String),
      (impl.map (fun p => p.1)).Nodup →
      alGetD (impl.foldl
        (fun m p => alPut m p.1 (alGetD m p.1 [] ++ p.2)) expl) s [] =
        alGetD expl s [] ++ alGetD impl s [] := by
  induction impl with
  | nil => intro expl s _; simp [alGetD, alFind]
  | cons p rest ih =>
      intro expl s hnd
      have hk : p.1 ∉ rest.map (fun q => q.1) :=
        (List.nodup_cons.1 (by simpa using hnd)).1
      have hnd2 : (rest.map (fun q => q.1)).Nodup :=
        (List.nodup_cons.1 (by simpa using hnd)).2
      rw [List.foldl_cons]
      rw [ih _ s hnd2]
      by_cases hs : s = p.1
      · subst hs
        rw [alGetD_alPut_self, alGetD_not_mem_keys rest p.1 [] hk,
          alGetD_cons_self]
        simp
      · rw [alGetD_alPut_ne _ _ _ _ _ hs, alGetD_cons_ne _ _ _ _ hs]

theorem computeTransfers_getD (stops : List Stop) (transfers : List Transfer)
    (stopTimes : List StopTime) (tripIdToTrip : List (String × Trip))
    (attrs : List (String × Bool)) (maxKm : ℚ) (dist : Stop → Stop → ℚ)
    (water : ℚ → ℚ → ℚ → ℚ → Bool) (s : String) :
    alGetD (computeTransfers stops transfers stopTimes tripIdToTrip attrs
      maxKm dist water) s [] =
      alGetD (getExplicitTransfers stops transfers) s [] ++
        alGetD (findNearbyStops stops stopTimes tripIdToTrip attrs maxKm dist
          water) s [] := by
  unfold computeTransfers
  exact merge_getD _ _ s
    (findNearbyStops_keys_nodup stops stopTimes tripIdToTrip attrs maxKm dist
      water)

/-- C5: for every feed whose stop ids are distinct and in which no stop is
its own parent station, and every origin `s`, the merged walking-transfer
map is, per origin, the explicit-transfer list (intra-station plus
`MIN_TIME` fan-out, de-duplicated by destination and sorted by
`(secs, stopId)`) concatenated with the proximity list (at most one entry
per destination, sorted by km); neither source contributes a self-loop,
and each source on its own has at most one entry per destination — but the
concatenation performs no cross-source de-duplication, so a destination
reachable both explicitly and by proximity appears twice. -/
theorem C5_transfer_map (stops : List Stop) (transfers : List Transfer)
    (stopTimes : List StopTime) (tripIdToTrip : List (String × Trip))
    (attrs : List (String × Bool)) (maxKm : ℚ) (dist : Stop → Stop → ℚ)
    (water : ℚ → ℚ → ℚ → ℚ → Bool)
    (hids : (stops.map (fun st => st.stopId)).Nodup)
    (hpar : ∀ st ∈ stops, st.parentStation ≠ some st.stopId) (s : String) :
    alGetD (computeTransfers stops transfers stopTimes tripIdToTrip attrs
      maxKm dist water) s [] =
      alGetD (getExplicitTransfers stops transfers) s [] ++
        alGetD (findNearbyStops stops stopTimes tripIdToTrip attrs maxKm
          dist water) s [] ∧
    (∀ t ∈ alGetD (computeTransfers stops transfers stopTimes tripIdToTrip
      attrs maxKm dist water) s [], t.stopId ≠ s) ∧
    ((alGetD (getExplicitTransfers stops transfers) s []).map
      (fun t => t.stopId)).Nodup ∧
    (alGetD (getExplicitTransfers stops transfers) s []).Pairwise
      (fun a b => secsStopLe a b = true) ∧
    ((alGetD (findNearbyStops stops stopTimes tripIdToTrip attrs maxKm dist
      water) s []).map (fun t => t.stopId)).Nodup ∧
    (alGetD (findNearbyStops stops stopTimes tripIdToTrip attrs maxKm dist
      water) s []).Pairwise (fun a b => kmLe a b = true) := by
  have hconcat := computeTransfers_getD stops transfers stopTimes
    tripIdToTrip attrs maxKm dist water s
  have hex := getExplicitTransfers_noSelf stops transfers hids hpar s
  have hnear := findNearbyStops_ok stops stopTimes tripIdToTrip attrs maxKm
    dist water hids s
  refine ⟨hconcat, ?_, getExplicitTransfers_nodup stops transfers s,
    getExplicitTransfers_sorted stops transfers s, hnear.1,
    findNearbyStops_sorted stops stopTimes tripIdToTrip attrs maxKm dist
      water s⟩
  intro t ht
  rw [hconcat] at ht
  rcases List.mem_append.1 ht with h1 | h2
  · exact hex t h1
  · exact hnear.2 t h2

/-- Two stops on different routes, 1 km apart, also linked by an explicit
`MIN_TIME` transfer: destination `B` then enters `A`'s merged list twice. -/
def stopsX5 : List Stop :=
  [⟨"A", "A", 0, 0, none, none⟩, ⟨"B", "B", 0, 0, none, none⟩]

def stopTimesX5 : List StopTime := [⟨"T1", "A", 0, 0⟩, ⟨"T2", "B", 0, 0⟩]

def tripsX5 : List (String × Trip) :=
  [("T1", ⟨"T1", "R1", "s"⟩), ("T2", ⟨"T2", "R2", "s"⟩)]

def transfersX5 : List Transfer :=
  [⟨"A", "B", TransferType.minTime, some 60⟩]

/-- C5 counterexample: `computeTransfers` concatenates the explicit and
proximity lists per origin without de-duplicating across the two sources,
so origin `A` ends up with two entries for destination `B` (one explicit
with secs, one walked with km) — the claim's "at most one entry per
destination stop id" fails for the merged map. -/
theorem C5_counterexample :
    (alGetD (computeTransfers stopsX5 transfersX5 stopTimesX5 tripsX5 [] 2
      (fun _ _ => 1) (fun _ _ _ _ => false)) "A" []).map
      (fun t => t.stopId) = ["B", "B"] := by decide

/-- C5 witness: the amended per-source characterization evaluated on the
two-stop feed at origin `A`. -/
theorem C5_witness :
    ((stopsX5.map (fun st => st.stopId)).Nodup ∧
      ∀ st ∈ stopsX5, st.parentStation ≠ some st.stopId) ∧
    (alGetD (computeTransfers stopsX5 transfersX5 stopTimesX5 tripsX5 [] 2
      (fun _ _ => 1) (fun _ _ _ _ => false)) "A" [] =
      alGetD (getExplicitTransfers stopsX5 transfersX5) "A" [] ++
        alGetD (findNearbyStops stopsX5 stopTimesX5 tripsX5 [] 2
          (fun _ _ => 1) (fun _ _ _ _ => false)) "A" [] ∧
    (∀ t ∈ alGetD (computeTransfers stopsX5 transfersX5 stopTimesX5 tripsX5
      [] 2 (fun _ _ => 1) (fun _ _ _ _ => false)) "A" [],
      t.stopId ≠ "A") ∧
    ((alGetD (getExplicitTransfers stopsX5 transfersX5) "A" []).map
      (fun t => t.stopId)).Nodup ∧
    (alGetD (getExplicitTransfers stopsX5 transfersX5) "A" []).Pairwise
      (fun a b => secsStopLe a b = true) ∧
    ((alGetD (findNearbyStops stopsX5 stopTimesX5 tripsX5 [] 2
      (fun _ _ => 1) (fun _ _ _ _ => false)) "A" []).map
      (fun t => t.stopId)).Nodup ∧
    (alGetD (findNearbyStops stopsX5 stopTimesX5 tripsX5 [] 2
      (fun _ _ => 1) (fun _ _ _ _ => false)) "A" []).Pairwise
      (fun a b => kmLe a b = true)) :=
  ⟨⟨by decide, by decide⟩,
    C5_transfer_map stopsX5 transfersX5 stopTimesX5 tripsX5 [] 2
      (fun _ _ => 1) (fun _ _ _ _ => false) (by decide) (by decide) "A"⟩

/-! Lemmas for the feed-augmentation frame property (claim C9). -/

theorem getD_set_ne {α : Type} (l : List α) (i : Nat) (v : α) (j : Nat)
    (d : α) (h : i ≠ j) : (l.set i v).getD j d = l.getD j d := by
  rw [List.getD_eq_getD_get?, List.getD_eq_getD_get?]
  rw [List.get?_eq_getElem?, List.get?_eq_getElem?]
  rw [List.getElem?_set_ne h]

/-- What the transfer-adding folds of `augmentWithLocations` preserve,
relative to the store `base` they start from: stop arrays, stop maps and
spatial cells are untouched, walking-transfer list cells of `base` keep
their contents (new ones are only appended), and the only map cell written
is the freshly copied `wtMapRef`. -/
structure TInv (base : FStore) (wtMapRef : Nat) (st : FStore) : Prop where
  arrs : st.stopArrs = base.stopArrs
  maps : st.stopMaps = base.stopMaps
  spat : st.spatials = base.spatials
  wlen : base.wtLists.length ≤ st.wtLists.length
  wget : ∀ r, r < base.wtLists.length →
    st.wtLists.getD r [] = base.wtLists.getD r []
  mget : ∀ r, r ≠ wtMapRef →
    st.wtMaps.getD r [] = base.wtMaps.getD r []

theorem TInv_refl (base : FStore) (wtMapRef : Nat) :
    TInv base wtMapRef base :=
  ⟨rfl, rfl, rfl, le_rfl, fun _ _ => rfl, fun _ _ => rfl⟩

theorem addTransferM_TInv (base st : FStore) (wtMapRef : Nat) (x y : String)
    (k : ℚ) (h : TInv base wtMapRef st) :
    TInv base wtMapRef (addTransferM st wtMapRef x y k) := by
  refine ⟨h.arrs, h.maps, h.spat, ?_, ?_, ?_⟩
  · have e : (addTransferM st wtMapRef x y k).wtLists.length =
        st.wtLists.length + 1 := by
      show (st.wtLists ++ [_]).length = st.wtLists.length + 1
      rw [List.length_append]
      rfl
    rw [e]
    exact le_trans h.wlen (Nat.le_succ _)
  · intro r hr
    have e : (addTransferM st wtMapRef x y k).wtLists =
        st.wtLists ++
          [(match alFind (readWtMap st wtMapRef) x with
            | some r2 => readWtList st r2
            | none => []) ++ [⟨y, some k, none⟩]] := rfl
    rw [e, List.getD_append _ _ _ _ (lt_of_lt_of_le hr h.wlen)]
    exact h.wget r hr
  · intro r hner
    have e : (addTransferM st wtMapRef x y k).wtMaps =
        st.wtMaps.set wtMapRef
          (alPut (readWtMap st wtMapRef) x st.wtLists.length) := rfl
    rw [e, getD_set_ne _ wtMapRef _ r _ (fun hq => hner hq.symm)]
    exact h.mget r hner

theorem writeFold_frame (mapRef : Nat) :
    ∀ (newStops : List Stop) (st : FStore),
      (newStops.foldl (fun st stop =>
          writeStopMap st mapRef
            (alPut (readStopMap st mapRef) stop.stopId stop)) st).stopArrs =
        st.stopArrs ∧
      (newStops.foldl (fun st stop =>
          writeStopMap st mapRef
            (alPut (readStopMap st mapRef) stop.stopId stop)) st).wtLists =
        st.wtLists ∧
      (newStops.foldl (fun st stop =>
          writeStopMap st mapRef
            (alPut (readStopMap st mapRef) stop.stopId stop)) st).wtMaps =
        st.wtMaps ∧
      (newStops.foldl (fun st stop =>
          writeStopMap st mapRef
            (alPut (readStopMap st mapRef) stop.stopId stop)) st).spatials =
        st.spatials ∧
      ∀ r, r ≠ mapRef →
        (newStops.foldl (fun st stop =>
          writeStopMap st mapRef
            (alPut (readStopMap st mapRef) stop.stopId stop))
          st).stopMaps.getD r [] = st.stopMaps.getD r [] := by
  intro newStops
  induction newStops with
  | nil => intro st; exact ⟨rfl, rfl, rfl, rfl, fun r _ => rfl⟩
  | cons s rest ih =>
      intro st
      rw [List.foldl_cons]
      obtain ⟨h1, h2, h3, h4, h5⟩ := ih (writeStopMap st mapRef
        (alPut (readStopMap st mapRef) s.stopId s))
      refine ⟨h1, h2, h3, h4, ?_⟩
      intro r hr
      rw [h5 r hr]
      exact getD_set_ne _ mapRef _ r _ (fun hq => hr hq.symm)

/-- The locations of `augmentWithLocations`, destinations then origin. -/
def augLocs (origin : Option Loc) (destinations : List Loc) : List Loc :=
  destinations ++ origin.toList

/-- The synthetic stops made from the locations. -/
def augNewStops (origin : Option Loc) (destinations : List Loc) :
    List Stop :=
  (augLocs origin destinations).map locToStop

/-- Stage 1 of `augmentWithLocations`: the fresh concatenated stops array
(src/indexed-gtfs.ts:334). -/
def augSt1 (base : FStore) (f : FeedObj) (origin : Option Loc)
    (destinations : List Loc) : FStore × Nat :=
  allocStops base
    (readStops base f.stopsRef ++ augNewStops origin destinations)

/-- Stage 2: the one-level copy of the stop map (src/indexed-gtfs.ts:336). -/
def augSt2 (base : FStore) (f : FeedObj) (origin : Option Loc)
    (destinations : List Loc) : FStore × Nat :=
  allocStopMap (augSt1 base f origin destinations).1
    (readStopMap (augSt1 base f origin destinations).1 f.stopIdToStopRef)

/-- Stage 3: the synthetic stops written into the copied map
(src/indexed-gtfs.ts:337-340). -/
def augSt3 (base : FStore) (f : FeedObj) (origin : Option Loc)
    (destinations : List Loc) : FStore :=
  (augNewStops origin destinations).foldl
    (fun st stop =>
      writeStopMap st (augSt2 base f origin destinations).2
        (alPut (readStopMap st (augSt2 base f origin destinations).2)
          stop.stopId stop))
    (augSt2 base f origin destinations).1

/-- Stage 4: the one-level copy of the walking-transfer map
(src/indexed-gtfs.ts:343). -/
def augSt4 (base : FStore) (f : FeedObj) (origin : Option Loc)
    (destinations : List Loc) : FStore × Nat :=
  allocWtMap (augSt3 base f origin destinations)
    (readWtMap (augSt3 base f origin destinations) f.walkingTransfersRef)

/-- Stage 5: walking transfers between the locations and the nearby
existing stops (src/indexed-gtfs.ts:355-366). -/
def augSt5 (base : FStore) (f : FeedObj) (origin : Option Loc)
    (destinations : List Loc) (options : QueryOptions)
    (search : List Loc → Loc → ℚ → List Link)
    (water : ℚ → ℚ → ℚ → ℚ → Bool) : FStore :=
  (augLocs origin destinations).foldl
    (fun st loc =>
      (search (readSpatial (augSt4 base f origin destinations).1
          f.stopIndexRef) loc options.max_walking_distance_km).foldl
        (fun st link =>
          let a := alGetD (readStopMap st
            (augSt2 base f origin destinations).2) loc.id default
          let b := alGetD (readStopMap st
            (augSt2 base f origin destinations).2) link.id default
          if water a.stopLat a.stopLng b.stopLat b.stopLng then st
          else
            match origin with
            | some o =>
                if loc.id = o.id then
                  addTransferM st (augSt4 base f origin destinations).2
                    loc.id link.id link.km
                else
                  addTransferM st (augSt4 base f origin destinations).2
                    link.id loc.id link.km
            | none =>
                addTransferM st (augSt4 base f origin destinations).2
                  link.id loc.id link.km)
        st)
    (augSt4 base f origin destinations).1

/-- Stage 6: walks between the origin and the destination locations
(src/indexed-gtfs.ts:369-379). -/
def augSt6 (base : FStore) (f : FeedObj) (origin : Option Loc)
    (destinations : List Loc) (options : QueryOptions)
    (search : List Loc → Loc → ℚ → List Link)
    (water : ℚ → ℚ → ℚ → ℚ → Bool) : FStore :=
  match origin with
  | none => augSt5 base f origin destinations options search water
  | some o =>
      (search (augLocs origin destinations) o
          options.max_walking_distance_km).foldl
        (fun st link =>
          if link.id = o.id then st
          else
            let destination := alGetD (readStopMap st
              (augSt2 base f origin destinations).2) link.id default
            if water o.latitude o.longitude destination.stopLat
                destination.stopLng then st
            else
              addTransferM st (augSt4 base f origin destinations).2 o.id
                link.id link.km)
        (augSt5 base f origin destinations options search water)

/-- The success value of `augmentWithLocations`: the final store after the
spatial-index copy, and the augmented feed object of fresh cells. -/
def augResult (base : FStore) (f : FeedObj) (origin : Option Loc)
    (destinations : List Loc) (options : QueryOptions)
    (search : List Loc → Loc → ℚ → List Link)
    (water : ℚ → ℚ → ℚ → ℚ → Bool) : FStore × FeedObj :=
  ((allocSpatial (augSt6 base f origin destinations options search water)
      (readSpatial (augSt6 base f origin destinations options search water)
          f.stopIndexRef ++ augLocs origin destinations)).1,
    { stopsRef := (augSt1 base f origin destinations).2,
      stopIdToStopRef := (augSt2 base f origin destinations).2,
      walkingTransfersRef := (augSt4 base f origin destinations).2,
      stopIndexRef :=
        (allocSpatial (augSt6 base f origin destinations options search
            water)
          (readSpatial (augSt6 base f origin destinations options search
              water) f.stopIndexRef ++ augLocs origin destinations)).2 })

theorem augment_error_eq (st : FStore) (f : FeedObj) (origin : Option Loc)
    (destinations : List Loc) (options : QueryOptions)
    (search : List Loc → Loc → ℚ → List Link)
    (water : ℚ → ℚ → ℚ → ℚ → Bool)
    (hdupe : ((readStopMap st f.stopIdToStopRef).map (·.1)).filter
      (· ∈ (destinations ++ origin.toList).map (·.id)) ≠ []) :
    augmentWithLocations st f origin destinations options search water =
      Except.error "id collision between locations and stops" := by
  unfold augmentWithLocations
  rw [if_pos hdupe]

theorem augment_ok_eq (st : FStore) (f : FeedObj) (origin : Option Loc)
    (destinations : List Loc) (options : QueryOptions)
    (search : List Loc → Loc → ℚ → List Link)
    (water : ℚ → ℚ → ℚ → ℚ → Bool)
    (hdupe : ¬ ((readStopMap st f.stopIdToStopRef).map (·.1)).filter
      (· ∈ (destinations ++ origin.toList).map (·.id)) ≠ []) :
    augmentWithLocations st f origin destinations options search water =
      Except.ok (augResult st f origin destinations options search water) := by
  unfold augmentWithLocations
  rw [if_neg hdupe]
  rfl

theorem augTransfer_TInv (base : FStore) (f : FeedObj) (origin : Option Loc)
    (destinations : List Loc) (options : QueryOptions)
    (search : List Loc → Loc → ℚ → List Link)
    (water : ℚ → ℚ → ℚ → ℚ → Bool) :
    TInv (augSt4 base f origin destinations).1
      (augSt4 base f origin destinations).2
      (augSt6 base f origin destinations options search water) := by
  have h5 : TInv (augSt4 base f origin destinations).1
      (augSt4 base f origin destinations).2
      (augSt5 base f origin destinations options search water) := by
    unfold augSt5
    refine foldl_preserve _ (fun t loc ht => ?_) _ _ (TInv_refl _ _)
    refine foldl_preserve _ (fun t2 link ht2 => ?_) _ t ht
    dsimp only
    split
    · exact ht2
    · split
      · split
        · exact addTransferM_TInv _ _ _ _ _ _ ht2
        · exact addTransferM_TInv _ _ _ _ _ _ ht2
      · exact addTransferM_TInv _ _ _ _ _ _ ht2
  unfold augSt6
  cases origin with
  | none => exact h5
  | some o =>
      dsimp only
      refine foldl_preserve _ (fun t link ht => ?_) _ _ h5
      dsimp only
      split
      · exact ht
      · split
        · exact ht
        · exact addTransferM_TInv _ _ _ _ _ _ ht

/-- C9: for every well-formed base feed object (its four cell references in
bounds of the store), `augmentWithLocations` either reports an id
collision or succeeds, and on success the base feed is unmutated: its
stops array, stop map, walking-transfer map, every one of its per-origin
walking-transfer list cells, and its spatial-index cell all read exactly
as before, while the returned feed object points at four freshly
allocated cells, none of them a cell of the base feed. -/
theorem C9_augment_frame (st0 : FStore) (f : FeedObj) (origin : Option Loc)
    (destinations : List Loc) (options : QueryOptions)
    (search : List Loc → Loc → ℚ → List Link)
    (water : ℚ → ℚ → ℚ → ℚ → Bool) (st1 : FStore) (f1 : FeedObj)
    (hstops : f.stopsRef < st0.stopArrs.length)
    (hmap : f.stopIdToStopRef < st0.stopMaps.length)
    (hwt : f.walkingTransfersRef < st0.wtMaps.length)
    (hspat : f.stopIndexRef < st0.spatials.length)
    (hok : augmentWithLocations st0 f origin destinations options search
      water = Except.ok (st1, f1)) :
    readStops st1 f.stopsRef = readStops st0 f.stopsRef ∧
    readStopMap st1 f.stopIdToStopRef =
      readStopMap st0 f.stopIdToStopRef ∧
    readWtMap st1 f.walkingTransfersRef =
      readWtMap st0 f.walkingTransfersRef ∧
    (∀ p ∈ readWtMap st0 f.walkingTransfersRef,
      p.2 < st0.wtLists.length →
      readWtList st1 p.2 = readWtList st0 p.2) ∧
    readSpatial st1 f.stopIndexRef = readSpatial st0 f.stopIndexRef ∧
    f1.stopsRef ≠ f.stopsRef ∧
    f1.stopIdToStopRef ≠ f.stopIdToStopRef ∧
    f1.walkingTransfersRef ≠ f.walkingTransfersRef ∧
    f1.stopIndexRef ≠ f.stopIndexRef := by
  by_cases hdupe : ((readStopMap st0 f.stopIdToStopRef).map (·.1)).filter
      (· ∈ (destinations ++ origin.toList).map (·.id)) ≠ []
  · rw [augment_error_eq st0 f origin destinations options search water
      hdupe] at hok
    exact Except.noConfusion hok
  · rw [augment_ok_eq st0 f origin destinations options search water
      hdupe] at hok
    have hpair := Except.ok.inj hok
    have hst : (augResult st0 f origin destinations options search
        water).1 = st1 := congrArg Prod.fst hpair
    have hf : (augResult st0 f origin destinations options search
        water).2 = f1 := congrArg Prod.snd hpair
    subst hst hf
    have harr3 : (augSt3 st0 f origin destinations).stopArrs =
        st0.stopArrs ++
          [readStops st0 f.stopsRef ++ augNewStops origin destinations] :=
      (writeFold_frame (augSt2 st0 f origin destinations).2
        (augNewStops origin destinations)
        (augSt2 st0 f origin destinations).1).1
    have hwl3 : (augSt3 st0 f origin destinations).wtLists =
        st0.wtLists :=
      (writeFold_frame (augSt2 st0 f origin destinations).2
        (augNewStops origin destinations)
        (augSt2 st0 f origin destinations).1).2.1
    have hwm3 : (augSt3 st0 f origin destinations).wtMaps = st0.wtMaps :=
      (writeFold_frame (augSt2 st0 f origin destinations).2
        (augNewStops origin destinations)
        (augSt2 st0 f origin destinations).1).2.2.1
    have hsp3 : (augSt3 st0 f origin destinations).spatials =
        st0.spatials :=
      (writeFold_frame (augSt2 st0 f origin destinations).2
        (augNewStops origin destinations)
        (augSt2 st0 f origin destinations).1).2.2.2.1
    have hsm3 : ∀ r, r ≠ (augSt2 st0 f origin destinations).2 →
        (augSt3 st0 f origin destinations).stopMaps.getD r [] =
          (st0.stopMaps ++
            [readStopMap st0 f.stopIdToStopRef]).getD r [] :=
      (writeFold_frame (augSt2 st0 f origin destinations).2
        (augNewStops origin destinations)
        (augSt2 st0 f origin destinations).1).2.2.2.2
    have hTI := augTransfer_TInv st0 f origin destinations options search
      water
    have hmref : (augSt2 st0 f origin destinations).2 =
        st0.stopMaps.length := rfl
    have hwref : (augSt4 st0 f origin destinations).2 =
        st0.wtMaps.length := by
      show (augSt3 st0 f origin destinations).wtMaps.length =
        st0.wtMaps.length
      rw [hwm3]
    have harrs6 : (augSt6 st0 f origin destinations options search
        water).stopArrs = st0.stopArrs ++
          [readStops st0 f.stopsRef ++ augNewStops origin destinations] :=
      hTI.arrs.trans harr3
    have hsp6 : (augSt6 st0 f origin destinations options search
        water).spatials = st0.spatials := hTI.spat.trans hsp3
    have hwl4 : (augSt4 st0 f origin destinations).1.wtLists =
        st0.wtLists := hwl3
    refine ⟨?_, ?_, ?_, ?_, ?_, ?_, ?_, ?_, ?_⟩
    · show ((augSt6 st0 f origin destinations options search
          water).stopArrs).getD f.stopsRef [] =
        st0.stopArrs.getD f.stopsRef []
      rw [harrs6]
      exact List.getD_append _ _ _ _ hstops
    · show ((augSt6 st0 f origin destinations options search
          water).stopMaps).getD f.stopIdToStopRef [] =
        st0.stopMaps.getD f.stopIdToStopRef []
      have hmaps6 : (augSt6 st0 f origin destinations options search
          water).stopMaps = (augSt3 st0 f origin destinations).stopMaps :=
        hTI.maps
      have hne : f.stopIdToStopRef ≠ (augSt2 st0 f origin destinations).2 :=
        by rw [hmref]; exact Nat.ne_of_lt hmap
      rw [hmaps6, hsm3 f.stopIdToStopRef hne]
      exact List.getD_append _ _ _ _ hmap
    · show ((augSt6 st0 f origin destinations options search
          water).wtMaps).getD f.walkingTransfersRef [] =
        st0.wtMaps.getD f.walkingTransfersRef []
      have h1 := hTI.mget f.walkingTransfersRef
        (by rw [hwref]; exact Nat.ne_of_lt hwt)
      rw [h1]
      show ((augSt3 st0 f origin destinations).wtMaps ++
          [readWtMap (augSt3 st0 f origin destinations)
            f.walkingTransfersRef]).getD f.walkingTransfersRef [] =
        st0.wtMaps.getD f.walkingTransfersRef []
      rw [List.getD_append _ _ _ _ (by rw [hwm3]; exact hwt), hwm3]
    · intro p hp hplen
      show ((augSt6 st0 f origin destinations options search
          water).wtLists).getD p.2 [] = st0.wtLists.getD p.2 []
      have h1 := hTI.wget p.2 (by rw [hwl4]; exact hplen)
      rw [h1]
      show (augSt3 st0 f origin destinations).wtLists.getD p.2 [] =
        st0.wtLists.getD p.2 []
      rw [hwl3]
    · show ((augSt6 st0 f origin destinations options search
          water).spatials ++
          [readSpatial (augSt6 st0 f origin destinations options search
            water) f.stopIndexRef ++ augLocs origin destinations]).getD
          f.stopIndexRef [] =
        st0.spatials.getD f.stopIndexRef []
      rw [List.getD_append _ _ _ _ (by rw [hsp6]; exact hspat), hsp6]
    · show st0.stopArrs.length ≠ f.stopsRef
      exact (Nat.ne_of_lt hstops).symm
    · show st0.stopMaps.length ≠ f.stopIdToStopRef
      exact (Nat.ne_of_lt hmap).symm
    · show (augSt3 st0 f origin destinations).wtMaps.length ≠
        f.walkingTransfersRef
      rw [hwm3]
      exact (Nat.ne_of_lt hwt).symm
    · show (augSt6 st0 f origin destinations options search
          water).spatials.length ≠ f.stopIndexRef
      rw [hsp6]
      exact (Nat.ne_of_lt hspat).symm

/-- A one-stop base feed and the store cells it owns, for the C9 witness. -/
def stopQ : Stop := ⟨"Q", "Q", 0, 0, none, none⟩

def locO9 : Loc := ⟨"L1", 0, 0⟩

def locD9 : Loc := ⟨"L2", 0, 0⟩

def stW9 : FStore :=
  ⟨[[stopQ]], [[("Q", stopQ)]], [[⟨"R", some 1, none⟩]], [[("Q", 0)]],
    [[⟨"Q", 1, 1⟩]]⟩

def fW9 : FeedObj := ⟨0, 0, 0, 0⟩

/-- The store after augmenting `stW9` with an origin and one destination
(empty spatial search): all base cells intact, four fresh cells added. -/
def stW9r : FStore :=
  ⟨[[stopQ], [stopQ, locToStop locD9, locToStop locO9]],
    [[("Q", stopQ)],
      [("Q", stopQ), ("L2", locToStop locD9), ("L1", locToStop locO9)]],
    [[⟨"R", some 1, none⟩]],
    [[("Q", 0)], [("Q", 0)]],
    [[⟨"Q", 1, 1⟩], [⟨"Q", 1, 1⟩, locD9, locO9]]⟩

def fW9r : FeedObj := ⟨1, 1, 1, 1⟩

/-- C9 witness: the frame theorem applied to the one-stop feed, with the
augmentation call evaluated concretely. -/
theorem C9_witness :
    (fW9.stopsRef < stW9.stopArrs.length ∧
      fW9.stopIdToStopRef < stW9.stopMaps.length ∧
      fW9.walkingTransfersRef < stW9.wtMaps.length ∧
      fW9.stopIndexRef < stW9.spatials.length ∧
      augmentWithLocations stW9 fW9 (some locO9) [locD9] defaultOptions
        (fun _ _ _ => []) (fun _ _ _ _ => false) =
        Except.ok (stW9r, fW9r)) ∧
    (readStops stW9r fW9.stopsRef = readStops stW9 fW9.stopsRef ∧
      readStopMap stW9r fW9.stopIdToStopRef =
        readStopMap stW9 fW9.stopIdToStopRef ∧
      readWtMap stW9r fW9.walkingTransfersRef =
        readWtMap stW9 fW9.walkingTransfersRef ∧
      (∀ p ∈ readWtMap stW9 fW9.walkingTransfersRef,
        p.2 < stW9.wtLists.length →
        readWtList stW9r p.2 = readWtList stW9 p.2) ∧
      readSpatial stW9r fW9.stopIndexRef =
        readSpatial stW9 fW9.stopIndexRef ∧
      fW9r.stopsRef ≠ fW9.stopsRef ∧
      fW9r.stopIdToStopRef ≠ fW9.stopIdToStopRef ∧
      fW9r.walkingTransfersRef ≠ fW9.walkingTransfersRef ∧
      fW9r.stopIndexRef ≠ fW9.stopIndexRef) :=
  ⟨⟨by decide, by decide, by decide, by decide, rfl⟩,
    C9_augment_frame stW9 fW9 (some locO9) [locD9] defaultOptions
      (fun _ _ _ => []) (fun _ _ _ _ => false) stW9r fW9r (by decide)
      (by decide) (by decide) (by decide) rfl⟩

end Router
